import Mathlib

/-!
rtseis: a verification development.

A shallow embedding of parts of the rtseis signal-processing library and
theorems about them.

* `src/utilities/filterRepresentations/sos.cpp` : the second-order-section
  value type `SOS`.
* `src/utilities/transforms/dftUtils.cpp` : `nextPowerOfTwo`, `fftShift`,
  `realToComplexDFTFrequencies`, `unwrap`.
* `src/utilities/filterImplementations/medianFilter.cpp` : the streaming
  median filter.
* `src/postProcessing/singleChannel/waveform.cpp` : the normalised
  frequencies and the sampling-period bookkeeping of `Waveform`.
* `src/utilities/transforms/firEnvelope.cpp` : the FIR envelope.

Conventions.  A C++ `double` coefficient is a rational number (`ℚ`); the
samples pushed through the median filter are elements of an arbitrary linear
order with a zero (no NaN).  An `int` is an `Int`; where the source casts
between integer types the wrap-around is written out, and a `double` cast to
`int` outside the range of `int` gives `INT_MIN`.  A `std::vector` is a
`List`.  A member function that mutates `*this` takes the old object and
returns the new one; a function that may throw returns an `Except`.
-/

namespace RTSeis

/-- The exceptions thrown by the library (the message text is not modelled):
`std::invalid_argument`, also thrown by the macro `RTSEIS_THROW_IA`, and
`std::runtime_error`, also thrown by the macro `RTSEIS_THROW_RTE`. -/
inductive Exn where
  | invalid_argument
  | runtime_error
  deriving DecidableEq, Repr

/-- Value of `static_cast<int>(v)` for an integer `v`: reduction modulo `2^32`
into the range `[-2^31, 2^31)`. -/
def toInt32 (v : Int) : Int := (v + 2 ^ 31) % 2 ^ 32 - 2 ^ 31

/-- Value of `static_cast<uint64_t>(v)` for an integer `v`. -/
def toUInt64 (v : Int) : Int := v % 2 ^ 64

/-! ## Second-order sections (`sos.cpp`) -/

namespace Utilities.FilterRepresentations

/-- `#define DEFAULT_TOL 1.e-12` -/
def DEFAULT_TOL : ℚ := 1 / 10 ^ 12

/-- `class SOS::SOSImpl`: the state behind an `SOS` object. -/
structure SOSImpl where
  /-- Numerator coefficients -/
  bs : List ℚ := []
  /-- Denominator coefficients -/
  as : List ℚ := []
  /-- Number of sections -/
  ns : Int := 0
  /-- Equality tolerance -/
  tol : ℚ := DEFAULT_TOL
  deriving DecidableEq, Repr

namespace SOS

/-- `SOS::SOS(void)` -/
def new : SOSImpl := {}

/-- `SOS::clear` -/
def clear (self : SOSImpl) : SOSImpl :=
  { self with bs := [], as := [], ns := 0, tol := DEFAULT_TOL }

/-- The loop `for (int i=0; i<ns; i++) if (c[3*i] == 0) throw ...`, started at
section `i` with `cnt` sections still to visit: the first section whose
leading coefficient is zero, if there is one. -/
def leadingZeroFrom (c : List ℚ) : Nat → Nat → Option Nat
  | _, 0 => none
  | i, cnt + 1 => if (c.get? (3 * i)) = some 0 then some i else leadingZeroFrom c (i + 1) cnt

/-- `SOS::setSecondOrderSections`: the result of the call (normal return or the
exception thrown) together with the object afterwards. -/
def setSecondOrderSections (self : SOSImpl) (ns : Int) (bs as : List ℚ) :
    Except Exn Unit × SOSImpl :=
  let self := clear self
  if ns < 1 then (.error .invalid_argument, self)
  else
    -- `static_cast<size_t> (ns)*3`: `ns` is a positive `int` here, so the
    -- product is exact in `size_t`
    let ns3 : Int := ns * 3
    if ns3 ≠ bs.length then (.error .invalid_argument, self)
    else if ns3 ≠ as.length then (.error .invalid_argument, self)
    else
      match leadingZeroFrom bs 0 ns.toNat with
      | some _ => (.error .invalid_argument, self)
      | none =>
        match leadingZeroFrom as 0 ns.toNat with
        | some _ => (.error .invalid_argument, self)
        | none => (.ok (), { self with ns := ns, bs := bs, as := as })

/-- `SOS::SOS(const int ns, const std::vector<double> &bs, const
std::vector<double> &as)`: the object constructed, or the exception that
escapes the constructor. -/
def mk3 (ns : Int) (bs as : List ℚ) : Except Exn SOSImpl :=
  match setSecondOrderSections new ns bs as with
  | (.ok _, s) => .ok s
  | (.error e, _) => .error e

/-- `SOS::operator=(const SOS &sos)` -/
def assign (_self sos : SOSImpl) : SOSImpl :=
  { bs := sos.bs, as := sos.as, ns := sos.ns, tol := sos.tol }

/-- `SOS::SOS(const SOS &sos)` -/
def copy (sos : SOSImpl) : SOSImpl := assign new sos

/-- The loop `for (i=0; i<size; i++) if (std::abs(p[i] - q[i]) > tol) return
false;` of `operator==`: true when some index makes it return. -/
def differsBeyond (tol : ℚ) (p q : List ℚ) : Bool :=
  (List.range p.length).any fun i => decide (|p.getD i 0 - q.getD i 0| > tol)

/-- `SOS::operator==` -/
def eq (self sos : SOSImpl) : Bool :=
  if self.bs.length ≠ sos.bs.length then false
  else if self.as.length ≠ sos.as.length then false
  else if self.ns ≠ sos.ns then false
  else if differsBeyond self.tol self.bs sos.bs then false
  else if differsBeyond self.tol self.as sos.as then false
  else true

/-- `SOS::operator!=` -/
def ne (self sos : SOSImpl) : Bool := !(eq self sos)

/-- `SOS::getNumeratorCoefficients` -/
def getNumeratorCoefficients (self : SOSImpl) : List ℚ := self.bs

/-- `SOS::getDenominatorCoefficients` -/
def getDenominatorCoefficients (self : SOSImpl) : List ℚ := self.as

/-- `SOS::getNumberOfSections` -/
def getNumberOfSections (self : SOSImpl) : Int := self.ns

/-- `SOS::setEqualityTolerance` (a negative tolerance is only warned about). -/
def setEqualityTolerance (self : SOSImpl) (tol : ℚ) : SOSImpl :=
  { self with tol := tol }

/-- The representation invariant of an `SOS` value: a non-negative number of
sections, `3*ns` numerator and `3*ns` denominator coefficients, and a non-zero
leading coefficient in the numerator and in the denominator of every
section. -/
def Invariant (s : SOSImpl) : Prop :=
  0 ≤ s.ns ∧ (s.bs.length : Int) = 3 * s.ns ∧ (s.as.length : Int) = 3 * s.ns ∧
    ∀ i : Nat, (i : Int) < s.ns →
      (∃ b, s.bs.get? (3 * i) = some b ∧ b ≠ 0) ∧
      (∃ a, s.as.get? (3 * i) = some a ∧ a ≠ 0)

/-- The `SOS` values a program can hold: those built by a constructor and
then changed by `setSecondOrderSections` (whether it returns or throws),
`clear`, copy assignment and `setEqualityTolerance`. -/
inductive Reachable : SOSImpl → Prop
  | new : Reachable SOS.new
  | mk3 (ns : Int) (bs as : List ℚ) (s : SOSImpl) :
      SOS.mk3 ns bs as = .ok s → Reachable s
  | copy (s : SOSImpl) : Reachable s → Reachable (SOS.copy s)
  | setSecondOrderSections (s : SOSImpl) (ns : Int) (bs as : List ℚ) :
      Reachable s → Reachable (SOS.setSecondOrderSections s ns bs as).2
  | clear (s : SOSImpl) : Reachable s → Reachable (SOS.clear s)
  | assign (s t : SOSImpl) : Reachable s → Reachable t → Reachable (SOS.assign s t)
  | setEqualityTolerance (s : SOSImpl) (tol : ℚ) :
      Reachable s → Reachable (SOS.setEqualityTolerance s tol)

end SOS

end Utilities.FilterRepresentations

/-! ## DFT utilities (`dftUtils.cpp`) -/

namespace Utilities.Transforms.DFTUtilities

/-- `DFTUtilities::nextPowerOfTwo`.  The floating-point expression
`std::ceil(std::log2(dn))` is taken at its exact value, the ceiling of the
base-2 logarithm (`Nat.clog 2`), and `std::pow(2, itemp)` at its exact value
`2^itemp`; for an `int` argument both are exactly representable doubles. -/
def nextPowerOfTwo (n : Int) : Except Exn Int :=
  if n < 0 then .error .invalid_argument
  else if n = 0 then .ok 1
  else if n = 1 then .ok 1
  else
    let itemp : Int := toInt32 (Nat.clog 2 n.toNat)
    let n2t : Int := toUInt64 (2 ^ itemp.toNat)
    let n2 : Int := toInt32 n2t
    if n2t ≠ toUInt64 n2 then .error .runtime_error
    else .ok n2

/-- `std::copy(&src[first], &src[first] + count, &dst[out])`: the destination
array after the copy. -/
def stdCopy {α : Type} (src : List α) (first count : Int) (dst : List α) (out : Int) :
    List α :=
  dst.take out.toNat ++ (src.drop first.toNat).take count.toNat
    ++ dst.drop (out.toNat + count.toNat)

/-- `DFTUtilities::fftShift(const int n, const T x[], T *yIn[])`: the array
`y` after the call. -/
def fftShiftPtr {α : Type} (n : Int) (x y : List α) : List α :=
  if n = 1 then
    stdCopy x 0 1 y 0
  else if n = 2 then
    stdCopy x 0 1 (stdCopy x 1 1 y 0) 1
  else
    if Int.tmod n 2 = 1 then
      let i1 := Int.tdiv n 2 + 1
      let ncopy1 := n - i1
      let ncopy2 := i1
      let jf := i1 - 1
      stdCopy x 0 ncopy2 (stdCopy x i1 ncopy1 y 0) jf
    else
      let i1 := Int.tdiv n 2
      let ncopy1 := Int.tdiv n 2
      let ncopy2 := ncopy1
      let jf := i1
      stdCopy x 0 ncopy2 (stdCopy x i1 ncopy1 y 0) jf

/-- `DFTUtilities::fftShift(const std::vector<T> &x)`; `y.resize` fills `y`
with value-initialised elements (`default`). -/
def fftShift {α : Type} [Inhabited α] (x : List α) : List α :=
  if x.isEmpty then []
  else
    let npts : Int := toInt32 x.length
    let y : List α := List.replicate x.length default
    fftShiftPtr npts x y

end Utilities.Transforms.DFTUtilities

/-! ## Median filter (`medianFilter.cpp`) -/

/-- `RTSeis::ProcessingMode` -/
inductive ProcessingMode where
  | POST_PROCESSING
  | REAL_TIME
  deriving DecidableEq, Repr

/-- `RTSeis::Precision` -/
inductive Precision where
  | DOUBLE
  | FLOAT
  deriving DecidableEq, Repr

/-- `IppStatus`, reduced to what the callers test: `ippStsNoErr` or not. -/
inductive IppStatus where
  | ippStsNoErr
  | ippStsErr
  deriving DecidableEq, Repr

/-- The parts of the vendor library (Intel IPP) whose results the median
filter does not fix: the workspace-size query and the conversions between
`double` and `float`.  Single- and double-precision samples share the sample
type `α`; `convert_64f32f` is the rounding to `float`. -/
structure Ipp (α : Type) where
  /-- `ippsFilterMedianGetBufferSize(maskSize, dataType, &bufferSize)`:
  `none` when the status is not `ippStsNoErr`, else the buffer size. -/
  filterMedianGetBufferSize : Int → Precision → Option Int
  /-- `ippsConvert_64f32f`, per sample -/
  convert_64f32f : α → α
  /-- `ippsConvert_32f64f`, per sample -/
  convert_32f64f : α → α

/-- `ippsCopy_64f(src, dst, len)` / `ippsCopy_32f`: the destination array
after the copy. -/
def ippsCopy {α : Type} (src dst : List α) (len : Int) : List α :=
  src.take len.toNat ++ dst.drop len.toNat

/-- `ippsConvert_64f32f(src, dst, len)` / `ippsConvert_32f64f`: the destination
array after converting `len` samples with `cvt`. -/
def ippsConvert {α : Type} (cvt : α → α) (src dst : List α) (len : Int) : List α :=
  (src.take len.toNat).map cvt ++ dst.drop len.toNat

/-- `ippsMalloc` followed by `ippsZero`: an array of `len` zeros. -/
def ippsZero {α : Type} [Zero α] (len : Int) : List α :=
  List.replicate len.toNat 0

/-- Modelled from the spec: the median of one window, the "middle element of
sorted window" of section 4.2.5 (the sort is the vendor's). -/
def windowMedian {α : Type} [LinearOrder α] [Zero α] (window : List α) : α :=
  (window.insertionSort (· ≤ ·)).getD (window.length / 2) 0

/-- Modelled from the spec: the sliding median of section 4.2.5 over the
array `line`: output `i`, for `i < len`, is the median of the `maskSize`
samples `line[i .. i + maskSize)`. -/
def slidingMedian {α : Type} [LinearOrder α] [Zero α]
    (line : List α) (maskSize len : Nat) : List α :=
  (List.range len).map fun i => windowMedian ((line.drop i).take maskSize)

/-- Modelled from the spec: the vendor kernel `ippsFilterMedian_64f` /
`ippsFilterMedian_32f` (Intel IPP, not part of the repository).  The window of
`maskSize` samples ending at each sample slides over the delay line
`pDlySrc[0 .. maskSize-1)` followed by the packet `pSrc`; output sample `i` is
the median of the window ending at `pSrc[i]`; the last `maskSize - 1` samples
of delay line and packet are handed back in `pDlyDst` unless it is `NULL`
(`none`).  Returns the status, `pDst` and `pDlyDst`. -/
def ippsFilterMedian {α : Type} [LinearOrder α] [Zero α]
    (pSrc : List α) (maskSize : Int) (pDlySrc : List α) (pDlyDst : Option (List α)) :
    IppStatus × List α × Option (List α) :=
  let line := pDlySrc.take (maskSize - 1).toNat ++ pSrc
  let pDst := slidingMedian line maskSize.toNat pSrc.length
  (.ippStsNoErr, pDst, pDlyDst.map fun d => ippsCopy (line.drop pSrc.length) d (maskSize - 1))

namespace Utilities.FilterImplementations

/-- `class MedianFilter::MedianFilterImpl`.  A null pointer is the empty
array; the scratch buffer `pBuf_` is represented by its size only. -/
structure MedianFilterImpl (α : Type) where
  /-- Delay line source vector. -/
  dlysrc64 : List α := []
  /-- Delay line destination vector. -/
  dlydst64 : List α := []
  /-- Delay line source vector (single precision). -/
  dlysrc32 : List α := []
  /-- Delay line destination vector (single precision). -/
  dlydst32 : List α := []
  /-- A reference of the saved initial conditions. -/
  zi : List α := []
  /-- The median filter window length. -/
  maskSize : Int := 0
  /-- The workspace for the delay lines. -/
  nwork : Int := 0
  /-- The size of the workspace buffer. -/
  bufferSize : Int := 0
  /-- By default the module does post-procesing. -/
  mode : ProcessingMode := .POST_PROCESSING
  /-- The default module implementation. -/
  precision : Precision := .DOUBLE
  /-- Flag indicating the module is initialized. -/
  linit : Bool := false
  deriving DecidableEq, Repr

namespace MedianFilterImpl

variable {α : Type}

/-- `MedianFilterImpl::clear` (it leaves `nwork_` as it is). -/
def clear (self : MedianFilterImpl α) : MedianFilterImpl α :=
  { self with
    dlysrc64 := [], dlydst64 := [], dlysrc32 := [], dlydst32 := [], zi := [],
    maskSize := 0, bufferSize := 0, mode := .POST_PROCESSING,
    precision := .DOUBLE, linit := false }

/-- `MedianFilterImpl::initialize` (named `init` here, the source's name being
a reserved word): the status returned and the object afterwards. -/
def init [Zero α] (ipp : Ipp α) (self : MedianFilterImpl α) (n : Int)
    (mode : ProcessingMode) (precision : Precision) : Int × MedianFilterImpl α :=
  let self := clear self
  let nwork := max 8 (n - 1)
  let self := { self with maskSize := n, nwork := nwork, zi := ippsZero nwork }
  match precision with
  | .DOUBLE =>
    match ipp.filterMedianGetBufferSize n .DOUBLE with
    | none => (-1, clear self)
    | some bufferSize =>
      (0, { self with
            bufferSize := bufferSize, dlysrc64 := ippsZero nwork,
            dlydst64 := ippsZero nwork, precision := precision, mode := mode,
            linit := true })
  | .FLOAT =>
    match ipp.filterMedianGetBufferSize n .FLOAT with
    | none => (-1, clear self)
    | some bufferSize =>
      (0, { self with
            bufferSize := bufferSize, dlysrc32 := ippsZero nwork,
            dlydst32 := ippsZero nwork, precision := precision, mode := mode,
            linit := true })

/-- `MedianFilterImpl::isInitialized` -/
def isInitialized (self : MedianFilterImpl α) : Bool := self.linit

/-- `MedianFilterImpl::getInitialConditionLength` -/
def getInitialConditionLength (self : MedianFilterImpl α) : Int := self.maskSize - 1

/-- `MedianFilterImpl::getGroupDelay` -/
def getGroupDelay (self : MedianFilterImpl α) : Int := Int.tdiv self.maskSize 2

/-- `MedianFilterImpl::resetInitialConditions` -/
def resetInitialConditions (ipp : Ipp α) (self : MedianFilterImpl α) :
    Int × MedianFilterImpl α :=
  match self.precision with
  | .DOUBLE =>
    if self.nwork > 0 then
      (0, { self with dlysrc64 := ippsCopy self.zi self.dlysrc64 self.nwork })
    else (0, self)
  | .FLOAT =>
    if self.nwork > 0 then
      (0, { self with
            dlysrc32 := ippsConvert ipp.convert_64f32f self.zi self.dlysrc32 self.nwork })
    else (0, self)

/-- `MedianFilterImpl::setInitialConditions` -/
def setInitialConditions (ipp : Ipp α) (self : MedianFilterImpl α) (_nz : Int)
    (zi : List α) : Int × MedianFilterImpl α :=
  let self := (resetInitialConditions ipp self).2
  let nzRef := getInitialConditionLength self
  let self := if nzRef > 0 then { self with zi := ippsCopy zi self.zi nzRef } else self
  match self.precision with
  | .DOUBLE =>
    if nzRef > 0 then (0, { self with dlysrc64 := ippsCopy zi self.dlysrc64 nzRef })
    else (0, self)
  | .FLOAT =>
    if nzRef > 0 then
      (0, { self with dlysrc32 := ippsConvert ipp.convert_64f32f zi self.dlysrc32 nzRef })
    else (0, self)

/-- The body of `MedianFilterImpl::apply(const int n, const double x[], double
y[])` below the precision test, that is for `precision_ == DOUBLE`: status,
`y`, object afterwards. -/
def applyKernel64 [LinearOrder α] [Zero α] (self : MedianFilterImpl α) (x : List α) :
    Int × List α × MedianFilterImpl α :=
  if self.mode = .REAL_TIME then
    match ippsFilterMedian x self.maskSize self.dlysrc64 (some self.dlydst64) with
    | (status, y, dlydst) =>
      let self := { self with dlydst64 := dlydst.getD self.dlydst64 }
      if status ≠ .ippStsNoErr then (-1, y, self)
      else if self.maskSize > 1 then
        (0, y, { self with
                 dlysrc64 := ippsCopy self.dlydst64 self.dlysrc64 (self.maskSize - 1) })
      else (0, y, self)
  else
    match ippsFilterMedian x self.maskSize self.dlysrc64 none with
    | (status, y, _) =>
      if status ≠ .ippStsNoErr then (-1, y, self) else (0, y, self)

/-- The body of `MedianFilterImpl::apply(const int n, const float x[], float
y[])` below the precision test, that is for `precision_ == FLOAT`. -/
def applyKernel32 [LinearOrder α] [Zero α] (self : MedianFilterImpl α) (x : List α) :
    Int × List α × MedianFilterImpl α :=
  if self.mode = .REAL_TIME then
    match ippsFilterMedian x self.maskSize self.dlysrc32 (some self.dlydst32) with
    | (status, y, dlydst) =>
      let self := { self with dlydst32 := dlydst.getD self.dlydst32 }
      if status ≠ .ippStsNoErr then (-1, y, self)
      else if self.maskSize > 1 then
        (0, y, { self with
                 dlysrc32 := ippsCopy self.dlydst32 self.dlysrc32 (self.maskSize - 1) })
      else (0, y, self)
  else
    match ippsFilterMedian x self.maskSize self.dlysrc32 none with
    | (status, y, _) =>
      if status ≠ .ippStsNoErr then (-1, y, self) else (0, y, self)

/-- `MedianFilterImpl::apply(const int n, const double x[], double y[])` with
`n = x.size()`: status, the samples written to `y` (none when nothing is
written), object afterwards.  With `precision_ == FLOAT` the packet is
rounded to `float`, filtered by the `float` overload (which then runs its
single-precision kernel) and widened again. -/
def apply [LinearOrder α] [Zero α] (ipp : Ipp α) (self : MedianFilterImpl α)
    (x : List α) : Int × List α × MedianFilterImpl α :=
  let n : Int := x.length
  if n ≤ 0 then (0, [], self)
  else if self.precision = .FLOAT then
    let x32 := x.map ipp.convert_64f32f
    match applyKernel32 self x32 with
    | (ierr, y32, self) =>
      if ierr ≠ 0 then (-1, [], self)
      else (0, y32.map ipp.convert_32f64f, self)
  else applyKernel64 self x

/-- The delay line an `apply` starts from: the first `maskSize_ - 1` entries
of the source delay line of the configured precision. -/
def delayLine (self : MedianFilterImpl α) : List α :=
  match self.precision with
  | .DOUBLE => self.dlysrc64.take (self.maskSize - 1).toNat
  | .FLOAT => self.dlysrc32.take (self.maskSize - 1).toNat

/-- An initialised filter whose delay-line arrays of the configured precision
hold at least `maskSize_ - 1` entries. -/
def Ready (self : MedianFilterImpl α) : Prop :=
  self.linit = true ∧ 1 ≤ self.maskSize ∧
    match self.precision with
    | .DOUBLE => (self.maskSize - 1).toNat ≤ self.dlysrc64.length ∧
        (self.maskSize - 1).toNat ≤ self.dlydst64.length
    | .FLOAT => (self.maskSize - 1).toNat ≤ self.dlysrc32.length ∧
        (self.maskSize - 1).toNat ≤ self.dlydst32.length

/-- The samples the kernel receives for the packet `x`: `x` itself in double
precision, `x` rounded to `float` in single precision. -/
def toKernel (ipp : Ipp α) (precision : Precision) (x : List α) : List α :=
  match precision with
  | .DOUBLE => x
  | .FLOAT => x.map ipp.convert_64f32f

/-- The samples handed to the caller for the kernel output `y`. -/
def fromKernel (ipp : Ipp α) (precision : Precision) (y : List α) : List α :=
  match precision with
  | .DOUBLE => y
  | .FLOAT => y.map ipp.convert_32f64f

end MedianFilterImpl

/-- `class MedianFilter`: the object behind `pMedian_`. -/
abbrev MedianFilter (α : Type) := MedianFilterImpl α

namespace MedianFilter

variable {α : Type}

/-- `MedianFilter::MedianFilter(void)` -/
def new : MedianFilter α := {}

/-- `MedianFilter::clear` -/
def clear (self : MedianFilter α) : MedianFilter α := MedianFilterImpl.clear self

/-- `MedianFilter::initialize` (named `init` here): the status returned and the
object afterwards. -/
def init [Zero α] (ipp : Ipp α) (self : MedianFilter α) (n : Int)
    (mode : ProcessingMode) (precision : Precision) : Int × MedianFilter α :=
  let self := clear self
  if n < 1 then (-1, self)
  else
    let maskSize := if Int.tmod n 2 = 0 then n + 1 else n
    match MedianFilterImpl.init ipp self maskSize mode precision with
    | (ierr, self) => if ierr ≠ 0 then (-1, clear self) else (0, self)

/-- `MedianFilter::apply(const int n, const double x[], double y[])` with
`n = x.size()` and non-null `x`, `y`: status, the samples written to `y`,
object afterwards. -/
def apply [LinearOrder α] [Zero α] (ipp : Ipp α) (self : MedianFilter α) (x : List α) :
    Int × List α × MedianFilter α :=
  let n : Int := x.length
  if n ≤ 0 then (0, [], self)
  else if !MedianFilterImpl.isInitialized self then (-1, [], self)
  else
    match MedianFilterImpl.apply ipp self x with
    | (ierr, y, self) => if ierr ≠ 0 then (-1, y, self) else (0, y, self)

/-- `MedianFilter::getGroupDelay` -/
def getGroupDelay (self : MedianFilter α) : Int := MedianFilterImpl.getGroupDelay self

/-- The packet loop of `filters_medianFilter_test`: `apply` on each packet in
turn, each call on the object the previous one left; the list of (status,
output) pairs and the object at the end. -/
def applyPackets [LinearOrder α] [Zero α] (ipp : Ipp α) :
    MedianFilter α → List (List α) → List (Int × List α) × MedianFilter α
  | self, [] => ([], self)
  | self, p :: ps =>
    match apply ipp self p with
    | (ierr, y, self) =>
      match applyPackets ipp self ps with
      | (rs, self) => ((ierr, y) :: rs, self)

end MedianFilter

/-- A vendor environment for running the filter on integer samples: the
workspace-size query succeeds (size `0`) and both conversions are the
identity. -/
def intIpp : Ipp Int :=
  { filterMedianGetBufferSize := fun _ _ => some 0
    convert_64f32f := fun v => v
    convert_32f64f := fun v => v }

/-- The spacing of the single-precision numbers at the natural number `n`:
the least power of two `s`, reached by doubling from `s` at most `fuel`
times, with `n / s < 2^24` (a `float` has a significand of 24 bits). -/
def floatSpacing : Nat → Nat → Nat → Nat
  | 0, _, s => s
  | fuel + 1, n, s => if n / s < 2 ^ 24 then s else floatSpacing fuel n (2 * s)

/-- The single-precision number nearest to the natural number `n`, ties to
the even significand (IEEE 754 round-to-nearest-even), for `n` below `2^128`;
overflow to infinity is not modelled. -/
def roundToFloatNat (n : Nat) : Nat :=
  let s := floatSpacing 104 n 1
  let q := n / s
  let r := n % s
  if 2 * r > s ∨ (2 * r = s ∧ q % 2 = 1) then (q + 1) * s else q * s

/-- The single-precision number nearest to the integer `a`. -/
def roundToFloat (a : Int) : Int :=
  if 0 ≤ a then (roundToFloatNat a.toNat : Int) else -(roundToFloatNat (-a).toNat : Int)

/-- A vendor environment for running the filter on integer samples in which
`ippsConvert_64f32f` rounds to single precision as IEEE 754 does and
`ippsConvert_32f64f` is exact; the workspace-size query succeeds (size
`0`). -/
def floatIpp : Ipp Int :=
  { filterMedianGetBufferSize := fun _ _ => some 0
    convert_64f32f := roundToFloat
    convert_32f64f := fun v => v }

end Utilities.FilterImplementations

end RTSeis

/-! ## DFT utilities, continued: frequencies and phase unwrapping

The `double` arithmetic of these functions is exact arithmetic in an
arbitrary linearly ordered field `K` with a floor function (the rationals for
evaluation, the reals for the statements "in exact real arithmetic").  The
macro `RTSEIS_THROW_IA` throws `std::invalid_argument`. -/

namespace RTSeis

namespace Utilities.Transforms.DFTUtilities

/-- The value of the `double` constant `M_PI` of `<cmath>`,
`0x400921FB54442D18`, as a rational number. -/
def M_PI_double : ℚ := 884279719003555 / 281474976710656

/-- `DFTUtilities::realToComplexDFTFrequencies(const int nSamples, const
double samplingPeriod, const int lengthFreqs, double *freqsIn[])`: the array
`freqs` after the call, `none` standing for a null `freqs`. -/
def realToComplexDFTFrequenciesPtr {K : Type} [LinearOrderedField K]
    (nSamples : Int) (samplingPeriod : K) (lengthFreqs : Int) (freqs : Option (List K)) :
    Except Exn (List K) :=
  if nSamples < 1 ∨ samplingPeriod ≤ 0 then .error .invalid_argument
  else
    match freqs with
    | none => .error .invalid_argument
    | some freqs =>
      let nbins := Int.tdiv nSamples 2 + 1
      if lengthFreqs < nbins then .error .invalid_argument
      else if nbins = 1 then .ok (freqs.set 0 0)
      else
        let df := 1 / ((nSamples : K) * samplingPeriod)
        .ok ((List.range nbins.toNat).map (fun (i : Nat) => df * (i : K))
          ++ freqs.drop nbins.toNat)

/-- `DFTUtilities::realToComplexDFTFrequencies(const int nSamples, const
double samplingPeriod)`. -/
def realToComplexDFTFrequencies {K : Type} [LinearOrderedField K]
    (nSamples : Int) (samplingPeriod : K) : Except Exn (List K) :=
  if nSamples < 1 ∨ samplingPeriod ≤ 0 then .error .invalid_argument
  else
    let nbins := Int.tdiv nSamples 2 + 1
    let freqs : List K := List.replicate nbins.toNat 0
    realToComplexDFTFrequenciesPtr nSamples samplingPeriod nbins (some freqs)

/-- `static_cast<int>(v)` for a `double` `v`: truncation toward zero when the
truncated value is an `int`.  Otherwise the conversion is undefined behaviour
in C++; the value taken here is `INT_MIN`, the one the conversion instruction
of x86-64 (`cvttsd2si`) gives. -/
def truncToInt {K : Type} [LinearOrderedField K] [FloorRing K] (v : K) : Int :=
  let t : Int := if 0 ≤ v then ⌊v⌋ else ⌈v⌉
  if -2 ^ 31 ≤ t ∧ t < 2 ^ 31 then t else -2 ^ 31

/-- `static double rem(const double x, double y)` -/
def rem {K : Type} [LinearOrderedField K] [FloorRing K] (x y : K) : K :=
  x - y * ((truncToInt (x / y) : Int) : K)

/-- `ippsMin_64f(p, n, &pmin)`: the smallest entry of `p`. -/
def ippsMin {K : Type} [LinearOrderedField K] (p : List K) : K :=
  match p with
  | [] => 0
  | a :: t => t.foldl min a

/-- "Differentiate phases": `b[0] = q[0]` and `b[i] = q[i] - q[i-1]`. -/
def differentiate {K : Type} [LinearOrderedField K] : List K → List K
  | [] => []
  | q0 :: t => q0 :: List.zipWith (fun cur prev => cur - prev) t (q0 :: t)

/-- The last loop of `unwrap`, over the pairs `(q[i], b[i])` still to visit,
with the running sum `cumsume`: the samples `q[i] + cumsume` written. -/
def unwrapLoop {K : Type} [LinearOrderedField K] (twopi tol : K) :
    K → List (K × K) → List K
  | _, [] => []
  | cumsume, (qi, bi) :: rest =>
    let ic : Int := if bi > tol then -1 else 0
    let id : Int := if bi < -tol then 1 else 0
    let e : K := twopi * ((ic + id : Int) : K)
    let cumsume := cumsume + e
    (qi + cumsume) :: unwrapLoop twopi tol cumsume rest

/-- The "2*pi jump" `e` that one pass of the last loop of `unwrap` adds to the
running sum for the phase difference `bi`. -/
def jump {K : Type} [LinearOrderedField K] (twopi tol bi : K) : K :=
  twopi * (((if bi > tol then -1 else 0) + (if bi < -tol then 1 else 0) : Int) : K)

/-- The pairs `(q[i], b[i])`, `i >= 1`, of a phase array with first sample `q0`
and later samples `t`. -/
def tailPairs {K : Type} [LinearOrderedField K] (q0 : K) (t : List K) : List (K × K) :=
  t.zip (List.zipWith (fun cur prev => cur - prev) t (q0 :: t))

/-- The computation of `unwrap(n, p, q, tol)` once its arguments are
accepted, on the `n` samples `p`: the `n` samples written to `q`.  `pi` is the
value of `M_PI`. -/
def unwrapCore {K : Type} [LinearOrderedField K] [FloorRing K] (pi tol : K)
    (p : List K) : List K :=
  let pmin := ippsMin p
  let twopi := 2 * pi
  let q := p.map fun v => rem (v - pmin) twopi + pmin
  let b := differentiate q
  unwrapLoop twopi tol 0 (q.zip b)

/-- `DFTUtilities::unwrap(const int n, const double p[], double *qIn[], const
double tol)`: the array `q` after the call, `none` standing for a null
pointer. -/
def unwrapPtr {K : Type} [LinearOrderedField K] [FloorRing K] (pi : K)
    (n : Int) (p q : Option (List K)) (tol : K) : Except Exn (Option (List K)) :=
  if n ≤ 0 then .ok q
  else
    match p, q with
    | none, _ => .error .invalid_argument
    | some _, none => .error .invalid_argument
    | some p, some q =>
      if tol < 0 then .error .invalid_argument
      else .ok (some (unwrapCore pi tol (p.take n.toNat) ++ q.drop n.toNat))

/-- `DFTUtilities::unwrap(const std::vector<double> &p, const double tol)`. -/
def unwrap {K : Type} [LinearOrderedField K] [FloorRing K] (pi : K)
    (p : List K) (tol : K) : Except Exn (List K) :=
  if p.isEmpty then .ok []
  else
    let q : List K := List.replicate p.length 0
    match unwrapPtr pi (toInt32 p.length) (some p) (some q) tol with
    | .ok q' => .ok (q'.getD q)
    | .error e => .error e

/-- The `mod(x, y)` of the specification: the remainder of the floored
division, in `[0, y)` for positive `y`. -/
def floorMod {K : Type} [LinearOrderedField K] [FloorRing K] (x y : K) : K :=
  x - y * ((⌊x / y⌋ : Int) : K)

/-- The wrapped phase `mod(theta + pi, 2*pi) - pi` of the specification. -/
def wrapToPi {K : Type} [LinearOrderedField K] [FloorRing K] (pi theta : K) : K :=
  floorMod (theta + pi) (2 * pi) - pi

/-- The linear sequence `theta[k] = a + b*k`, `k < n`, of the
specification. -/
def linearPhase {K : Type} [LinearOrderedField K] (a b : K) (n : Nat) : List K :=
  (List.range n).map fun (k : Nat) => a + b * (k : K)

end Utilities.Transforms.DFTUtilities

end RTSeis

/-! ## Median filter, continued: the remaining wrappers and the calls on raw
pointers -/

namespace RTSeis

namespace Utilities.FilterImplementations

/-- The vendor library (Intel IPP) as the median filter sees it when the
caller's packet pointers may be null (`none`). -/
structure IppPtr (α : Type) where
  /-- `ippsFilterMedian_64f` / `ippsFilterMedian_32f(pSrc, pDst, len, maskSize,
  pDlySrc, pDlyDst, pBuffer)`: the status and the arrays `pDst` and `pDlyDst`
  after the call. -/
  filterMedian : Option (List α) → Option (List α) → Int → Int → List α →
    Option (List α) → IppStatus × Option (List α) × Option (List α)
  /-- `ippsMalloc_64f(len)` / `ippsMalloc_32f(len)`: the contents of the array
  allocated. -/
  malloc : Int → List α

namespace MedianFilterImpl

variable {α : Type}

/-- The body of `MedianFilterImpl::apply(const int n, const double x[], double
y[])` below the precision test (`precision_ == DOUBLE`), on raw pointers:
status, `y` afterwards, object afterwards. -/
def applyPtrKernel64 (vendor : IppPtr α) (self : MedianFilterImpl α) (n : Int)
    (x y : Option (List α)) : Int × Option (List α) × MedianFilterImpl α :=
  if self.mode = .REAL_TIME then
    match vendor.filterMedian x y n self.maskSize self.dlysrc64 (some self.dlydst64) with
    | (status, y, dlydst) =>
      let self := { self with dlydst64 := dlydst.getD self.dlydst64 }
      if status ≠ .ippStsNoErr then (-1, y, self)
      else if self.maskSize > 1 then
        (0, y, { self with
                 dlysrc64 := ippsCopy self.dlydst64 self.dlysrc64 (self.maskSize - 1) })
      else (0, y, self)
  else
    match vendor.filterMedian x y n self.maskSize self.dlysrc64 none with
    | (status, y, _) =>
      if status ≠ .ippStsNoErr then (-1, y, self) else (0, y, self)

/-- The body of `MedianFilterImpl::apply(const int n, const float x[], float
y[])` below the precision test (`precision_ == FLOAT`), on raw pointers. -/
def applyPtrKernel32 (vendor : IppPtr α) (self : MedianFilterImpl α) (n : Int)
    (x y : Option (List α)) : Int × Option (List α) × MedianFilterImpl α :=
  if self.mode = .REAL_TIME then
    match vendor.filterMedian x y n self.maskSize self.dlysrc32 (some self.dlydst32) with
    | (status, y, dlydst) =>
      let self := { self with dlydst32 := dlydst.getD self.dlydst32 }
      if status ≠ .ippStsNoErr then (-1, y, self)
      else if self.maskSize > 1 then
        (0, y, { self with
                 dlysrc32 := ippsCopy self.dlydst32 self.dlysrc32 (self.maskSize - 1) })
      else (0, y, self)
  else
    match vendor.filterMedian x y n self.maskSize self.dlysrc32 none with
    | (status, y, _) =>
      if status ≠ .ippStsNoErr then (-1, y, self) else (0, y, self)

/-- `MedianFilterImpl::apply(const int n, const double x[], double y[])` on
raw pointers: status, `y` afterwards, object afterwards.  With `precision_ ==
FLOAT` the kernel runs on the buffers `x32`, `y32` allocated here; a
conversion from or to a null pointer fails inside the vendor library (its
status is not looked at) and leaves the destination as it was. -/
def applyPtr (vendor : IppPtr α) (ipp : Ipp α) (self : MedianFilterImpl α) (n : Int)
    (x y : Option (List α)) : Int × Option (List α) × MedianFilterImpl α :=
  if n ≤ 0 then (0, y, self)
  else if self.precision = .FLOAT then
    let x32 : List α :=
      match x with
      | some xs => ippsConvert ipp.convert_64f32f xs (vendor.malloc n) n
      | none => vendor.malloc n
    let y32 : List α := vendor.malloc n
    match applyPtrKernel32 vendor self n (some x32) (some y32) with
    | (ierr, y32, self) =>
      if ierr ≠ 0 then (-1, y, self)
      else
        match y, y32 with
        | some ys, some r => (0, some (ippsConvert ipp.convert_32f64f r ys n), self)
        | _, _ => (0, y, self)
  else applyPtrKernel64 vendor self n x y

end MedianFilterImpl

namespace MedianFilter

variable {α : Type}

/-- The object a successful `initialize` leaves, spelled out: window `w`,
workspace length `max(8, w - 1)`, zero-filled initial conditions and delay
lines of the requested precision, no arrays of the other precision. -/
def freshState [Zero α] (w bufferSize : Int) (mode : ProcessingMode)
    (precision : Precision) : MedianFilter α :=
  match precision with
  | .DOUBLE =>
    { dlysrc64 := ippsZero (max 8 (w - 1)), dlydst64 := ippsZero (max 8 (w - 1)),
      dlysrc32 := [], dlydst32 := [], zi := ippsZero (max 8 (w - 1)),
      maskSize := w, nwork := max 8 (w - 1), bufferSize := bufferSize,
      mode := mode, precision := .DOUBLE, linit := true }
  | .FLOAT =>
    { dlysrc64 := [], dlydst64 := [],
      dlysrc32 := ippsZero (max 8 (w - 1)), dlydst32 := ippsZero (max 8 (w - 1)),
      zi := ippsZero (max 8 (w - 1)),
      maskSize := w, nwork := max 8 (w - 1), bufferSize := bufferSize,
      mode := mode, precision := .FLOAT, linit := true }

/-- The window `initialize(n, ...)` uses: `n` rounded up to an odd number. -/
def window (n : Int) : Int := if Int.tmod n 2 = 0 then n + 1 else n

/-- A ready filter whose workspace is non-empty and at least as long as the
delay line, and whose stored initial conditions cover the delay line. -/
def Resettable (self : MedianFilter α) : Prop :=
  MedianFilterImpl.Ready self ∧ 0 < self.nwork ∧
    (self.maskSize - 1).toNat ≤ self.nwork.toNat ∧
    (self.maskSize - 1).toNat ≤ self.zi.length

/-- `MedianFilter::isInitialized` -/
def isInitialized (self : MedianFilter α) : Bool := MedianFilterImpl.isInitialized self

/-- `MedianFilter::getInitialConditionLength` -/
def getInitialConditionLength (self : MedianFilter α) : Int :=
  if !MedianFilterImpl.isInitialized self then -1
  else MedianFilterImpl.getInitialConditionLength self

/-- `MedianFilter::setInitialConditions(const int nz, const double zi[])`,
`none` standing for a null `zi`: status and object afterwards. -/
def setInitialConditions (ipp : Ipp α) (self : MedianFilter α) (nz : Int)
    (zi : Option (List α)) : Int × MedianFilter α :=
  if !MedianFilterImpl.isInitialized self then (-1, self)
  else
    let nzRef := MedianFilterImpl.getInitialConditionLength self
    match zi with
    | none => (-1, self)
    | some z =>
      if nz ≠ nzRef then (-1, self)
      else (0, (MedianFilterImpl.setInitialConditions ipp self nz z).2)

/-- `MedianFilter::resetInitialConditions`: status and object afterwards. -/
def resetInitialConditions (ipp : Ipp α) (self : MedianFilter α) : Int × MedianFilter α :=
  if !MedianFilterImpl.isInitialized self then (-1, self)
  else (0, (MedianFilterImpl.resetInitialConditions ipp self).2)

/-- `MedianFilter::apply(const int n, const double x[], double y[])` on raw
pointers: status, `y` afterwards, object afterwards.  The test
`x == nullptr || y == nullptr` only writes two log messages. -/
def applyPtr (vendor : IppPtr α) (ipp : Ipp α) (self : MedianFilter α) (n : Int)
    (x y : Option (List α)) : Int × Option (List α) × MedianFilter α :=
  if n ≤ 0 then (0, y, self)
  else if !MedianFilterImpl.isInitialized self then (-1, y, self)
  else
    match MedianFilterImpl.applyPtr vendor ipp self n x y with
    | (ierr, y, self) => if ierr ≠ 0 then (-1, y, self) else (0, y, self)

/-- An optional call of `setInitialConditions` with the array `z` of `nz =
z.size()` initial conditions: the object afterwards. -/
def stamp (ipp : Ipp α) (zi : Option (List α)) (self : MedianFilter α) : MedianFilter α :=
  match zi with
  | none => self
  | some z => (setInitialConditions ipp self z.length (some z)).2

end MedianFilter

/-- Modelled from the spec: a vendor library whose median kernel rejects null
packet pointers with an error status and otherwise is the kernel
`ippsFilterMedian` on the first `len` samples; allocations are zero-filled. -/
def checkingVendor {α : Type} [LinearOrder α] [Zero α] : IppPtr α :=
  { filterMedian := fun pSrc pDst len maskSize pDlySrc pDlyDst =>
      match pSrc, pDst with
      | some src, some dst =>
        match ippsFilterMedian (src.take len.toNat) maskSize pDlySrc pDlyDst with
        | (status, out, dly) => (status, some (ippsCopy out dst len), dly)
      | _, _ => (.ippStsErr, pDst, pDlyDst)
    malloc := fun len => ippsZero len }

/-- A vendor library whose median kernel reports success whatever it is
given and writes nothing. -/
def lenientVendor {α : Type} [Zero α] : IppPtr α :=
  { filterMedian := fun _ pDst _ _ _ pDlyDst => (.ippStsNoErr, pDst, pDlyDst)
    malloc := fun len => ippsZero len }

end Utilities.FilterImplementations

end RTSeis


/-! ## Post-processing of a single channel (`waveform.cpp`) -/

namespace RTSeis

namespace PostProcessing.SingleChannel

/-- `computeNyquistFrequencyFromSamplingPeriod(const double dt)` -/
def computeNyquistFrequencyFromSamplingPeriod {K : Type} [LinearOrderedField K] (dt : K) : K :=
  1 / (2 * dt)

/-- `computeNormalizedFrequencyFromSamplingPeriod(const double fc, const
double dt)` -/
def computeNormalizedFrequencyFromSamplingPeriod {K : Type} [LinearOrderedField K]
    (fc dt : K) : Except Exn K :=
  let fnyq := computeNyquistFrequencyFromSamplingPeriod dt
  if fc < 0 ∨ fc > fnyq then .error .invalid_argument
  else .ok (fc / fnyq)

/-- `computeNormalizedFrequencyFromSamplingPeriod(const
std::pair<double,double> fc, const double dt)` -/
def computeNormalizedFrequencyFromSamplingPeriodPair {K : Type} [LinearOrderedField K]
    (fc : K × K) (dt : K) : Except Exn (K × K) :=
  let fnyq := computeNyquistFrequencyFromSamplingPeriod dt
  if fc.1 < 0 then .error .invalid_argument
  else if fc.1 ≥ fc.2 then .error .invalid_argument
  else if fc.2 > fnyq then .error .invalid_argument
  else .ok (fc.1 / fnyq, fc.2 / fnyq)

end PostProcessing.SingleChannel

end RTSeis

/-! ## Downsampler -/

namespace RTSeis

namespace Utilities.FilterImplementations

/-- Modelled from the spec: the state of a `Downsample` object (section
4.2.6 and the streaming-filter state of section 3): the downsampling factor
`q`, the phase, the mode and the `initialized` flag. -/
structure DownsampleImpl where
  downFactor : Int := 0
  phase : Int := 0
  mode : ProcessingMode := .POST_PROCESSING
  linit : Bool := false
  deriving DecidableEq, Repr

namespace Downsample

/-- Modelled from the spec: a `Downsample` object before `initialize`. -/
def new : DownsampleImpl := {}

/-- Modelled from the spec: `Downsample::initialize(nq, mode)`; a factor
below one is an invalid argument and leaves the object cleared (section 7). -/
def init (_self : DownsampleImpl) (nq : Int) (mode : ProcessingMode) :
    Except Exn Unit × DownsampleImpl :=
  if nq < 1 then (.error .invalid_argument, new)
  else (.ok (), { downFactor := nq, phase := 0, mode := mode, linit := true })

/-- Modelled from the spec: `Downsample::estimateSpace(n)`, the "output length
for input length m_in", `floor((m_in + q - 1 - phase)/q)`. -/
def estimateSpace (self : DownsampleImpl) (n : Int) : Except Exn Int :=
  if !self.linit then .error .runtime_error
  else if n < 0 then .error .invalid_argument
  else .ok ((n + self.downFactor - 1 - self.phase) / self.downFactor)

/-- Modelled from the spec: "keeps every q-th sample with a configurable
starting phase": `skip` samples are passed over, the next one is kept, and
from there on every `q`-th one. -/
def sampleDown {α : Type} (q : Nat) : Nat → List α → List α
  | _, [] => []
  | 0, a :: t => a :: sampleDown q (q - 1) t
  | skip + 1, _ :: t => sampleDown q skip t

/-- Modelled from the spec: `Downsample::apply(nx, x, ny, &nyDown, &y)`: the
number of samples written and the array `y` afterwards, with the object
afterwards.  Errors are reported "when uninitialized or when passed null/short
buffers"; in real-time mode the phase for the next packet is `(phase + nx) mod
q`, in post-processing mode the phase is `0` at every call. -/
def apply {α : Type} (self : DownsampleImpl) (nx : Int) (x : Option (List α)) (ny : Int)
    (y : Option (List α)) : Except Exn (Int × Option (List α)) × DownsampleImpl :=
  if !self.linit then (.error .runtime_error, self)
  else if nx ≤ 0 then (.ok (0, y), self)
  else
    match x, y with
    | some xs, some ys =>
      let out := sampleDown self.downFactor.toNat self.phase.toNat (xs.take nx.toNat)
      if ny < out.length then (.error .invalid_argument, self)
      else
        let self' :=
          match self.mode with
          | .REAL_TIME => { self with phase := (self.phase + nx) % self.downFactor }
          | .POST_PROCESSING => self
        (.ok ((out.length : Int), some (out ++ ys.drop out.length)), self')
    | _, _ => (.error .invalid_argument, self)

end Downsample

end Utilities.FilterImplementations

/-! ## Waveform: data and sampling period -/

namespace PostProcessing.SingleChannel

/-- An initialised `Utilities::FilterImplementations::Downsample<T>` or
`Decimate<T>` object, as `Waveform` uses it: `estimateSpace(n)` and
`apply(nx, x, ny, &nyDown, &y)`, the latter giving `nyDown` and the array `y`
afterwards (`none` is a null pointer).  Either may throw. -/
structure Resampler (K : Type) where
  estimateSpace : Int → Except Exn Int
  apply : Int → Option (List K) → Int → Option (List K) → Except Exn (Int × Option (List K))

/-- `class Waveform<double>::WaveformImpl` (the filter-designer cache is not
modelled).  A pointer is the array it points to, `none` when null. -/
structure WaveformImpl (K : Type) where
  /-- A pointer to the input data -/
  xptr_ : Option (List K)
  /-- The input data -/
  x_ : Option (List K)
  /-- The output data -/
  y_ : Option (List K)
  /-- Input sampling period -/
  dt0_ : K
  /-- Sampling period -/
  dt_ : K
  /-- Max space reserved to x -/
  maxx_ : Int
  /-- Max space reserved to y -/
  maxy_ : Int
  /-- Number of elements in x -/
  nx_ : Int
  /-- Number of elements in y -/
  ny_ : Int
  /-- Flag indicating this is the first filtering operation on the input data -/
  lfirstFilter_ : Bool

end PostProcessing.SingleChannel

end RTSeis

namespace RTSeis

namespace PostProcessing.SingleChannel

namespace WaveformImpl

/-- `WaveformImpl() = default`: the member initialisers. -/
def new {K : Type} [LinearOrderedField K] : WaveformImpl K :=
  { xptr_ := none, x_ := none, y_ := none, dt0_ := 1, dt_ := 1, maxx_ := 0, maxy_ := 0,
    nx_ := 0, ny_ := 0, lfirstFilter_ := true }

/-- `WaveformImpl::setInputDataPointer` -/
def setInputDataPointer {K : Type} (self : WaveformImpl K) (nx : Int) (x : Option (List K))
    (lfirst : Bool) : WaveformImpl K :=
  { self with nx_ := nx, xptr_ := x, lfirstFilter_ := lfirst }

/-- `WaveformImpl::restoreSamplingPeriod` -/
def restoreSamplingPeriod {K : Type} (self : WaveformImpl K) : WaveformImpl K :=
  { self with dt_ := self.dt0_ }

/-- `WaveformImpl::setData(const size_t n, const double x[], const bool
lfirst)`; `n` is the value of the `size_t`, `ippsMalloc_64f` gives an array
of zeros, and `ippsCopy_64f` copies nothing from a null pointer. -/
def setData {K : Type} [Zero K] (self : WaveformImpl K) (n : Int) (x : Option (List K))
    (lfirst : Bool) : WaveformImpl K :=
  let self := { self with xptr_ := none, nx_ := toInt32 n, ny_ := 0 }
  let self :=
    if self.nx_ > self.maxx_ then { self with x_ := some (ippsZero self.nx_), maxx_ := self.nx_ }
    else self
  if self.nx_ = 0 then self
  else
    let x_ :=
      match x, self.x_ with
      | some src, some dst => some (ippsCopy src dst self.nx_)
      | _, dst => dst
    { self with x_ := x_, lfirstFilter_ := lfirst }

/-- `WaveformImpl::overwriteInputWithOutput` -/
def overwriteInputWithOutput {K : Type} [Zero K] (self : WaveformImpl K) : WaveformImpl K :=
  let self := { self with xptr_ := none }
  let self := setData self (toUInt64 self.ny_) self.y_ false
  { self with ny_ := 0 }

/-- `WaveformImpl::resizeOutputData` -/
def resizeOutputData {K : Type} [Zero K] (self : WaveformImpl K) (ny : Int) : WaveformImpl K :=
  let self := { self with ny_ := ny }
  if self.ny_ > self.maxy_ then { self with y_ := some (ippsZero self.ny_), maxy_ := self.ny_ }
  else self

/-- `WaveformImpl::getInputDataPointer` -/
def getInputDataPointer {K : Type} (self : WaveformImpl K) : Option (List K) :=
  match self.xptr_ with
  | some x => some x
  | none => self.x_

/-- `WaveformImpl::getOutputDataPointer` -/
def getOutputDataPointer {K : Type} (self : WaveformImpl K) : Option (List K) := self.y_

/-- `WaveformImpl::getLengthOfInputSignal` -/
def getLengthOfInputSignal {K : Type} (self : WaveformImpl K) : Int := self.nx_

/-- `WaveformImpl::getNumberOfOutputSamples` -/
def getNumberOfOutputSamples {K : Type} (self : WaveformImpl K) : Int := self.ny_

end WaveformImpl

namespace Waveform

/-- `Waveform<T>::Waveform()` -/
def new {K : Type} [LinearOrderedField K] : WaveformImpl K := WaveformImpl.new

/-- `Waveform<T>::setData(const size_t n, const T x[])` -/
def setData {K : Type} [Zero K] (self : WaveformImpl K) (n : Nat) (x : Option (List K)) :
    Except Exn Unit × WaveformImpl K :=
  if n < 1 ∨ x.isNone then (.error .invalid_argument, self)
  else (.ok (), (self.restoreSamplingPeriod).setData n x true)

/-- `Waveform<T>::setData(const std::vector<T> &x)` -/
def setDataVector {K : Type} [Zero K] (self : WaveformImpl K) (x : List K) :
    Except Exn Unit × WaveformImpl K :=
  if x.length < 1 then (.error .invalid_argument, self)
  else setData self x.length (some x)

/-- `Waveform<T>::setDataPointer` -/
def setDataPointer {K : Type} (self : WaveformImpl K) (n : Nat) (x : Option (List K)) :
    Except Exn Unit × WaveformImpl K :=
  if n < 1 ∨ x.isNone then (.error .invalid_argument, self)
  else (.ok (), (self.restoreSamplingPeriod).setInputDataPointer (toInt32 n) x true)

/-- `Waveform<double>::getData() const` -/
def getData {K : Type} [Zero K] (self : WaveformImpl K) : List K :=
  let ny := self.getNumberOfOutputSamples
  let y : List K := List.replicate ny.toNat 0
  if ny > 0 then
    match self.getOutputDataPointer with
    | some yout => ippsCopy yout y ny
    | none => y
  else y

/-- `Waveform<T>::setSamplingPeriod` -/
def setSamplingPeriod {K : Type} [LinearOrderedField K] (self : WaveformImpl K) (dt : K) :
    Except Exn Unit × WaveformImpl K :=
  if dt ≤ 0 then (.error .invalid_argument, self)
  else (.ok (), { self with dt0_ := dt, dt_ := dt })

/-- `Waveform<T>::getSamplingPeriod` -/
def getSamplingPeriod {K : Type} (self : WaveformImpl K) : K := self.dt_

/-- `Waveform<T>::getNyquistFrequency` -/
def getNyquistFrequency {K : Type} [LinearOrderedField K] (self : WaveformImpl K) : K :=
  1 / (2 * self.dt_)

end Waveform

end PostProcessing.SingleChannel

end RTSeis

namespace RTSeis

namespace Utilities.FilterImplementations.Downsample

/-- Modelled from the spec: a default-constructed `Downsample` on which
`initialize(nq, mode)` has been called, as `Waveform` uses it; the exception
when `initialize` throws. -/
def resampler {K : Type} (nq : Int) (mode : ProcessingMode) :
    Except Exn (PostProcessing.SingleChannel.Resampler K) :=
  match init new nq mode with
  | (.ok _, d) =>
    .ok { estimateSpace := fun n => estimateSpace d n
          apply := fun nx x ny y => (apply d nx x ny y).1 }
  | (.error e, _) => .error e

end Utilities.FilterImplementations.Downsample

namespace PostProcessing.SingleChannel

namespace Waveform

/-- The first statement of every processing method:
`if (!pImpl->lfirstFilter_){pImpl->overwriteInputWithOutput();}` -/
def chain {K : Type} [Zero K] (self : WaveformImpl K) : WaveformImpl K :=
  if !self.lfirstFilter_ then self.overwriteInputWithOutput else self

/-- The `try` block of `Waveform<T>::downsample` on an input of `len` samples:
`mkDownsample nq mode` is a default-constructed `Downsample<T>` after
`initialize(nq, mode)`.  Returns how the block ends (normally or with the
exception thrown) and the object at that point. -/
def downsampleTry {K : Type} [LinearOrderedField K]
    (mkDownsample : Int → ProcessingMode → Except Exn (Resampler K))
    (self : WaveformImpl K) (nq len : Int) : Except Exn Unit × WaveformImpl K :=
  match mkDownsample nq .POST_PROCESSING with
  | .error e => (.error e, self)
  | .ok downsample =>
    match downsample.estimateSpace len with
    | .error e => (.error e, self)
    | .ok leny =>
      let self := self.resizeOutputData leny
      let y := self.getOutputDataPointer
      let x := self.getInputDataPointer
      match downsample.apply len x leny y with
      | .error e => (.error e, self)
      | .ok (_, y) =>
        (.ok (), { self with y_ := y, dt_ := self.dt_ * (nq : K), lfirstFilter_ := false })

/-- `Waveform<T>::downsample`: a `std::runtime_error` from the `try` block is
caught and logged, any other exception escapes. -/
def downsample {K : Type} [LinearOrderedField K]
    (mkDownsample : Int → ProcessingMode → Except Exn (Resampler K))
    (self : WaveformImpl K) (nq : Int) : Except Exn Unit × WaveformImpl K :=
  let self := chain self
  let len := self.getLengthOfInputSignal
  if len < 1 then (.ok (), self)
  else if nq < 1 then (.error .invalid_argument, self)
  else
    match downsampleTry mkDownsample self nq len with
    | (.error .runtime_error, self) => (.ok (), self)
    | r => r

/-- The `try` block of `Waveform<T>::decimate` on an input of `len` samples:
`mkDecimate nq nfir lremovePhaseShift mode` is a default-constructed
`Decimate<T>` after `initialize`. -/
def decimateTry {K : Type} [LinearOrderedField K]
    (mkDecimate : Int → Int → Bool → ProcessingMode → Except Exn (Resampler K))
    (self : WaveformImpl K) (nq nfir len : Int) : Except Exn Unit × WaveformImpl K :=
  match mkDecimate nq nfir true .POST_PROCESSING with
  | .error e => (.error e, self)
  | .ok decimate =>
    match decimate.estimateSpace len with
    | .error e => (.error e, self)
    | .ok leny =>
      let self := self.resizeOutputData leny
      let y := self.getOutputDataPointer
      let x := self.getInputDataPointer
      match decimate.apply len x leny y with
      | .error e => (.error e, self)
      | .ok (_, y) =>
        (.ok (), { self with y_ := y, dt_ := self.dt_ * (nq : K), lfirstFilter_ := false })

/-- `Waveform<T>::decimate`: every `std::exception` from the `try` block is
caught and logged. -/
def decimate {K : Type} [LinearOrderedField K]
    (mkDecimate : Int → Int → Bool → ProcessingMode → Except Exn (Resampler K))
    (self : WaveformImpl K) (nq filterLength : Int) : Except Exn Unit × WaveformImpl K :=
  let self := chain self
  let len := self.getLengthOfInputSignal
  if len < 1 then (.ok (), self)
  else if nq < 2 then (.error .invalid_argument, self)
  else if filterLength < 5 then (.error .invalid_argument, self)
  else
    let nfir := if Int.tmod filterLength 2 = 0 then filterLength + 1 else filterLength
    (.ok (), (decimateTry mkDecimate self nq nfir len).2)

/-- A call of `downsample(nq)` or of `decimate(nq, filterLength)`. -/
inductive Resampling where
  | downsample (nq : Int)
  | decimate (nq filterLength : Int)
  deriving DecidableEq, Repr

/-- The factor `nq` of the call. -/
def Resampling.factor : Resampling → Int
  | .downsample nq => nq
  | .decimate nq _ => nq

/-- The call made on the object `self`. -/
def resample {K : Type} [LinearOrderedField K]
    (mkDownsample : Int → ProcessingMode → Except Exn (Resampler K))
    (mkDecimate : Int → Int → Bool → ProcessingMode → Except Exn (Resampler K))
    (self : WaveformImpl K) : Resampling → Except Exn Unit × WaveformImpl K
  | .downsample nq => downsample mkDownsample self nq
  | .decimate nq filterLength => decimate mkDecimate self nq filterLength

/-- The calls made on the resampler in a `try` block all return: `made` is
the default-constructed object after `initialize`, or the exception thrown by
`initialize`; `estimateSpace(len)` returns `leny` and `apply` returns on the
`len` input samples of `self` and its output array resized to `leny`. -/
def resamplerRuns {K : Type} [Zero K] (made : Except Exn (Resampler K))
    (self : WaveformImpl K) (len : Int) : Bool :=
  match made with
  | .error _ => false
  | .ok resampler =>
    match resampler.estimateSpace len with
    | .error _ => false
    | .ok leny =>
      (resampler.apply len (self.resizeOutputData leny).getInputDataPointer leny
        (self.resizeOutputData leny).getOutputDataPointer).isOk

/-- The call is successful: there is data, the arguments are accepted and the
calls made on the `Downsample<T>` or `Decimate<T>` object all return. -/
def completes {K : Type} [LinearOrderedField K]
    (mkDownsample : Int → ProcessingMode → Except Exn (Resampler K))
    (mkDecimate : Int → Int → Bool → ProcessingMode → Except Exn (Resampler K))
    (self : WaveformImpl K) : Resampling → Bool
  | .downsample nq =>
    decide (1 ≤ (chain self).nx_) && decide (1 ≤ nq) &&
      resamplerRuns (mkDownsample nq .POST_PROCESSING) (chain self) (chain self).nx_
  | .decimate nq filterLength =>
    decide (1 ≤ (chain self).nx_) && decide (2 ≤ nq) && decide (5 ≤ filterLength) &&
      resamplerRuns
        (mkDecimate nq (if Int.tmod filterLength 2 = 0 then filterLength + 1 else filterLength)
          true .POST_PROCESSING)
        (chain self) (chain self).nx_

/-- The object after a sequence of calls, one after the other. -/
def resampleAll {K : Type} [LinearOrderedField K]
    (mkDownsample : Int → ProcessingMode → Except Exn (Resampler K))
    (mkDecimate : Int → Int → Bool → ProcessingMode → Except Exn (Resampler K)) :
    WaveformImpl K → List Resampling → WaveformImpl K
  | self, [] => self
  | self, op :: ops =>
    resampleAll mkDownsample mkDecimate (resample mkDownsample mkDecimate self op).2 ops

/-- Every call of the sequence is successful. -/
def allComplete {K : Type} [LinearOrderedField K]
    (mkDownsample : Int → ProcessingMode → Except Exn (Resampler K))
    (mkDecimate : Int → Int → Bool → ProcessingMode → Except Exn (Resampler K)) :
    WaveformImpl K → List Resampling → Bool
  | _, [] => true
  | self, op :: ops =>
    completes mkDownsample mkDecimate self op &&
      allComplete mkDownsample mkDecimate (resample mkDownsample mkDecimate self op).2 ops

end Waveform

end PostProcessing.SingleChannel

end RTSeis

/-! ## FIR envelope (`firEnvelope.cpp`) -/

namespace RTSeis

namespace Utilities.Transforms

/-- What `firEnvelope.cpp` uses and does not define, over samples `K` and
FIR-filter objects `F`: the class `FilterImplementations::FIRFilter<T>`, the
designer `FilterDesign::FIR::HilbertTransformer` and the square root behind
the vendor's `ippsMagnitude`. -/
structure FIREnvelopeParts (K F : Type) where
  /-- `FIRFilter<T>::FIRFilter()` -/
  firNew : F
  /-- `FIRFilter<T>::clear` -/
  firClear : F → F
  /-- `FIRFilter<T>::initialize(nb, b, mode, implementation)` with the direct
  implementation: the object afterwards, or the exception thrown. -/
  firInit : F → Int → List K → ProcessingMode → Except Exn F
  /-- `FIRFilter<T>::apply(n, x, &y)`: the array `y` and the object afterwards,
  or the exception thrown. -/
  firApply : F → Int → List K → List K → Except Exn (List K × F)
  /-- `FilterDesign::FIR::HilbertTransformer(order, beta)`: the taps of the
  real and of the imaginary filter, or the exception thrown. -/
  hilbertTransformer : Int → K → Except Exn (List K × List K)
  /-- The square root of a `double`. -/
  sqrt : K → K

/-- `class FIREnvelope<T>::FIREnvelopeImpl` -/
structure FIREnvelopeImpl (K F : Type) where
  mRealFIRFilter : F
  mImagFIRFilter : F
  mMean : K
  mNumberOfTaps : Int
  mZeroPhase : Bool
  mType3 : Bool
  mHaveInitialCondition : Bool
  mInitialized : Bool
  mMode : ProcessingMode

/-- `ippsMean_64f(x, n, &pMean)` -/
def ippsMean {K : Type} [LinearOrderedField K] (x : List K) (n : Int) : K :=
  (x.take n.toNat).sum / (n : K)

/-- `ippsSubC_64f(src, val, dst, len)`: the array `dst` afterwards. -/
def ippsSubC {K : Type} [LinearOrderedField K] (src : List K) (val : K) (dst : List K)
    (len : Int) : List K :=
  (src.take len.toNat).map (fun v => v - val) ++ dst.drop len.toNat

/-- `ippsZero_64f(&dst[off], len)`: the array `dst` afterwards. -/
def ippsZeroAt {K : Type} [LinearOrderedField K] (dst : List K) (off len : Int) : List K :=
  dst.take off.toNat ++ List.replicate len.toNat 0 ++ dst.drop (off.toNat + len.toNat)

/-- `ippsMagnitude_64f(re, im, dst, len)`: the array `dst` afterwards. -/
def ippsMagnitude {K : Type} [LinearOrderedField K] (sqrt : K → K) (re im dst : List K)
    (len : Int) : List K :=
  List.zipWith (fun a b => sqrt (a * a + b * b)) (re.take len.toNat) (im.take len.toNat)
    ++ dst.drop len.toNat

/-- `ippsAddC_64f_I(val, srcDst, len)`: the array `srcDst` afterwards. -/
def ippsAddC_I {K : Type} [LinearOrderedField K] (val : K) (srcDst : List K) (len : Int) :
    List K :=
  (srcDst.take len.toNat).map (fun v => v + val) ++ srcDst.drop len.toNat

namespace FIREnvelope

/-- `FIREnvelope<T>::FIREnvelope()` -/
def new {K F : Type} [LinearOrderedField K] (parts : FIREnvelopeParts K F) :
    FIREnvelopeImpl K F :=
  { mRealFIRFilter := parts.firNew, mImagFIRFilter := parts.firNew, mMean := 0,
    mNumberOfTaps := 0, mZeroPhase := true, mType3 := false, mHaveInitialCondition := false,
    mInitialized := false, mMode := .POST_PROCESSING }

/-- `FIREnvelope<T>::clear` -/
def clear {K F : Type} [LinearOrderedField K] (parts : FIREnvelopeParts K F)
    (self : FIREnvelopeImpl K F) : FIREnvelopeImpl K F :=
  { mRealFIRFilter := parts.firClear self.mRealFIRFilter,
    mImagFIRFilter := parts.firClear self.mImagFIRFilter, mMean := 0,
    mNumberOfTaps := 0, mZeroPhase := true, mType3 := false, mHaveInitialCondition := false,
    mInitialized := false, mMode := .POST_PROCESSING }

/-- `FIREnvelope<T>::isInitialized` -/
def isInitialized {K F : Type} (self : FIREnvelopeImpl K F) : Bool := self.mInitialized

/-- `FIREnvelope<T>::initialize(ntaps, mode)`.  Whatever is thrown while the
Hilbert transformer is designed and the two filters are initialised is caught:
the object is cleared and `std::runtime_error` is thrown instead.  A filter
whose initialisation throws is taken to be left as it was. -/
def init {K F : Type} [LinearOrderedField K] (parts : FIREnvelopeParts K F)
    (self : FIREnvelopeImpl K F) (ntaps : Int) (mode : ProcessingMode) :
    Except Exn Unit × FIREnvelopeImpl K F :=
  let self := clear parts self
  if ntaps < 1 then (.error .invalid_argument, self)
  else
    let self := { self with mMode := mode, mType3 := decide (Int.tmod ntaps 2 = 1),
                            mNumberOfTaps := ntaps }
    match parts.hilbertTransformer (ntaps - 1) 8 with
    | .error _ => (.error .runtime_error, clear parts self)
    | .ok (rfir, cfir) =>
      match parts.firInit self.mRealFIRFilter (toInt32 rfir.length) rfir mode with
      | .error _ => (.error .runtime_error, clear parts self)
      | .ok fr =>
        let self := { self with mRealFIRFilter := fr }
        match parts.firInit self.mImagFIRFilter (toInt32 cfir.length) cfir mode with
        | .error _ => (.error .runtime_error, clear parts self)
        | .ok fi => (.ok (), { self with mImagFIRFilter := fi, mInitialized := true })

end FIREnvelope

end Utilities.Transforms

end RTSeis

namespace RTSeis

namespace Utilities.Transforms.FIREnvelope

/-- The post-processing branch of `FIREnvelope<double>::transform` on `n >= 1`
samples `x` and the output array `y`.  `ippsMalloc_64f` gives an array of
zeros; the sum `n + groupDelay` is taken without overflow. -/
def transformPostProcessing {K F : Type} [LinearOrderedField K] (parts : FIREnvelopeParts K F)
    (self : FIREnvelopeImpl K F) (n : Int) (x y : List K) :
    Except Exn Unit × List K × FIREnvelopeImpl K F :=
  let pMean := ippsMean x n
  let self := { self with mMean := pMean }
  let groupDelay := Int.tdiv self.mNumberOfTaps 2
  let npad := n + groupDelay
  let xPad : List K := ippsZero npad
  let xPad := ippsSubC x pMean xPad n
  let xPad := ippsZeroAt xPad n groupDelay
  if self.mType3 then
    let yPadr := xPad
    let yPadi : List K := ippsZero npad
    match parts.firApply self.mImagFIRFilter npad xPad yPadi with
    | .error e => (.error e, y, self)
    | .ok (yPadi, fi) =>
      let self := { self with mImagFIRFilter := fi }
      let y := ippsMagnitude parts.sqrt yPadr (yPadi.drop groupDelay.toNat) y n
      (.ok (), ippsAddC_I pMean y n, self)
  else
    let yPadr : List K := ippsZero npad
    match parts.firApply self.mRealFIRFilter npad xPad yPadr with
    | .error e => (.error e, y, self)
    | .ok (yPadr, fr) =>
      let self := { self with mRealFIRFilter := fr }
      let yPadi : List K := ippsZero npad
      match parts.firApply self.mImagFIRFilter npad xPad yPadi with
      | .error e => (.error e, y, self)
      | .ok (yPadi, fi) =>
        let self := { self with mImagFIRFilter := fi }
        let y := ippsMagnitude parts.sqrt (yPadr.drop groupDelay.toNat)
          (yPadi.drop groupDelay.toNat) y n
        (.ok (), ippsAddC_I pMean y n, self)

/-- The loop `for (auto ic=0; ic<n; ic=ic+chunkSize)` of the real-time branch
of `transform`, with `chunks` passes still to make from sample `ic`; `yrTemp`
and `yiTemp` are the two work arrays. -/
def transformRealTimeLoop {K F : Type} [LinearOrderedField K] (parts : FIREnvelopeParts K F)
    (n : Int) (x : List K) :
    Nat → Int → List K → List K → List K → FIREnvelopeImpl K F →
      Except Exn Unit × List K × FIREnvelopeImpl K F
  | 0, _, _, _, y, self => (.ok (), y, self)
  | chunks + 1, ic, yrTemp, yiTemp, y, self =>
    let npfilt := min (n - ic) 1024
    match parts.firApply self.mRealFIRFilter npfilt (x.drop ic.toNat) yrTemp with
    | .error e => (.error e, y, self)
    | .ok (yrTemp, fr) =>
      let self := { self with mRealFIRFilter := fr }
      match parts.firApply self.mImagFIRFilter npfilt (x.drop ic.toNat) yiTemp with
      | .error e => (.error e, y, self)
      | .ok (yiTemp, fi) =>
        let self := { self with mImagFIRFilter := fi }
        let y := y.take ic.toNat
          ++ ippsMagnitude parts.sqrt yrTemp yiTemp (y.drop ic.toNat) npfilt
        transformRealTimeLoop parts n x chunks (ic + 1024) yrTemp yiTemp y self

/-- `FIREnvelope<double>::transform(n, x, &y)`: how the call ends, the array
`y` afterwards and the object afterwards; `none` is a null pointer.  The work
arrays of the real-time branch start out as zeros. -/
def transform {K F : Type} [LinearOrderedField K] (parts : FIREnvelopeParts K F)
    (self : FIREnvelopeImpl K F) (n : Int) (x y : Option (List K)) :
    Except Exn Unit × Option (List K) × FIREnvelopeImpl K F :=
  let self := { self with mMean := 0 }
  if n < 1 then (.ok (), y, self)
  else if !isInitialized self then (.error .runtime_error, y, self)
  else
    match x, y with
    | some x, some y =>
      match self.mMode with
      | .POST_PROCESSING =>
        match transformPostProcessing parts self n x y with
        | (r, y, self) => (r, some y, self)
      | .REAL_TIME =>
        match transformRealTimeLoop parts n x ((n + 1023) / 1024).toNat 0
            (ippsZero 1024) (ippsZero 1024) y self with
        | (r, y, self) => (r, some y, self)
    | _, y => (.error .invalid_argument, y, self)

end Utilities.Transforms.FIREnvelope

end RTSeis

namespace RTSeis

namespace Utilities.Transforms

/-- Modelled from the spec: the difference equation `y[n] = sum_k b[k]*x[n-k]`
of the direct-form FIR filter (section 4.2.1) on the first `n` samples of `x`,
from zero initial conditions. -/
def firDirectForm {K : Type} [LinearOrderedField K] (b x : List K) (n : Nat) : List K :=
  (List.range n).map fun i =>
    ((List.range b.length).map fun k =>
      if k ≤ i then b.getD k 0 * x.getD (i - k) 0 else 0).sum

/-- Modelled from the spec: parts for worked examples.  An FIR filter object
is its taps once initialised (`none` before) and filters in direct form; the
designer returns, for an even order, the pure delay by `order/2` samples as
real filter and the two taps `1/2`, `-1/2` around the centre as imaginary
filter (a stand-in for the Kaiser-window design); `sqrt` is left open. -/
def exampleParts {K : Type} [LinearOrderedField K] (sqrt : K → K) :
    FIREnvelopeParts K (Option (List K)) :=
  { firNew := none
    firClear := fun _ => none
    firInit := fun _ nb b _ => if nb < 1 then .error .invalid_argument else .ok (some b)
    firApply := fun f n x y =>
      match f with
      | none => .error .runtime_error
      | some b => .ok (firDirectForm b x n.toNat ++ y.drop n.toNat, f)
    hilbertTransformer := fun order _ =>
      if order < 0 then .error .invalid_argument
      else .ok ((List.range (order.toNat + 1)).map (fun k =>
                  if k = order.toNat / 2 then 1 else 0),
                (List.range (order.toNat + 1)).map (fun k =>
                  if k + 1 = order.toNat / 2 then 1 / 2
                  else if k = order.toNat / 2 + 1 then -(1 / 2) else 0))
    sqrt := sqrt }

end Utilities.Transforms

end RTSeis

/-! # Theorems -/

namespace RTSeis

/-! ## Second-order sections -/

namespace Utilities.FilterRepresentations.SOS

/-- The leading-coefficient loop finds nothing exactly when no visited section
has a zero leading coefficient. -/
theorem leadingZeroFrom_eq_none_iff (c : List ℚ) (cnt i : Nat) :
    leadingZeroFrom c i cnt = none ↔
      ∀ j, i ≤ j → j < i + cnt → c.get? (3 * j) ≠ some 0 := by
  induction cnt generalizing i with
  | zero =>
    constructor
    · intro _ j h1 h2
      exact absurd h2 (by omega)
    · intro _
      rfl
  | succ cnt ih =>
    unfold leadingZeroFrom
    split
    · rename_i h
      constructor
      · intro hh
        cases hh
      · intro H
        exact absurd h (H i (le_refl i) (by omega))
    · rename_i h
      rw [ih]
      constructor
      · intro H j h1 h2
        by_cases hj : j = i
        · subst hj; exact h
        · exact H j (by omega) (by omega)
      · intro H j h1 h2
        exact H j (by omega) (by omega)

/-- The state a call of `setSecondOrderSections` leaves when it does not
return normally is the cleared one. -/
theorem setSecondOrderSections_cases (self : SOSImpl) (ns : Int) (bs as : List ℚ) :
    (setSecondOrderSections self ns bs as = (.error .invalid_argument, clear self) ∧
      (ns < 1 ∨ (bs.length : Int) ≠ ns * 3 ∨ (as.length : Int) ≠ ns * 3 ∨
        leadingZeroFrom bs 0 ns.toNat ≠ none ∨ leadingZeroFrom as 0 ns.toNat ≠ none)) ∨
    (setSecondOrderSections self ns bs as =
        (.ok (), { clear self with ns := ns, bs := bs, as := as }) ∧
      1 ≤ ns ∧ (bs.length : Int) = ns * 3 ∧ (as.length : Int) = ns * 3 ∧
        leadingZeroFrom bs 0 ns.toNat = none ∧ leadingZeroFrom as 0 ns.toNat = none) := by
  unfold setSecondOrderSections
  simp only []
  split_ifs with h1 h2 h3
  · exact Or.inl ⟨rfl, Or.inl h1⟩
  · exact Or.inl ⟨rfl, Or.inr (Or.inl fun h => h2 h.symm)⟩
  · exact Or.inl ⟨rfl, Or.inr (Or.inr (Or.inl fun h => h3 h.symm))⟩
  · have h2' : (bs.length : Int) = ns * 3 := (not_not.mp h2).symm
    have h3' : (as.length : Int) = ns * 3 := (not_not.mp h3).symm
    split
    · rename_i k hk
      exact Or.inl ⟨rfl, Or.inr (Or.inr (Or.inr (Or.inl (by simp [hk]))))⟩
    · rename_i hb
      split
      · rename_i k hk
        exact Or.inl ⟨rfl, Or.inr (Or.inr (Or.inr (Or.inr (by simp [hk]))))⟩
      · rename_i ha
        exact Or.inr ⟨rfl, by omega, h2', h3', hb, ha⟩

/-- The leading-coefficient loop over `ns` sections finds a section exactly
when some section below `ns` has a zero leading coefficient. -/
theorem leadingZeroFrom_ne_none_iff (c : List ℚ) (ns : Int) :
    leadingZeroFrom c 0 ns.toNat ≠ none ↔
      ∃ i : Nat, (i : Int) < ns ∧ c.get? (3 * i) = some 0 := by
  rw [Ne, leadingZeroFrom_eq_none_iff]
  constructor
  · intro H
    by_contra hne
    apply H
    intro j _ hj hz
    exact hne ⟨j, by omega, hz⟩
  · rintro ⟨i, hi, hz⟩ H
    exact H i (Nat.zero_le i) (by omega) hz

/-- C3: `SOS::setSecondOrderSections(ns, bs, as)` throws
`std::invalid_argument` if and only if `ns < 1`, or `bs.size() != 3*ns`, or
`as.size() != 3*ns`, or `bs[3i] == 0` for some section `i < ns`, or
`as[3i] == 0` for some section `i < ns`; for every other input it returns
normally. -/
theorem setSecondOrderSections_throws_iff (self : SOSImpl) (ns : Int) (bs as : List ℚ) :
    ((setSecondOrderSections self ns bs as).1 = .error .invalid_argument ↔
      (ns < 1 ∨ (bs.length : Int) ≠ 3 * ns ∨ (as.length : Int) ≠ 3 * ns ∨
        (∃ i : Nat, (i : Int) < ns ∧ bs.get? (3 * i) = some 0) ∨
        (∃ i : Nat, (i : Int) < ns ∧ as.get? (3 * i) = some 0))) ∧
    ((setSecondOrderSections self ns bs as).1 = .ok () ↔
      ¬ (ns < 1 ∨ (bs.length : Int) ≠ 3 * ns ∨ (as.length : Int) ≠ 3 * ns ∨
        (∃ i : Nat, (i : Int) < ns ∧ bs.get? (3 * i) = some 0) ∨
        (∃ i : Nat, (i : Int) < ns ∧ as.get? (3 * i) = some 0))) := by
  have key : (ns < 1 ∨ (bs.length : Int) ≠ 3 * ns ∨ (as.length : Int) ≠ 3 * ns ∨
        (∃ i : Nat, (i : Int) < ns ∧ bs.get? (3 * i) = some 0) ∨
        (∃ i : Nat, (i : Int) < ns ∧ as.get? (3 * i) = some 0)) ↔
      (ns < 1 ∨ (bs.length : Int) ≠ ns * 3 ∨ (as.length : Int) ≠ ns * 3 ∨
        leadingZeroFrom bs 0 ns.toNat ≠ none ∨ leadingZeroFrom as 0 ns.toNat ≠ none) := by
    rw [leadingZeroFrom_ne_none_iff, leadingZeroFrom_ne_none_iff, mul_comm 3 ns]
  rw [key]
  rcases setSecondOrderSections_cases self ns bs as with ⟨h, hc⟩ | ⟨h, h1, h2, h3, h4, h5⟩
  · rw [h]
    refine ⟨⟨fun _ => hc, fun _ => rfl⟩, ⟨fun hh => ?_, fun hh => absurd hc hh⟩⟩
    cases hh
  · rw [h]
    have hn : ¬ (ns < 1 ∨ (bs.length : Int) ≠ ns * 3 ∨ (as.length : Int) ≠ ns * 3 ∨
        leadingZeroFrom bs 0 ns.toNat ≠ none ∨ leadingZeroFrom as 0 ns.toNat ≠ none) := by
      rintro (h | h | h | h | h)
      · omega
      · exact h h2
      · exact h h3
      · exact h h4
      · exact h h5
    refine ⟨⟨fun hh => ?_, fun hh => absurd hh hn⟩, ⟨fun _ => hn, fun _ => rfl⟩⟩
    cases hh

/-- C4: for every `(ns, bs, as)` accepted by `SOS::setSecondOrderSections` or
by the three-argument constructor, afterwards `getNumberOfSections() = ns`,
`getNumeratorCoefficients() = bs` and `getDenominatorCoefficients() = as`. -/
theorem set_get_round_trip (self : SOSImpl) (ns : Int) (bs as : List ℚ)
    (hok : (setSecondOrderSections self ns bs as).1 = .ok ()) :
    (getNumberOfSections (setSecondOrderSections self ns bs as).2 = ns ∧
      getNumeratorCoefficients (setSecondOrderSections self ns bs as).2 = bs ∧
      getDenominatorCoefficients (setSecondOrderSections self ns bs as).2 = as) ∧
    ∃ s, mk3 ns bs as = .ok s ∧ getNumberOfSections s = ns ∧
      getNumeratorCoefficients s = bs ∧ getDenominatorCoefficients s = as := by
  have hacc : 1 ≤ ns ∧ (bs.length : Int) = ns * 3 ∧ (as.length : Int) = ns * 3 ∧
      leadingZeroFrom bs 0 ns.toNat = none ∧ leadingZeroFrom as 0 ns.toNat = none := by
    rcases setSecondOrderSections_cases self ns bs as with ⟨h, _⟩ | ⟨_, hc⟩
    · rw [h] at hok
      cases hok
    · exact hc
  constructor
  · rcases setSecondOrderSections_cases self ns bs as with ⟨h, _⟩ | ⟨h, _⟩
    · rw [h] at hok
      cases hok
    · rw [h]
      exact ⟨rfl, rfl, rfl⟩
  · rcases setSecondOrderSections_cases new ns bs as with ⟨_, hc⟩ | ⟨h, _⟩
    · exfalso
      rcases hacc with ⟨a1, a2, a3, a4, a5⟩
      rcases hc with h | h | h | h | h
      · omega
      · exact h a2
      · exact h a3
      · exact h a4
      · exact h a5
    · refine ⟨{ clear new with ns := ns, bs := bs, as := as }, ?_, rfl, rfl, rfl⟩
      unfold mk3
      rw [h]

/-- Witness for C4: one section with numerator `(1, 2, 3)` and denominator
`(4, 5, 6)`. -/
theorem set_get_round_trip_witness :
    (getNumberOfSections (setSecondOrderSections new 1 [1, 2, 3] [4, 5, 6]).2 = 1 ∧
      getNumeratorCoefficients (setSecondOrderSections new 1 [1, 2, 3] [4, 5, 6]).2
        = [1, 2, 3] ∧
      getDenominatorCoefficients (setSecondOrderSections new 1 [1, 2, 3] [4, 5, 6]).2
        = [4, 5, 6]) ∧
    ∃ s, mk3 1 [1, 2, 3] [4, 5, 6] = .ok s ∧ getNumberOfSections s = 1 ∧
      getNumeratorCoefficients s = [1, 2, 3] ∧ getDenominatorCoefficients s = [4, 5, 6] :=
  set_get_round_trip new 1 [1, 2, 3] [4, 5, 6] rfl

/-- The cleared object satisfies the invariant. -/
theorem invariant_clear (s : SOSImpl) : Invariant (clear s) := by
  refine ⟨le_refl _, rfl, rfl, ?_⟩
  intro i hi
  exact absurd hi (by simp [clear])

/-- A coefficient array of `3*ns` entries that passed the leading-coefficient
loop has a non-zero entry at `3*i` for every section `i`. -/
theorem leading_nonzero_of_none (c : List ℚ) (ns : Int) (hlen : (c.length : Int) = ns * 3)
    (hnone : leadingZeroFrom c 0 ns.toNat = none) (i : Nat) (hi : (i : Int) < ns) :
    ∃ b, c.get? (3 * i) = some b ∧ b ≠ 0 := by
  have hlt : 3 * i < c.length := by omega
  refine ⟨c.get ⟨3 * i, hlt⟩, List.get?_eq_get hlt, ?_⟩
  intro hz
  have H := (leadingZeroFrom_eq_none_iff c ns.toNat 0).mp hnone i (Nat.zero_le i) (by omega)
  apply H
  rw [List.get?_eq_get hlt, hz]

/-- Whatever `setSecondOrderSections` does, the object it leaves satisfies the
invariant. -/
theorem invariant_setSecondOrderSections (self : SOSImpl) (ns : Int) (bs as : List ℚ) :
    Invariant (setSecondOrderSections self ns bs as).2 := by
  rcases setSecondOrderSections_cases self ns bs as with ⟨h, _⟩ | ⟨h, h1, h2, h3, h4, h5⟩
  · rw [h]
    exact invariant_clear self
  · rw [h]
    refine ⟨by show (0 : Int) ≤ ns; omega, by show (bs.length : Int) = 3 * ns; omega,
      by show (as.length : Int) = 3 * ns; omega, ?_⟩
    intro i hi
    exact ⟨leading_nonzero_of_none bs ns h2 h4 i hi, leading_nonzero_of_none as ns h3 h5 i hi⟩

/-- C5: every `SOS` value reachable from the constructors through any
sequence of `setSecondOrderSections` (returning or throwing), `clear`, copy
assignment and `setEqualityTolerance` satisfies `ns >= 0`, holds exactly
`3*ns` numerator and `3*ns` denominator coefficients, and has non-zero leading
coefficients `bs[3i]` and `as[3i]` for every section `i < ns`. -/
theorem reachable_invariant (s : SOSImpl) (h : Reachable s) :
    0 ≤ s.ns ∧ (s.bs.length : Int) = 3 * s.ns ∧ (s.as.length : Int) = 3 * s.ns ∧
      ∀ i : Nat, (i : Int) < s.ns →
        (∃ b, s.bs.get? (3 * i) = some b ∧ b ≠ 0) ∧
        (∃ a, s.as.get? (3 * i) = some a ∧ a ≠ 0) := by
  have H : Invariant s := by
    induction h with
    | new => exact invariant_clear new
    | mk3 ns bs as s hs =>
      have hinv := invariant_setSecondOrderSections new ns bs as
      unfold mk3 at hs
      rcases hset : setSecondOrderSections new ns bs as with ⟨r, t⟩
      rw [hset] at hs hinv
      cases r with
      | error e => cases hs
      | ok u =>
        cases hs
        exact hinv
    | copy s _ ih => exact ih
    | setSecondOrderSections s ns bs as _ _ => exact invariant_setSecondOrderSections s ns bs as
    | clear s _ _ => exact invariant_clear s
    | assign s t _ _ _ iht => exact iht
    | setEqualityTolerance s tol _ ih => exact ih
  exact H

/-- Witness for C5: the one-section filter with numerator `(1, 2, 3)` and
denominator `(4, 5, 6)` left by an accepted `setSecondOrderSections`. -/
theorem reachable_invariant_witness :
    Reachable (setSecondOrderSections new 1 [1, 2, 3] [4, 5, 6]).2 ∧
    (0 ≤ (setSecondOrderSections new 1 [1, 2, 3] [4, 5, 6]).2.ns ∧
      ((setSecondOrderSections new 1 [1, 2, 3] [4, 5, 6]).2.bs.length : Int)
        = 3 * (setSecondOrderSections new 1 [1, 2, 3] [4, 5, 6]).2.ns ∧
      ((setSecondOrderSections new 1 [1, 2, 3] [4, 5, 6]).2.as.length : Int)
        = 3 * (setSecondOrderSections new 1 [1, 2, 3] [4, 5, 6]).2.ns ∧
      ∀ i : Nat, (i : Int) < (setSecondOrderSections new 1 [1, 2, 3] [4, 5, 6]).2.ns →
        (∃ b, (setSecondOrderSections new 1 [1, 2, 3] [4, 5, 6]).2.bs.get? (3 * i) = some b
          ∧ b ≠ 0) ∧
        (∃ a, (setSecondOrderSections new 1 [1, 2, 3] [4, 5, 6]).2.as.get? (3 * i) = some a
          ∧ a ≠ 0)) :=
  ⟨Reachable.setSecondOrderSections new 1 [1, 2, 3] [4, 5, 6] Reachable.new,
    reachable_invariant _
      (Reachable.setSecondOrderSections new 1 [1, 2, 3] [4, 5, 6] Reachable.new)⟩

/-- C6 as stated fails: on a one-section filter with tolerance `1/2`,
`setSecondOrderSections(0, {}, {})` throws `std::invalid_argument` and the
object afterwards has no sections, no coefficients and the default tolerance,
not what it held before the call. -/
theorem setSecondOrderSections_throw_mutates :
    (setSecondOrderSections ⟨[1, 2, 3], [4, 5, 6], 1, 1 / 2⟩ 0 [] []).1
        = .error .invalid_argument ∧
      Reachable ⟨[1, 2, 3], [4, 5, 6], 1, 1 / 2⟩ ∧
      (setSecondOrderSections ⟨[1, 2, 3], [4, 5, 6], 1, 1 / 2⟩ 0 [] []).2
        ≠ ⟨[1, 2, 3], [4, 5, 6], 1, 1 / 2⟩ ∧
      getNumberOfSections (setSecondOrderSections ⟨[1, 2, 3], [4, 5, 6], 1, 1 / 2⟩ 0 [] []).2
        = 0 ∧
      getNumeratorCoefficients
        (setSecondOrderSections ⟨[1, 2, 3], [4, 5, 6], 1, 1 / 2⟩ 0 [] []).2 = [] := by
  refine ⟨rfl, ?_, ?_, rfl, rfl⟩
  · exact Reachable.setEqualityTolerance _ (1 / 2)
      (Reachable.setSecondOrderSections new 1 [1, 2, 3] [4, 5, 6] Reachable.new)
  · intro h
    have := congrArg SOSImpl.ns h
    revert this
    decide

/-- C6, amended: whenever `SOS::setSecondOrderSections` throws
`std::invalid_argument`, the object is left in the cleared state: no
sections, no numerator and no denominator coefficients, and the default
equality tolerance `1e-12`, whatever it held before the call. -/
theorem setSecondOrderSections_throw_clears (self : SOSImpl) (ns : Int) (bs as : List ℚ)
    (hthrow : (setSecondOrderSections self ns bs as).1 = .error .invalid_argument) :
    (setSecondOrderSections self ns bs as).2 = clear self ∧
    getNumberOfSections (setSecondOrderSections self ns bs as).2 = 0 ∧
    getNumeratorCoefficients (setSecondOrderSections self ns bs as).2 = [] ∧
    getDenominatorCoefficients (setSecondOrderSections self ns bs as).2 = [] ∧
    (setSecondOrderSections self ns bs as).2.tol = DEFAULT_TOL := by
  rcases setSecondOrderSections_cases self ns bs as with ⟨h, _⟩ | ⟨h, _⟩
  · rw [h]
    exact ⟨rfl, rfl, rfl, rfl, rfl⟩
  · rw [h] at hthrow
    cases hthrow

/-- Witness for the amended C6: a two-section request with only three
coefficients, on a one-section filter. -/
theorem setSecondOrderSections_throw_clears_witness :
    (setSecondOrderSections ⟨[1, 2, 3], [4, 5, 6], 1, 1 / 2⟩ 2 [1, 2, 3] [4, 5, 6]).2
        = clear ⟨[1, 2, 3], [4, 5, 6], 1, 1 / 2⟩ ∧
    getNumberOfSections
      (setSecondOrderSections ⟨[1, 2, 3], [4, 5, 6], 1, 1 / 2⟩ 2 [1, 2, 3] [4, 5, 6]).2 = 0 ∧
    getNumeratorCoefficients
      (setSecondOrderSections ⟨[1, 2, 3], [4, 5, 6], 1, 1 / 2⟩ 2 [1, 2, 3] [4, 5, 6]).2 = [] ∧
    getDenominatorCoefficients
      (setSecondOrderSections ⟨[1, 2, 3], [4, 5, 6], 1, 1 / 2⟩ 2 [1, 2, 3] [4, 5, 6]).2 = [] ∧
    (setSecondOrderSections ⟨[1, 2, 3], [4, 5, 6], 1, 1 / 2⟩ 2 [1, 2, 3] [4, 5, 6]).2.tol
      = DEFAULT_TOL :=
  setSecondOrderSections_throw_clears ⟨[1, 2, 3], [4, 5, 6], 1, 1 / 2⟩ 2 [1, 2, 3] [4, 5, 6] rfl

/-- The comparison loop of `operator==` runs to its end exactly when every
pair of coefficients is within the tolerance. -/
theorem differsBeyond_eq_false_iff (tol : ℚ) (p q : List ℚ) :
    differsBeyond tol p q = false ↔
      ∀ i, i < p.length → |p.getD i 0 - q.getD i 0| ≤ tol := by
  unfold differsBeyond
  rw [List.any_eq_false]
  constructor
  · intro H i hi
    have := H i (List.mem_range.mpr hi)
    simpa using this
  · intro H i hi
    have := H i (List.mem_range.mp hi)
    simpa using this

/-- C7: for all `SOS` values `a` and `b`, `a == b` holds exactly when they
have the same number of sections and coefficient counts and every pair of
corresponding numerator and denominator coefficients differs in absolute
value by at most the tolerance held by the left operand `a` (default `1e-12`,
set with `setEqualityTolerance`); and `a != b` is the negation of `a == b`. -/
theorem eq_iff_within_tolerance (a b : SOSImpl) :
    (eq a b = true ↔
      a.ns = b.ns ∧ a.bs.length = b.bs.length ∧ a.as.length = b.as.length ∧
      (∀ i, i < a.bs.length → |a.bs.getD i 0 - b.bs.getD i 0| ≤ a.tol) ∧
      (∀ i, i < a.as.length → |a.as.getD i 0 - b.as.getD i 0| ≤ a.tol)) ∧
    ne a b = !(eq a b) ∧
    new.tol = 1 / 10 ^ 12 ∧
    ∀ t : ℚ, (setEqualityTolerance a t).tol = t := by
  refine ⟨?_, rfl, rfl, fun _ => rfl⟩
  rw [← differsBeyond_eq_false_iff, ← differsBeyond_eq_false_iff]
  unfold eq
  split_ifs with h1 h2 h3 h4 h5
  · constructor
    · intro h; cases h
    · rintro ⟨_, h, _⟩; exact absurd h h1
  · constructor
    · intro h; cases h
    · rintro ⟨_, _, h, _⟩; exact absurd h h2
  · constructor
    · intro h; cases h
    · rintro ⟨h, _⟩; exact absurd h h3
  · constructor
    · intro h; cases h
    · rintro ⟨_, _, _, h, _⟩; rw [h4] at h; cases h
  · constructor
    · intro h; cases h
    · rintro ⟨_, _, _, _, h⟩; rw [h5] at h; cases h
  · refine ⟨fun _ => ⟨not_not.mp h3, not_not.mp h1, not_not.mp h2, ?_, ?_⟩, fun _ => rfl⟩
    · simpa using h4
    · simpa using h5

end Utilities.FilterRepresentations.SOS

end RTSeis

namespace RTSeis

/-! ## DFT utilities -/

namespace Utilities.Transforms.DFTUtilities

/-- On `2 <= n <= 2^30` the function returns `2 ^ ⌈log2 n⌉`. -/
theorem nextPowerOfTwo_of_le (n : Int) (h2 : 2 ≤ n) (hle : n ≤ 2 ^ 30) :
    nextPowerOfTwo n = .ok ((2 : Int) ^ Nat.clog 2 n.toNat) ∧ Nat.clog 2 n.toNat ≤ 30 := by
  have hk : Nat.clog 2 n.toNat ≤ 30 := by
    apply (Nat.le_pow_iff_clog_le (by decide)).mp
    omega
  refine ⟨?_, hk⟩
  generalize hkdef : Nat.clog 2 n.toNat = k at hk
  have hP1 : (1 : Int) ≤ 2 ^ k := by
    have : 1 ≤ 2 ^ k := Nat.one_le_two_pow
    exact_mod_cast this
  have hP2 : (2 : Int) ^ k ≤ 2 ^ 30 := by
    have : 2 ^ k ≤ 2 ^ 30 := Nat.pow_le_pow_right (by decide) hk
    exact_mod_cast this
  have hk32 : toInt32 (k : Int) = k := by
    unfold toInt32
    omega
  unfold nextPowerOfTwo
  rw [if_neg (by omega), if_neg (by omega), if_neg (by omega)]
  simp only [hkdef, hk32, Int.toNat_ofNat]
  generalize (2 : Int) ^ k = P at hP1 hP2
  have e1 : toUInt64 P = P := by
    unfold toUInt64
    omega
  have e2 : toInt32 P = P := by
    unfold toInt32
    omega
  rw [e1, e2, e1]
  simp

/-- On `2^30 < n < 2^31` the next power of two does not fit in `int` and the
function throws. -/
theorem nextPowerOfTwo_of_gt (n : Int) (hgt : 2 ^ 30 < n) (hlt : n < 2 ^ 31) :
    nextPowerOfTwo n = .error .runtime_error := by
  have hk1 : 30 < Nat.clog 2 n.toNat := by
    apply (Nat.pow_lt_iff_lt_clog (by decide)).mp
    omega
  have hk2 : Nat.clog 2 n.toNat ≤ 31 := by
    apply (Nat.le_pow_iff_clog_le (by decide)).mp
    omega
  have hk : Nat.clog 2 n.toNat = 31 := by omega
  unfold nextPowerOfTwo
  rw [if_neg (by omega), if_neg (by omega), if_neg (by omega)]
  simp only [hk]
  rw [if_pos (by decide)]

/-- On `0 <= n <= 2^30` the function returns `2^k` for the least `k` with
`n <= 2^k`. -/
theorem nextPowerOfTwo_least (n : Int) (h0 : 0 ≤ n) (hle : n ≤ 2 ^ 30) :
    ∃ k : Nat, nextPowerOfTwo n = .ok ((2 : Int) ^ k) ∧ n ≤ (2 : Int) ^ k ∧
      (∀ j : Nat, n ≤ (2 : Int) ^ j → k ≤ j) ∧
      (2 ≤ n → (2 : Int) ^ k / 2 < n) := by
  by_cases h2 : 2 ≤ n
  · obtain ⟨hres, _⟩ := nextPowerOfTwo_of_le n h2 hle
    lift n to ℕ using h0
    rw [Int.toNat_ofNat] at hres
    have hn2 : 2 ≤ n := by exact_mod_cast h2
    refine ⟨Nat.clog 2 n, hres, ?_, ?_, ?_⟩
    · have := Nat.le_pow_clog (by decide : 1 < 2) n
      exact_mod_cast this
    · intro j hj
      apply (Nat.le_pow_iff_clog_le (by decide)).mp
      exact_mod_cast hj
    · intro _
      have hpos : 0 < Nat.clog 2 n := Nat.clog_pos (by decide) hn2
      have hlt := Nat.pow_pred_clog_lt_self (by decide : 1 < 2) (by omega : 1 < n)
      obtain ⟨c, hc⟩ : ∃ c, Nat.clog 2 n = c + 1 := ⟨Nat.clog 2 n - 1, by omega⟩
      rw [hc] at hlt ⊢
      rw [Nat.pred_succ] at hlt
      have hlt' : (2 : Int) ^ c < n := by exact_mod_cast hlt
      rw [pow_succ]
      omega
  · have hcases : n = 0 ∨ n = 1 := by omega
    refine ⟨0, ?_, by omega, fun j _ => Nat.zero_le j, fun h => absurd h h2⟩
    rcases hcases with h | h <;> subst h <;> rfl

/-- C8: `DFTUtilities::nextPowerOfTwo` returns the smallest power of two not
below its argument: for every integer `n` with `0 <= n <= 2^30` the result is
`2^k` for the least `k >= 0` with `2^k >= n`; so `0` and `1` both give `1`, an
exact power of two is returned unchanged, and `result/2 < n` whenever
`n >= 2`. -/
theorem nextPowerOfTwo_smallest (n : Int) (h0 : 0 ≤ n) (hle : n ≤ 2 ^ 30) :
    (∃ k : Nat, nextPowerOfTwo n = .ok ((2 : Int) ^ k) ∧ n ≤ (2 : Int) ^ k ∧
      (∀ j : Nat, n ≤ (2 : Int) ^ j → k ≤ j) ∧
      (2 ≤ n → (2 : Int) ^ k / 2 < n)) ∧
    (∀ m : Nat, n = (2 : Int) ^ m → nextPowerOfTwo n = .ok n) ∧
    nextPowerOfTwo 0 = .ok 1 ∧ nextPowerOfTwo 1 = .ok 1 := by
  have main := nextPowerOfTwo_least n h0 hle
  refine ⟨main, ?_, rfl, rfl⟩
  intro m hm
  obtain ⟨k, hres, hnk, hleast, _⟩ := main
  have hkm : k ≤ m := hleast m (le_of_eq hm)
  have hmk : m ≤ k := by
    rw [hm] at hnk
    have : 2 ^ m ≤ 2 ^ k := by exact_mod_cast hnk
    exact (Nat.pow_le_pow_iff_right (by decide)).mp this
  have : k = m := le_antisymm hkm hmk
  rw [hres, this, hm]

/-- Witness for C8: `n = 5` gives `8`, and `1024` is returned unchanged. -/
theorem nextPowerOfTwo_smallest_witness :
    (nextPowerOfTwo 5 = .ok 8 ∧ nextPowerOfTwo 1024 = .ok 1024) ∧
    ((0 : Int) ≤ 5 ∧ (5 : Int) ≤ 2 ^ 30) ∧
    ((∃ k : Nat, nextPowerOfTwo 5 = .ok ((2 : Int) ^ k) ∧ (5 : Int) ≤ (2 : Int) ^ k ∧
      (∀ j : Nat, (5 : Int) ≤ (2 : Int) ^ j → k ≤ j) ∧
      ((2 : Int) ≤ 5 → (2 : Int) ^ k / 2 < 5)) ∧
    (∀ m : Nat, (5 : Int) = (2 : Int) ^ m → nextPowerOfTwo 5 = .ok 5) ∧
    nextPowerOfTwo 0 = .ok 1 ∧ nextPowerOfTwo 1 = .ok 1) :=
  ⟨⟨by simp [nextPowerOfTwo, toInt32, toUInt64, Nat.clog],
      by simp [nextPowerOfTwo, toInt32, toUInt64, Nat.clog]⟩,
    ⟨by decide, by decide⟩, nextPowerOfTwo_smallest 5 (by decide) (by decide)⟩

/-- C9: for a 32-bit `int` `n`, `DFTUtilities::nextPowerOfTwo` throws if and
only if `n < 0` (invalid argument) or `n > 2^30` (runtime "Overflow error",
the next power of two `2^31` not fitting in `int`); it never returns a
wrapped, zero or negative value. -/
theorem nextPowerOfTwo_throws_iff (n : Int) (hlo : -2 ^ 31 ≤ n) (hhi : n < 2 ^ 31) :
    (nextPowerOfTwo n = .error .invalid_argument ↔ n < 0) ∧
    (nextPowerOfTwo n = .error .runtime_error ↔ 2 ^ 30 < n) ∧
    ((∃ e, nextPowerOfTwo n = .error e) ↔ (n < 0 ∨ 2 ^ 30 < n)) ∧
    (∀ r, nextPowerOfTwo n = .ok r → 0 < r ∧ n ≤ r ∧ r < 2 ^ 31 ∧ ∃ k : Nat, r = 2 ^ k) := by
  by_cases hneg : n < 0
  · have hres : nextPowerOfTwo n = .error .invalid_argument := by
      unfold nextPowerOfTwo
      rw [if_pos hneg]
    rw [hres]
    refine ⟨⟨fun _ => hneg, fun _ => rfl⟩, ⟨fun h => ?_, fun h => ?_⟩,
      ⟨fun _ => Or.inl hneg, fun _ => ⟨_, rfl⟩⟩, fun r h => ?_⟩
    · cases h
    · omega
    · cases h
  by_cases hbig : 2 ^ 30 < n
  · have hres := nextPowerOfTwo_of_gt n hbig hhi
    rw [hres]
    refine ⟨⟨fun h => ?_, fun h => absurd h hneg⟩, ⟨fun _ => hbig, fun _ => rfl⟩,
      ⟨fun _ => Or.inr hbig, fun _ => ⟨_, rfl⟩⟩, fun r h => ?_⟩
    · cases h
    · cases h
  obtain ⟨k, hres, hnk, _, _⟩ := nextPowerOfTwo_least n (by omega) (by omega)
  have hk30 : (2 : Int) ^ k ≤ 2 ^ 30 := by
    by_cases h2 : 2 ≤ n
    · obtain ⟨hres2, hk⟩ := nextPowerOfTwo_of_le n h2 (by omega)
      rw [hres] at hres2
      have heq : (2 : Int) ^ k = 2 ^ Nat.clog 2 n.toNat := by
        injection hres2
      rw [heq]
      have : 2 ^ Nat.clog 2 n.toNat ≤ 2 ^ 30 := Nat.pow_le_pow_right (by decide) hk
      exact_mod_cast this
    · have hcases : n = 0 ∨ n = 1 := by omega
      have h1 : nextPowerOfTwo n = .ok 1 := by
        rcases hcases with h | h <;> subst h <;> rfl
      rw [hres] at h1
      have heq : (2 : Int) ^ k = 1 := by
        injection h1
      rw [heq]
      decide
  have hpos : (0 : Int) < 2 ^ k := by positivity
  rw [hres]
  refine ⟨⟨fun h => ?_, fun h => absurd h hneg⟩, ⟨fun h => ?_, fun h => absurd h hbig⟩,
    ⟨?_, ?_⟩, fun r h => ?_⟩
  · cases h
  · cases h
  · rintro ⟨e, h⟩
    cases h
  · rintro (h | h)
    · exact absurd h hneg
    · exact absurd h hbig
  · have hr : (2 : Int) ^ k = r := by
      injection h
    subst hr
    exact ⟨hpos, hnk, by omega, k, rfl⟩

/-- Witness for C9: `n = 2^30 + 1`, the smallest argument that overflows. -/
theorem nextPowerOfTwo_throws_iff_witness :
    (nextPowerOfTwo (2 ^ 30 + 1) = .error .runtime_error ∧
      nextPowerOfTwo (-1) = .error .invalid_argument) ∧
    (-2 ^ 31 ≤ (2 ^ 30 + 1 : Int) ∧ (2 ^ 30 + 1 : Int) < 2 ^ 31) ∧
    ((nextPowerOfTwo (2 ^ 30 + 1) = .error .invalid_argument ↔ (2 ^ 30 + 1 : Int) < 0) ∧
    (nextPowerOfTwo (2 ^ 30 + 1) = .error .runtime_error ↔ (2 : Int) ^ 30 < 2 ^ 30 + 1) ∧
    ((∃ e, nextPowerOfTwo (2 ^ 30 + 1) = .error e) ↔
      ((2 ^ 30 + 1 : Int) < 0 ∨ (2 : Int) ^ 30 < 2 ^ 30 + 1)) ∧
    (∀ r, nextPowerOfTwo (2 ^ 30 + 1) = .ok r →
      0 < r ∧ (2 ^ 30 + 1 : Int) ≤ r ∧ r < 2 ^ 31 ∧ ∃ k : Nat, r = 2 ^ k)) :=
  ⟨⟨nextPowerOfTwo_of_gt (2 ^ 30 + 1) (by decide) (by decide), by simp [nextPowerOfTwo]⟩,
    ⟨by decide, by decide⟩, nextPowerOfTwo_throws_iff (2 ^ 30 + 1) (by decide) (by decide)⟩

/-- The two `std::copy` calls of `fftShift`, tail first and head second, build
the rotation of `x` by `i1`. -/
theorem stdCopy_tail_head {α : Type} (x y : List α) (i1 : Nat) (hi : i1 ≤ x.length)
    (hy : y.length = x.length) :
    stdCopy x 0 (i1 : Int) (stdCopy x (i1 : Int) ((x.length - i1 : Nat) : Int) y 0)
      ((x.length - i1 : Nat) : Int) = x.rotate i1 := by
  have htail : (List.drop i1 x).take (x.length - i1) = List.drop i1 x := by
    apply List.take_of_length_le
    simp
  have hinner : stdCopy x (i1 : Int) ((x.length - i1 : Nat) : Int) y 0
      = List.drop i1 x ++ List.drop (x.length - i1) y := by
    unfold stdCopy
    simp only [Int.toNat_ofNat, Int.toNat_zero, List.take_zero, List.nil_append, Nat.zero_add,
      htail]
  rw [hinner, List.rotate_eq_drop_append_take hi]
  unfold stdCopy
  simp only [Int.toNat_ofNat, Int.toNat_zero, List.drop_zero]
  have hlen : (List.drop i1 x).length = x.length - i1 := by simp
  rw [List.take_append_of_le_length (by omega), List.take_of_length_le (by omega)]
  have hdrop : List.drop (x.length - i1 + i1) (List.drop i1 x ++ List.drop (x.length - i1) y)
      = [] := by
    apply List.drop_of_length_le
    simp only [List.length_append, List.length_drop]
    omega
  rw [hdrop, List.append_nil]

/-- The vector `fftShift` is the left rotation by `⌈n/2⌉`. -/
theorem fftShift_eq_rotate {α : Type} [Inhabited α] (x : List α)
    (hlen : x.length < 2 ^ 31) :
    fftShift x = x.rotate ((x.length + 1) / 2) := by
  unfold fftShift
  cases hx : x with
  | nil => simp
  | cons a t =>
    rw [← hx]
    have hne : x.isEmpty = false := by rw [hx]; rfl
    have hpos : 0 < x.length := by rw [hx]; simp
    rw [hne]
    simp only [Bool.false_eq_true, if_false]
    have h32 : toInt32 (x.length : Int) = (x.length : Int) := by
      unfold toInt32
      omega
    rw [h32]
    have hy : (List.replicate x.length (default : α)).length = x.length :=
      List.length_replicate _ _
    generalize List.replicate x.length (default : α) = y at hy
    unfold fftShiftPtr
    have hdiv : Int.tdiv (x.length : Int) 2 = ((x.length / 2 : Nat) : Int) :=
      (Int.ofNat_tdiv x.length 2).symm
    have hmod : Int.tmod (x.length : Int) 2 = ((x.length % 2 : Nat) : Int) :=
      (Int.ofNat_tmod x.length 2).symm
    rw [hdiv, hmod]
    by_cases h1 : x.length = 1
    · rw [if_pos (by omega)]
      have e := stdCopy_tail_head x y 1 (by omega) hy
      have e0 : stdCopy x (1 : Nat) ((x.length - 1 : Nat) : Int) y 0 = y := by
        unfold stdCopy
        simp [h1]
      rw [e0] at e
      have e1 : ((x.length - 1 : Nat) : Int) = 0 := by omega
      rw [e1] at e
      rw [h1]
      exact e
    rw [if_neg (by omega)]
    by_cases h2 : x.length = 2
    · rw [if_pos (by omega)]
      have e := stdCopy_tail_head x y 1 (by omega) hy
      have e1 : ((x.length - 1 : Nat) : Int) = 1 := by omega
      rw [e1] at e
      rw [h2]
      exact e
    rw [if_neg (by omega)]
    by_cases hodd : x.length % 2 = 1
    · rw [if_pos (by omega)]
      have e := stdCopy_tail_head x y (x.length / 2 + 1) (by omega) hy
      have e1 : ((x.length - (x.length / 2 + 1) : Nat) : Int)
          = (x.length : Int) - (((x.length / 2 : Nat) : Int) + 1) := by omega
      have e2 : ((x.length - (x.length / 2 + 1) : Nat) : Int)
          = ((x.length / 2 : Nat) : Int) + 1 - 1 := by omega
      have e3 : (x.length + 1) / 2 = x.length / 2 + 1 := by omega
      rw [e3]
      simp only []
      rw [← e1]
      nth_rewrite 2 [e2] at e
      push_cast at e ⊢
      exact e
    · rw [if_neg (by omega)]
      have e := stdCopy_tail_head x y (x.length / 2) (by omega) hy
      have e1 : ((x.length - x.length / 2 : Nat) : Int) = ((x.length / 2 : Nat) : Int) := by
        omega
      have e3 : (x.length + 1) / 2 = x.length / 2 := by omega
      rw [e3]
      rw [e1] at e
      exact e

/-- C10: `DFTUtilities::fftShift` is the rotation that sends input index `0`
to `floor(n/2)`: for every `x` of length `n` (below `2^31`, so that `n` is an
`int`) and every `i < n`, `fftShift(x)[(i + floor(n/2)) mod n] = x[i]`;
equivalently the output is `x` rotated left by `ceil(n/2)`; the output has
length `n` and the empty vector maps to the empty vector. -/
theorem fftShift_rotation {α : Type} [Inhabited α] (x : List α)
    (hlen : x.length < 2 ^ 31) :
    (fftShift x).length = x.length ∧
    (∀ i (hi : i < x.length),
      (fftShift x)[(i + x.length / 2) % x.length]? = some x[i]) ∧
    fftShift x = x.rotate ((x.length + 1) / 2) ∧
    fftShift ([] : List α) = [] := by
  have hrot := fftShift_eq_rotate x hlen
  refine ⟨by rw [hrot, List.length_rotate], ?_, hrot, rfl⟩
  intro i hi
  have hm : (i + x.length / 2) % x.length < x.length := Nat.mod_lt _ (by omega)
  rw [hrot, List.getElem?_rotate hm]
  have hidx : ((i + x.length / 2) % x.length + (x.length + 1) / 2) % x.length = i := by
    rw [Nat.mod_add_mod]
    have : i + x.length / 2 + (x.length + 1) / 2 = i + x.length := by omega
    rw [this, Nat.add_mod_right, Nat.mod_eq_of_lt hi]
  rw [hidx, List.getElem?_eq_getElem hi]

/-- Witness for C10: the five-element vector `1, 2, 3, 4, 5` is shifted to
`4, 5, 1, 2, 3`. -/
theorem fftShift_rotation_witness :
    ([1, 2, 3, 4, 5] : List Int).length < 2 ^ 31 ∧
    fftShift ([1, 2, 3, 4, 5] : List Int) = [4, 5, 1, 2, 3] ∧
    ((fftShift ([1, 2, 3, 4, 5] : List Int)).length = ([1, 2, 3, 4, 5] : List Int).length ∧
    (∀ i (hi : i < ([1, 2, 3, 4, 5] : List Int).length),
      (fftShift ([1, 2, 3, 4, 5] : List Int))[(i + ([1, 2, 3, 4, 5] : List Int).length / 2)
        % ([1, 2, 3, 4, 5] : List Int).length]? = some ([1, 2, 3, 4, 5] : List Int)[i]) ∧
    fftShift ([1, 2, 3, 4, 5] : List Int)
      = ([1, 2, 3, 4, 5] : List Int).rotate ((([1, 2, 3, 4, 5] : List Int).length + 1) / 2) ∧
    fftShift ([] : List Int) = []) :=
  ⟨by decide, by decide, fftShift_rotation [1, 2, 3, 4, 5] (by decide)⟩

end Utilities.Transforms.DFTUtilities

end RTSeis

namespace RTSeis

/-! ## Median filter -/

/-- Sliding a window over a delay line followed by two packets gives the
outputs of the first packet followed by those of the second packet run on the
delay line handed over by the first. -/
theorem slidingMedian_append {α : Type} [LinearOrder α] [Zero α]
    (D x1 x2 : List α) (m : Nat) (hm : 1 ≤ m) (hD : D.length = m - 1) :
    slidingMedian (D ++ (x1 ++ x2)) m (x1 ++ x2).length
      = slidingMedian (D ++ x1) m x1.length
        ++ slidingMedian ((D ++ x1).drop x1.length ++ x2) m x2.length := by
  unfold slidingMedian
  rw [List.length_append, List.range_add, List.map_append, List.map_map]
  congr 1
  · apply List.map_congr_left
    intro i hi
    have hi' : i < x1.length := List.mem_range.mp hi
    rw [← List.append_assoc, List.drop_append_of_le_length (by simp; omega),
      List.take_append_of_le_length (by simp; omega)]
  · apply List.map_congr_left
    intro i _
    simp only [Function.comp]
    rw [← List.append_assoc, ← List.drop_drop,
      List.drop_append_of_le_length (by simp)]

/-- The sliding median produces one output per requested sample. -/
theorem length_slidingMedian {α : Type} [LinearOrder α] [Zero α]
    (line : List α) (m n : Nat) : (slidingMedian line m n).length = n := by
  unfold slidingMedian
  simp

/-- A copy of `len` samples keeps the length of the destination. -/
theorem length_ippsCopy {α : Type} (src dst : List α) (len : Int)
    (hs : len.toNat ≤ src.length) (hd : len.toNat ≤ dst.length) :
    (ippsCopy src dst len).length = dst.length := by
  unfold ippsCopy
  simp only [List.length_append, List.length_take, List.length_drop]
  omega

/-- The first `len` samples after a copy are the samples copied. -/
theorem take_ippsCopy {α : Type} (src dst : List α) (len : Int)
    (hs : len.toNat ≤ src.length) :
    (ippsCopy src dst len).take len.toNat = src.take len.toNat := by
  unfold ippsCopy
  rw [List.take_append_of_le_length (by simp; omega), List.take_take, Nat.min_self]

/-- After a packet of `n` samples, delay line and packet leave exactly
`maskSize - 1` samples behind the packet start. -/
theorem length_drop_line {α : Type} (dly x : List α) (k : Nat) (hk : k ≤ dly.length) :
    ((dly.take k ++ x).drop x.length).length = k := by
  simp only [List.length_drop, List.length_append, List.length_take]
  omega

namespace Utilities.FilterImplementations

open MedianFilterImpl

/-- One real-time call of the double-precision kernel path: the sliding median
over delay line and packet comes out, and the source delay line afterwards
starts with the last `maskSize_ - 1` samples of delay line and packet. -/
theorem applyKernel64_realTime {α : Type} [LinearOrder α] [Zero α]
    (s : MedianFilterImpl α) (x : List α) (hmode : s.mode = .REAL_TIME)
    (h1 : (s.maskSize - 1).toNat ≤ s.dlysrc64.length)
    (h2 : (s.maskSize - 1).toNat ≤ s.dlydst64.length) :
    ∃ s', applyKernel64 s x
        = (0, slidingMedian (s.dlysrc64.take (s.maskSize - 1).toNat ++ x)
            s.maskSize.toNat x.length, s') ∧
      s'.linit = s.linit ∧ s'.mode = s.mode ∧ s'.maskSize = s.maskSize ∧
      s'.precision = s.precision ∧
      (s.maskSize - 1).toNat ≤ s'.dlysrc64.length ∧
      (s.maskSize - 1).toNat ≤ s'.dlydst64.length ∧
      s'.dlysrc64.take (s.maskSize - 1).toNat
        = (s.dlysrc64.take (s.maskSize - 1).toNat ++ x).drop x.length := by
  have hlen := length_drop_line s.dlysrc64 x (s.maskSize - 1).toNat h1
  have hdst : (s.maskSize - 1).toNat ≤ (ippsCopy
      ((s.dlysrc64.take (s.maskSize - 1).toNat ++ x).drop x.length) s.dlydst64
      (s.maskSize - 1)).length := by
    rw [length_ippsCopy _ _ _ (by omega) h2]
    exact h2
  unfold applyKernel64 ippsFilterMedian
  simp only [hmode, if_true, Option.map_some', Option.getD_some, ne_eq, not_true_eq_false,
    if_false]
  by_cases hw : s.maskSize > 1
  · rw [if_pos hw]
    refine ⟨_, rfl, rfl, rfl, rfl, rfl, ?_, hdst, ?_⟩
    · show (s.maskSize - 1).toNat ≤ (ippsCopy _ s.dlysrc64 (s.maskSize - 1)).length
      rw [length_ippsCopy _ _ _ hdst h1]
      exact h1
    · show (ippsCopy _ s.dlysrc64 (s.maskSize - 1)).take (s.maskSize - 1).toNat = _
      rw [take_ippsCopy _ _ _ hdst, take_ippsCopy _ _ _ (by omega)]
      exact List.take_of_length_le (by omega)
  · rw [if_neg hw]
    refine ⟨_, rfl, rfl, rfl, rfl, rfl, h1, hdst, ?_⟩
    have hk : (s.maskSize - 1).toNat = 0 := by omega
    show s.dlysrc64.take (s.maskSize - 1).toNat = _
    rw [hk]
    simp

/-- One real-time call of the single-precision kernel path. -/
theorem applyKernel32_realTime {α : Type} [LinearOrder α] [Zero α]
    (s : MedianFilterImpl α) (x : List α) (hmode : s.mode = .REAL_TIME)
    (h1 : (s.maskSize - 1).toNat ≤ s.dlysrc32.length)
    (h2 : (s.maskSize - 1).toNat ≤ s.dlydst32.length) :
    ∃ s', applyKernel32 s x
        = (0, slidingMedian (s.dlysrc32.take (s.maskSize - 1).toNat ++ x)
            s.maskSize.toNat x.length, s') ∧
      s'.linit = s.linit ∧ s'.mode = s.mode ∧ s'.maskSize = s.maskSize ∧
      s'.precision = s.precision ∧
      (s.maskSize - 1).toNat ≤ s'.dlysrc32.length ∧
      (s.maskSize - 1).toNat ≤ s'.dlydst32.length ∧
      s'.dlysrc32.take (s.maskSize - 1).toNat
        = (s.dlysrc32.take (s.maskSize - 1).toNat ++ x).drop x.length := by
  have hlen := length_drop_line s.dlysrc32 x (s.maskSize - 1).toNat h1
  have hdst : (s.maskSize - 1).toNat ≤ (ippsCopy
      ((s.dlysrc32.take (s.maskSize - 1).toNat ++ x).drop x.length) s.dlydst32
      (s.maskSize - 1)).length := by
    rw [length_ippsCopy _ _ _ (by omega) h2]
    exact h2
  unfold applyKernel32 ippsFilterMedian
  simp only [hmode, if_true, Option.map_some', Option.getD_some, ne_eq, not_true_eq_false,
    if_false]
  by_cases hw : s.maskSize > 1
  · rw [if_pos hw]
    refine ⟨_, rfl, rfl, rfl, rfl, rfl, ?_, hdst, ?_⟩
    · show (s.maskSize - 1).toNat ≤ (ippsCopy _ s.dlysrc32 (s.maskSize - 1)).length
      rw [length_ippsCopy _ _ _ hdst h1]
      exact h1
    · show (ippsCopy _ s.dlysrc32 (s.maskSize - 1)).take (s.maskSize - 1).toNat = _
      rw [take_ippsCopy _ _ _ hdst, take_ippsCopy _ _ _ (by omega)]
      exact List.take_of_length_le (by omega)
  · rw [if_neg hw]
    refine ⟨_, rfl, rfl, rfl, rfl, rfl, h1, hdst, ?_⟩
    have hk : (s.maskSize - 1).toNat = 0 := by omega
    show s.dlysrc32.take (s.maskSize - 1).toNat = _
    rw [hk]
    simp

/-- The delay line of a ready filter holds `maskSize_ - 1` samples. -/
theorem length_delayLine {α : Type} (s : MedianFilterImpl α) (h : Ready s) :
    (delayLine s).length = s.maskSize.toNat - 1 := by
  obtain ⟨_, hw, hsz⟩ := h
  unfold delayLine
  cases hp : s.precision <;> rw [hp] at hsz <;> simp only [List.length_take] <;>
    simp only [] at hsz <;> omega

/-- Rounding a packet keeps its length. -/
theorem length_toKernel {α : Type} (ipp : Ipp α) (p : Precision) (x : List α) :
    (toKernel ipp p x).length = x.length := by
  cases p <;> simp [toKernel]

/-- Rounding commutes with concatenation of packets. -/
theorem toKernel_append {α : Type} (ipp : Ipp α) (p : Precision) (x y : List α) :
    toKernel ipp p (x ++ y) = toKernel ipp p x ++ toKernel ipp p y := by
  cases p <;> simp [toKernel]

/-- Widening commutes with concatenation of outputs. -/
theorem fromKernel_append {α : Type} (ipp : Ipp α) (p : Precision) (x y : List α) :
    fromKernel ipp p (x ++ y) = fromKernel ipp p x ++ fromKernel ipp p y := by
  cases p <;> simp [fromKernel]

/-- One `apply` of a ready real-time filter: status `0`, the sliding median
over delay line and packet as output, and a ready real-time filter whose delay
line is the last `maskSize_ - 1` samples of delay line and packet. -/
theorem apply_realTime {α : Type} [LinearOrder α] [Zero α] (ipp : Ipp α)
    (s : MedianFilter α) (x : List α) (hready : Ready s) (hmode : s.mode = .REAL_TIME) :
    ∃ s', MedianFilter.apply ipp s x
        = (0, fromKernel ipp s.precision (slidingMedian
            (delayLine s ++ toKernel ipp s.precision x) s.maskSize.toNat x.length), s') ∧
      Ready s' ∧ s'.mode = .REAL_TIME ∧ s'.maskSize = s.maskSize ∧
      s'.precision = s.precision ∧
      delayLine s' = (delayLine s ++ toKernel ipp s.precision x).drop x.length := by
  obtain ⟨hinit, hw, hsz⟩ := hready
  by_cases hx : x = []
  · subst hx
    refine ⟨s, ?_, ⟨hinit, hw, hsz⟩, hmode, rfl, rfl, ?_⟩
    · cases hp : s.precision <;> simp [MedianFilter.apply, fromKernel, slidingMedian]
    · cases hp : s.precision <;> simp [toKernel]
  · have hn : ¬ ((x.length : Int) ≤ 0) := by
      have : 0 < x.length := List.length_pos.mpr hx
      omega
    cases hp : s.precision with
    | DOUBLE =>
      rw [hp] at hsz
      obtain ⟨s', he, h1, h2, h3, h4, h5, h6, h7⟩ :=
        applyKernel64_realTime s x hmode hsz.1 hsz.2
      refine ⟨s', ?_, ⟨by rw [h1]; exact hinit, by rw [h3]; exact hw, ?_⟩,
        by rw [h2]; exact hmode, h3, by rw [h4, hp], ?_⟩
      · unfold MedianFilter.apply MedianFilterImpl.apply
        simp only [hn, if_false, isInitialized, hinit, Bool.not_true, Bool.false_eq_true, hp,
          reduceCtorEq, he, ne_eq, not_true_eq_false]
        simp only [toKernel, fromKernel, delayLine, hp]
      · rw [h4, hp, h3]
        exact ⟨h5, h6⟩
      · simp only [delayLine, h4, hp, h3, toKernel]
        exact h7
    | FLOAT =>
      rw [hp] at hsz
      obtain ⟨s', he, h1, h2, h3, h4, h5, h6, h7⟩ :=
        applyKernel32_realTime s (x.map ipp.convert_64f32f) hmode hsz.1 hsz.2
      rw [List.length_map] at he h7
      refine ⟨s', ?_, ⟨by rw [h1]; exact hinit, by rw [h3]; exact hw, ?_⟩,
        by rw [h2]; exact hmode, h3, by rw [h4, hp], ?_⟩
      · unfold MedianFilter.apply MedianFilterImpl.apply
        simp only [hn, if_false, isInitialized, hinit, Bool.not_true, Bool.false_eq_true, hp,
          if_true, he, ne_eq, not_true_eq_false]
        simp only [toKernel, fromKernel, delayLine, hp]
      · rw [h4, hp, h3]
        exact ⟨h5, h6⟩
      · simp only [delayLine, h4, hp, h3, toKernel]
        exact h7

/-- One `apply` of a ready post-processing filter: status `0`, the sliding
median over delay line and input as output, and the filter unchanged. -/
theorem apply_postProcessing {α : Type} [LinearOrder α] [Zero α] (ipp : Ipp α)
    (s : MedianFilter α) (x : List α) (hready : Ready s)
    (hmode : s.mode = .POST_PROCESSING) :
    MedianFilter.apply ipp s x
      = (0, fromKernel ipp s.precision (slidingMedian
          (delayLine s ++ toKernel ipp s.precision x) s.maskSize.toNat x.length), s) := by
  obtain ⟨hinit, hw, hsz⟩ := hready
  by_cases hx : x = []
  · subst hx
    cases hp : s.precision <;> simp [MedianFilter.apply, fromKernel, slidingMedian]
  · have hn : ¬ ((x.length : Int) ≤ 0) := by
      have : 0 < x.length := List.length_pos.mpr hx
      omega
    cases hp : s.precision with
    | DOUBLE =>
      unfold MedianFilter.apply MedianFilterImpl.apply applyKernel64 ippsFilterMedian
      simp only [hn, if_false, isInitialized, hinit, Bool.not_true, Bool.false_eq_true, hp,
        reduceCtorEq, hmode, ne_eq, not_true_eq_false, Option.map_none']
      simp only [toKernel, fromKernel, delayLine, hp]
    | FLOAT =>
      unfold MedianFilter.apply MedianFilterImpl.apply applyKernel32 ippsFilterMedian
      simp only [hn, if_false, isInitialized, hinit, Bool.not_true, Bool.false_eq_true, hp,
        if_true, reduceCtorEq, hmode, ne_eq, not_true_eq_false, Option.map_none']
      simp only [toKernel, fromKernel, delayLine, hp, List.length_map]

/-- The packet loop on a ready real-time filter: every call returns `0` and
the outputs, concatenated, are the sliding median over the delay line followed
by all the packets. -/
theorem applyPackets_realTime {α : Type} [LinearOrder α] [Zero α] (ipp : Ipp α)
    (packets : List (List α)) :
    ∀ s : MedianFilter α, Ready s → s.mode = .REAL_TIME →
      ((MedianFilter.applyPackets ipp s packets).1.map Prod.snd).flatten
        = fromKernel ipp s.precision (slidingMedian
            (delayLine s ++ toKernel ipp s.precision packets.flatten) s.maskSize.toNat
            packets.flatten.length) ∧
      ∀ r ∈ (MedianFilter.applyPackets ipp s packets).1, r.1 = 0 := by
  induction packets with
  | nil =>
    intro s _ _
    constructor
    · cases hp : s.precision <;>
        simp [MedianFilter.applyPackets, fromKernel, slidingMedian]
    · intro r hr
      simp [MedianFilter.applyPackets] at hr
  | cons p ps ih =>
    intro s hready hmode
    obtain ⟨s', he, hready', hmode', hw', hp', hdly'⟩ := apply_realTime ipp s p hready hmode
    obtain ⟨ih1, ih2⟩ := ih s' hready' hmode'
    have hD := length_delayLine s hready
    have hw : 1 ≤ s.maskSize.toNat := by
      have := hready.2.1
      omega
    have hstep : MedianFilter.applyPackets ipp s (p :: ps)
        = ((0, fromKernel ipp s.precision (slidingMedian
            (delayLine s ++ toKernel ipp s.precision p) s.maskSize.toNat p.length))
            :: (MedianFilter.applyPackets ipp s' ps).1,
          (MedianFilter.applyPackets ipp s' ps).2) := by
      rw [MedianFilter.applyPackets, he]
    rw [hstep]
    constructor
    · simp only [List.map_cons, List.flatten_cons]
      rw [ih1, hp', hw', hdly', ← fromKernel_append, List.length_append, toKernel_append]
      have happ := slidingMedian_append (delayLine s) (toKernel ipp s.precision p)
        (toKernel ipp s.precision ps.flatten) s.maskSize.toNat hw hD
      rw [List.length_append, length_toKernel, length_toKernel] at happ
      rw [happ]
    · intro r hr
      rcases List.mem_cons.mp hr with h | h
      · rw [h]
      · exact ih2 r h

/-- A successful `initialize` with an odd window `w >= 1` leaves a ready filter
with that window, the requested mode and precision, and a delay line of
`w - 1` zeros. -/
theorem init_ok {α : Type} [Zero α] (ipp : Ipp α) (old s : MedianFilter α) (w : Nat)
    (hw : 1 ≤ w) (hodd : w % 2 = 1) (mode : ProcessingMode) (prec : Precision)
    (h : MedianFilter.init ipp old (w : Int) mode prec = (0, s)) :
    Ready s ∧ s.mode = mode ∧ s.precision = prec ∧ s.maskSize = (w : Int) ∧
      delayLine s = List.replicate (w - 1) 0 := by
  have htmod : ¬ (Int.tmod (w : Int) 2 = 0) := by
    have e : Int.tmod (w : Int) 2 = ((w % 2 : Nat) : Int) := (Int.ofNat_tmod w 2).symm
    rw [e]
    omega
  have hn : ¬ ((w : Int) < 1) := by omega
  have hk : ((w : Int) - 1).toNat = w - 1 := by omega
  have hnw : w - 1 ≤ (max 8 ((w : Int) - 1)).toNat := by omega
  unfold MedianFilter.init MedianFilterImpl.init at h
  simp only [hn, if_false, htmod] at h
  cases prec with
  | DOUBLE =>
    simp only [] at h
    cases hb : ipp.filterMedianGetBufferSize (w : Int) .DOUBLE with
    | none =>
      rw [hb] at h
      simp at h
    | some b =>
      rw [hb] at h
      simp only [ne_eq, not_true_eq_false, if_false, Prod.mk.injEq, true_and] at h
      subst h
      refine ⟨⟨rfl, by show (1 : Int) ≤ (w : Int); omega, ?_⟩, rfl, rfl, rfl, ?_⟩
      · show (((w : Int) - 1).toNat ≤ (ippsZero (max 8 ((w : Int) - 1)) : List α).length ∧
          ((w : Int) - 1).toNat ≤ (ippsZero (max 8 ((w : Int) - 1)) : List α).length)
        simp only [ippsZero, List.length_replicate]
        omega
      · show List.take ((w : Int) - 1).toNat (ippsZero (max 8 ((w : Int) - 1)) : List α) = _
        simp only [ippsZero, List.take_replicate, hk]
        rw [Nat.min_eq_left hnw]
  | FLOAT =>
    simp only [] at h
    cases hb : ipp.filterMedianGetBufferSize (w : Int) .FLOAT with
    | none =>
      rw [hb] at h
      simp at h
    | some b =>
      rw [hb] at h
      simp only [ne_eq, not_true_eq_false, if_false, Prod.mk.injEq, true_and] at h
      subst h
      refine ⟨⟨rfl, by show (1 : Int) ≤ (w : Int); omega, ?_⟩, rfl, rfl, rfl, ?_⟩
      · show (((w : Int) - 1).toNat ≤ (ippsZero (max 8 ((w : Int) - 1)) : List α).length ∧
          ((w : Int) - 1).toNat ≤ (ippsZero (max 8 ((w : Int) - 1)) : List α).length)
        simp only [ippsZero, List.length_replicate]
        omega
      · show List.take ((w : Int) - 1).toNat (ippsZero (max 8 ((w : Int) - 1)) : List α) = _
        simp only [ippsZero, List.take_replicate, hk]
        rw [Nat.min_eq_left hnw]

/-- C1: median streaming equivalence.  For every odd window size `w >= 1`,
every input `x` of length `n >= 1` and every partition of `x` into consecutive
non-empty packets, a `MedianFilter` initialised in real-time mode (default
zero initial conditions) and applied to the packets in order produces,
concatenated, exactly the output that a `MedianFilter` initialised in
post-processing mode with the same `w` produces from a single `apply` on all
of `x`; every call returns status `0`. -/
theorem median_streaming_equivalence {α : Type} [LinearOrder α] [Zero α] (ipp : Ipp α)
    (w : Nat) (hw : 1 ≤ w) (hodd : w % 2 = 1) (prec : Precision)
    (a b rt post : MedianFilter α)
    (hrt : MedianFilter.init ipp a (w : Int) .REAL_TIME prec = (0, rt))
    (hpost : MedianFilter.init ipp b (w : Int) .POST_PROCESSING prec = (0, post))
    (x : List α) (_hx : 1 ≤ x.length) (packets : List (List α))
    (_hne : ∀ p ∈ packets, p ≠ []) (hcat : packets.flatten = x) :
    ((MedianFilter.applyPackets ipp rt packets).1.map Prod.snd).flatten
      = (MedianFilter.apply ipp post x).2.1 ∧
    (∀ r ∈ (MedianFilter.applyPackets ipp rt packets).1, r.1 = 0) ∧
    (MedianFilter.apply ipp post x).1 = 0 := by
  obtain ⟨hr1, hr2, hr3, hr4, hr5⟩ := init_ok ipp a rt w hw hodd .REAL_TIME prec hrt
  obtain ⟨hp1, hp2, hp3, hp4, hp5⟩ := init_ok ipp b post w hw hodd .POST_PROCESSING prec hpost
  obtain ⟨hout, hstat⟩ := applyPackets_realTime ipp packets rt hr1 hr2
  have hpostrun := apply_postProcessing ipp post x hp1 hp2
  rw [hpostrun, hout, hcat, hr3, hr4, hr5, hp3, hp4, hp5]
  exact ⟨rfl, hstat, rfl⟩

/-- Witness for C1: window 3 on the samples `1, 2, 127, 4, 5, 0, 7, 8` of the
unit test, cut into packets of 1, 2 and 5 samples. -/
theorem median_streaming_equivalence_witness :
    ((MedianFilter.applyPackets intIpp
        (MedianFilter.init intIpp MedianFilter.new 3 .REAL_TIME .DOUBLE).2
        [[1], [2, 127], [4, 5, 0, 7, 8]]).1.map Prod.snd).flatten
      = [0, 1, 2, 4, 5, 4, 5, 7] ∧
    (((MedianFilter.applyPackets intIpp
        (MedianFilter.init intIpp MedianFilter.new 3 .REAL_TIME .DOUBLE).2
        [[1], [2, 127], [4, 5, 0, 7, 8]]).1.map Prod.snd).flatten
      = (MedianFilter.apply intIpp
          (MedianFilter.init intIpp MedianFilter.new 3 .POST_PROCESSING .DOUBLE).2
          [1, 2, 127, 4, 5, 0, 7, 8]).2.1 ∧
    (∀ r ∈ (MedianFilter.applyPackets intIpp
        (MedianFilter.init intIpp MedianFilter.new 3 .REAL_TIME .DOUBLE).2
        [[1], [2, 127], [4, 5, 0, 7, 8]]).1, r.1 = 0) ∧
    (MedianFilter.apply intIpp
      (MedianFilter.init intIpp MedianFilter.new 3 .POST_PROCESSING .DOUBLE).2
      [1, 2, 127, 4, 5, 0, 7, 8]).1 = 0) :=
  ⟨by decide,
    median_streaming_equivalence intIpp 3 (by decide) (by decide) .DOUBLE
      MedianFilter.new MedianFilter.new _ _ rfl rfl [1, 2, 127, 4, 5, 0, 7, 8] (by decide)
      [[1], [2, 127], [4, 5, 0, 7, 8]] (by decide) (by decide)⟩

/-- Output `j < len` of the sliding median is the median of the window
starting at `line[j]`. -/
theorem getElem?_slidingMedian {α : Type} [LinearOrder α] [Zero α]
    (line : List α) (m len j : Nat) (hj : j < len) :
    (slidingMedian line m len)[j]? = some (windowMedian ((line.drop j).take m)) := by
  unfold slidingMedian
  rw [List.getElem?_map, List.getElem?_range hj]
  rfl

/-- The median of a non-empty window is the entry in the middle of the sorted
window. -/
theorem windowMedian_eq_middle {α : Type} [LinearOrder α] [Zero α]
    (window : List α) (hpos : 0 < window.length) :
    some (windowMedian window)
      = (window.insertionSort (· ≤ ·))[window.length / 2]? := by
  have hlt : window.length / 2 < (window.insertionSort (· ≤ ·)).length := by
    rw [List.length_insertionSort]
    omega
  unfold windowMedian
  rw [List.getD_eq_getElem _ _ hlt, List.getElem?_eq_getElem hlt]

/-- C2 as stated fails in single precision: a post-processing filter with
window 3 initialised with `RTSeis::Precision::FLOAT` and applied to
`x = (16777217, 16777217, 16777217)` rounds the packet to `float`
(`2^24 + 1` becomes `2^24`) and returns `y[2] = 16777216`, where the middle
element of the sorted window `x[0 .. 2]` is `16777217`. -/
theorem median_float_rounds :
    MedianFilter.init floatIpp MedianFilter.new 3 .POST_PROCESSING .FLOAT
      = (0, (MedianFilter.init floatIpp MedianFilter.new 3 .POST_PROCESSING .FLOAT).2) ∧
    (MedianFilter.apply floatIpp
      (MedianFilter.init floatIpp MedianFilter.new 3 .POST_PROCESSING .FLOAT).2
      [16777217, 16777217, 16777217]).2.1 = [0, 16777216, 16777216] ∧
    (((([16777217, 16777217, 16777217] : List Int).drop (1 - 3 / 2)).take 3).insertionSort
      (· ≤ ·))[3 / 2]? = some 16777217 := by
  decide

/-- C2, amended: post-processing median values.  For every odd window `w`,
every input `x` of length `n >= w` and a post-processing `MedianFilter` with
default (zero) initial conditions, for every index `i` with
`floor(w/2) <= i < n - floor(w/2)`: in double precision the output sample
`y[i + floor(w/2)]` is the middle element of the sorted window
`x[i - floor(w/2) .. i + floor(w/2)]`; in single precision it is the middle
element of the sorted window of the samples rounded to `float`, widened to
`double`, which is the middle element of the sorted window of `x` when both
conversions leave the samples of `x` as they are. -/
theorem median_postProcessing_values {α : Type} [LinearOrder α] [Zero α] (ipp : Ipp α)
    (w : Nat) (hodd : w % 2 = 1) (prec : Precision) (b post : MedianFilter α)
    (hpost : MedianFilter.init ipp b (w : Int) .POST_PROCESSING prec = (0, post))
    (x : List α) (_hn : w ≤ x.length) (i : Nat) (hlo : w / 2 ≤ i)
    (hhi : i < x.length - w / 2) :
    (prec = .DOUBLE →
      (MedianFilter.apply ipp post x).2.1[i + w / 2]?
        = (((x.drop (i - w / 2)).take w).insertionSort (· ≤ ·))[w / 2]?) ∧
    (prec = .FLOAT →
      (MedianFilter.apply ipp post x).2.1[i + w / 2]?
        = ((((x.map ipp.convert_64f32f).drop (i - w / 2)).take w).insertionSort
            (· ≤ ·))[w / 2]?.map ipp.convert_32f64f) ∧
    (prec = .FLOAT → (∀ v ∈ x, ipp.convert_64f32f v = v ∧ ipp.convert_32f64f v = v) →
      (MedianFilter.apply ipp post x).2.1[i + w / 2]?
        = (((x.drop (i - w / 2)).take w).insertionSort (· ≤ ·))[w / 2]?) ∧
    (∃ v, (MedianFilter.apply ipp post x).2.1[i + w / 2]? = some v) ∧
    (MedianFilter.apply ipp post x).2.1.length = x.length ∧
    MedianFilter.getGroupDelay post = ((w / 2 : Nat) : Int) := by
  obtain ⟨hp1, hp2, hp3, hp4, hp5⟩ :=
    init_ok ipp b post w (by omega) hodd .POST_PROCESSING prec hpost
  have hrun := apply_postProcessing ipp post x hp1 hp2
  rw [hp3, hp4, hp5] at hrun
  simp only [Int.toNat_ofNat] at hrun
  have hj : i + w / 2 < x.length := by omega
  have hwin : ∀ z : List α, (List.replicate (w - 1) (0 : α) ++ z).drop (i + w / 2)
      = z.drop (i - w / 2) := by
    intro z
    rw [List.drop_append_eq_append_drop, List.drop_of_length_le (by simp; omega),
      List.length_replicate, List.nil_append]
    congr 1
    omega
  have hlen : ∀ z : List α, z.length = x.length →
      ((z.drop (i - w / 2)).take w).length = w := by
    intro z hz
    simp only [List.length_take, List.length_drop, hz]
    omega
  have hdouble : prec = .DOUBLE →
      (MedianFilter.apply ipp post x).2.1[i + w / 2]?
        = (((x.drop (i - w / 2)).take w).insertionSort (· ≤ ·))[w / 2]? := by
    intro hp
    rw [hrun, hp]
    show (slidingMedian _ w x.length)[i + w / 2]? = _
    rw [getElem?_slidingMedian _ _ _ _ hj]
    show some (windowMedian ((List.replicate (w - 1) (0 : α) ++ x).drop (i + w / 2)
      |>.take w)) = _
    rw [hwin, windowMedian_eq_middle _ (by rw [hlen x rfl]; omega), hlen x rfl]
  have hfloat : prec = .FLOAT →
      (MedianFilter.apply ipp post x).2.1[i + w / 2]?
        = ((((x.map ipp.convert_64f32f).drop (i - w / 2)).take w).insertionSort
            (· ≤ ·))[w / 2]?.map ipp.convert_32f64f := by
    intro hp
    rw [hrun, hp]
    show ((slidingMedian _ w x.length).map ipp.convert_32f64f)[i + w / 2]? = _
    rw [List.getElem?_map, getElem?_slidingMedian _ _ _ _ hj]
    show Option.map ipp.convert_32f64f (some (windowMedian
      ((List.replicate (w - 1) (0 : α) ++ x.map ipp.convert_64f32f).drop (i + w / 2)
        |>.take w))) = _
    rw [hwin, windowMedian_eq_middle _ (by rw [hlen _ (List.length_map _ _)]; omega),
      hlen _ (List.length_map _ _)]
  refine ⟨hdouble, hfloat, ?_, ?_, ?_, ?_⟩
  · intro hp hexact
    rw [hfloat hp]
    have hmap : x.map ipp.convert_64f32f = x := by
      conv_rhs => rw [← List.map_id x]
      exact List.map_congr_left fun v hv => (hexact v hv).1
    rw [hmap]
    have hlt : w / 2 < (((x.drop (i - w / 2)).take w).insertionSort (· ≤ ·)).length := by
      rw [List.length_insertionSort, hlen x rfl]
      omega
    rw [List.getElem?_eq_getElem hlt, Option.map_some']
    congr 1
    have hmem := List.getElem_mem hlt
    have hmem2 := (List.perm_insertionSort (· ≤ ·) _).mem_iff.mp hmem
    exact (hexact _ (List.mem_of_mem_drop (List.mem_of_mem_take hmem2))).2
  · rw [hrun]
    cases prec with
    | DOUBLE =>
      show ∃ v, (slidingMedian _ w x.length)[i + w / 2]? = some v
      rw [getElem?_slidingMedian _ _ _ _ hj]
      exact ⟨_, rfl⟩
    | FLOAT =>
      show ∃ v, ((slidingMedian _ w x.length).map ipp.convert_32f64f)[i + w / 2]? = some v
      rw [List.getElem?_map, getElem?_slidingMedian _ _ _ _ hj]
      exact ⟨_, rfl⟩
  · rw [hrun]
    cases prec with
    | DOUBLE => exact length_slidingMedian _ _ _
    | FLOAT =>
      show ((slidingMedian _ w x.length).map ipp.convert_32f64f).length = _
      rw [List.length_map]
      exact length_slidingMedian _ _ _
  · show Int.tdiv post.maskSize 2 = _
    rw [hp4]
    exact (Int.ofNat_tdiv w 2).symm

/-- Witness for C2: the unit-test input `1, 2, 127, 4, 5, 0, 7, 8` with
windows 3 and 5 in double precision; the outputs from index `floor(w/2)` on
are the reference values `2, 4, 5, 4, 5, 7` and `4, 4, 5, 5` of the test. -/
theorem median_postProcessing_values_witness :
    (MedianFilter.apply intIpp
      (MedianFilter.init intIpp MedianFilter.new 3 .POST_PROCESSING .DOUBLE).2
      [1, 2, 127, 4, 5, 0, 7, 8]).2.1 = [0, 1, 2, 4, 5, 4, 5, 7] ∧
    (MedianFilter.apply intIpp
      (MedianFilter.init intIpp MedianFilter.new 5 .POST_PROCESSING .DOUBLE).2
      [1, 2, 127, 4, 5, 0, 7, 8]).2.1 = [0, 0, 1, 2, 4, 4, 5, 5] ∧
    (MedianFilter.apply floatIpp
      (MedianFilter.init floatIpp MedianFilter.new 3 .POST_PROCESSING .FLOAT).2
      [1, 2, 127, 4, 5, 0, 7, 8]).2.1 = [0, 1, 2, 4, 5, 4, 5, 7] ∧
    (MedianFilter.apply intIpp
        (MedianFilter.init intIpp MedianFilter.new 3 .POST_PROCESSING .DOUBLE).2
        [1, 2, 127, 4, 5, 0, 7, 8]).2.1[2 + 3 / 2]?
      = (((([1, 2, 127, 4, 5, 0, 7, 8] : List Int).drop (2 - 3 / 2)).take 3).insertionSort
          (· ≤ ·))[3 / 2]? ∧
    (MedianFilter.apply floatIpp
        (MedianFilter.init floatIpp MedianFilter.new 3 .POST_PROCESSING .FLOAT).2
        [1, 2, 127, 4, 5, 0, 7, 8]).2.1[2 + 3 / 2]?
      = ((((([1, 2, 127, 4, 5, 0, 7, 8] : List Int).map floatIpp.convert_64f32f).drop
          (2 - 3 / 2)).take 3).insertionSort (· ≤ ·))[3 / 2]?.map floatIpp.convert_32f64f :=
  ⟨by decide, by decide, by decide,
    (median_postProcessing_values intIpp 3 (by decide) .DOUBLE MedianFilter.new _ rfl
      [1, 2, 127, 4, 5, 0, 7, 8] (by decide) 2 (by decide) (by decide)).1 rfl,
    (median_postProcessing_values floatIpp 3 (by decide) .FLOAT MedianFilter.new _ rfl
      [1, 2, 127, 4, 5, 0, 7, 8] (by decide) 2 (by decide) (by decide)).2.1 rfl⟩

end Utilities.FilterImplementations

end RTSeis

namespace RTSeis

/-! ## DFT frequencies and phase unwrapping -/

namespace Utilities.Transforms.DFTUtilities

/-- C11: `DFTUtilities::realToComplexDFTFrequencies(nSamples,
samplingPeriod)`: for every `nSamples >= 1` and `samplingPeriod > 0` the
result has exactly `floor(nSamples/2) + 1` entries and entry `k` equals
`k / (nSamples * samplingPeriod)` for every `k` in `0..floor(nSamples/2)` (in
exact arithmetic); for `nSamples < 1` or `samplingPeriod <= 0` it throws
`std::invalid_argument`. -/
theorem realToComplexDFTFrequencies_spec {K : Type} [LinearOrderedField K]
    (nSamples : Int) (samplingPeriod : K) :
    (1 ≤ nSamples → 0 < samplingPeriod →
      ∃ freqs : List K, realToComplexDFTFrequencies nSamples samplingPeriod = .ok freqs ∧
        (freqs.length : Int) = nSamples / 2 + 1 ∧
        ∀ k : Nat, (k : Int) ≤ nSamples / 2 →
          freqs[k]? = some ((k : K) / ((nSamples : K) * samplingPeriod))) ∧
    (nSamples < 1 ∨ samplingPeriod ≤ 0 →
      realToComplexDFTFrequencies nSamples samplingPeriod = .error .invalid_argument) := by
  constructor
  · intro hn hdt
    have hguard : ¬ (nSamples < 1 ∨ samplingPeriod ≤ 0) := by
      rintro (h | h)
      · omega
      · exact absurd hdt (not_lt.mpr h)
    have htdiv : Int.tdiv nSamples 2 = nSamples / 2 :=
      Int.tdiv_eq_ediv (by omega) (by decide)
    unfold realToComplexDFTFrequencies realToComplexDFTFrequenciesPtr
    simp only [hguard, if_false, htdiv, lt_self_iff_false]
    by_cases h1 : nSamples / 2 + 1 = 1
    · rw [if_pos h1]
      refine ⟨_, rfl, ?_, ?_⟩
      · rw [List.length_set, List.length_replicate, h1]
        rfl
      · intro k hk
        have hk0 : k = 0 := by omega
        subst hk0
        rw [h1]
        simp
    · rw [if_neg h1]
      refine ⟨_, rfl, ?_, ?_⟩
      · simp only [List.length_append, List.length_map, List.length_range, List.length_drop,
          List.length_replicate]
        omega
      · intro k hk
        have hlt : k < (nSamples / 2 + 1).toNat := by omega
        rw [List.getElem?_append_left (by simpa using hlt), List.getElem?_map,
          List.getElem?_range hlt]
        simp only [Option.map_some']
        congr 1
        rw [one_div, mul_comm, div_eq_mul_inv]
  · intro h
    unfold realToComplexDFTFrequencies
    rw [if_pos h]

/-- Witness for C11: five samples at sampling period `1/2` give the
frequencies `0, 2/5, 4/5`. -/
theorem realToComplexDFTFrequencies_spec_witness :
    realToComplexDFTFrequencies 5 (1 / 2 : ℚ) = .ok [0, 2 / 5, 4 / 5] ∧
    ((1 ≤ (5 : Int) → 0 < (1 / 2 : ℚ) →
      ∃ freqs : List ℚ, realToComplexDFTFrequencies 5 (1 / 2 : ℚ) = .ok freqs ∧
        (freqs.length : Int) = (5 : Int) / 2 + 1 ∧
        ∀ k : Nat, (k : Int) ≤ (5 : Int) / 2 →
          freqs[k]? = some ((k : ℚ) / (((5 : Int) : ℚ) * (1 / 2 : ℚ)))) ∧
    ((5 : Int) < 1 ∨ (1 / 2 : ℚ) ≤ 0 →
      realToComplexDFTFrequencies 5 (1 / 2 : ℚ) = .error .invalid_argument)) :=
  ⟨by
    have h : Int.tdiv 5 2 = 2 := by decide
    have h3 : Int.toNat 3 = 3 := rfl
    norm_num [realToComplexDFTFrequencies, realToComplexDFTFrequenciesPtr, h, h3, List.range,
      List.range.loop],
    realToComplexDFTFrequencies_spec 5 (1 / 2 : ℚ)⟩

end Utilities.Transforms.DFTUtilities

end RTSeis

namespace RTSeis

namespace Utilities.Transforms.DFTUtilities

/-- A value in `[0, 1)` truncates to `0`. -/
theorem truncToInt_eq_zero {K : Type} [LinearOrderedField K] [FloorRing K] (v : K) (h0 : 0 ≤ v) (h1 : v < 1) : truncToInt v = 0 := by
  unfold truncToInt
  simp only []
  rw [if_pos h0, Int.floor_eq_zero_iff.mpr ⟨h0, h1⟩, if_pos (by decide)]

/-- `rem(x, y)` is `x` itself on `0 <= x < y`. -/
theorem rem_eq_self {K : Type} [LinearOrderedField K] [FloorRing K] (x y : K) (hx : 0 ≤ x) (hxy : x < y) : rem x y = x := by
  have hy : 0 < y := lt_of_le_of_lt hx hxy
  unfold rem
  rw [truncToInt_eq_zero (x / y) (div_nonneg hx (le_of_lt hy)) ((div_lt_one hy).mpr hxy)]
  simp

/-- A non-negative value below `2^31` truncates to its floor. -/
theorem truncToInt_of_nonneg {K : Type} [LinearOrderedField K] [FloorRing K] (v : K)
    (h0 : 0 ≤ v) (h1 : v < 2 ^ 31) : truncToInt v = ⌊v⌋ := by
  have hf0 : 0 ≤ ⌊v⌋ := Int.floor_nonneg.mpr h0
  have hf1 : ⌊v⌋ < 2 ^ 31 := Int.floor_lt.mpr (by exact_mod_cast h1)
  unfold truncToInt
  simp only []
  rw [if_pos h0, if_pos ⟨by omega, hf1⟩]

/-- A value of `2^31` or more is out of the range of `int`: the conversion
gives `INT_MIN`. -/
theorem truncToInt_of_large {K : Type} [LinearOrderedField K] [FloorRing K] (v : K)
    (h : 2 ^ 31 ≤ v) : truncToInt v = -2 ^ 31 := by
  have h0 : (0 : K) ≤ v := le_trans (by positivity) h
  have hf : (2 : Int) ^ 31 ≤ ⌊v⌋ := Int.le_floor.mpr (by exact_mod_cast h)
  unfold truncToInt
  simp only []
  rw [if_pos h0, if_neg (by omega)]

/-- For `x >= 0` and `y > 0` with `x / y` below `2^31`, `rem(x, y)` lies in
`[0, y)`. -/
theorem rem_mem_Ico {K : Type} [LinearOrderedField K] [FloorRing K] (x y : K) (hx : 0 ≤ x)
    (hy : 0 < y) (hlt : x / y < 2 ^ 31) : 0 ≤ rem x y ∧ rem x y < y := by
  have hq : 0 ≤ x / y := div_nonneg hx (le_of_lt hy)
  unfold rem
  rw [truncToInt_of_nonneg (x / y) hq hlt]
  have h1 := Int.floor_le (x / y)
  have h2 := Int.lt_floor_add_one (x / y)
  have h1' : ((⌊x / y⌋ : Int) : K) * y ≤ x := (le_div_iff₀ hy).mp h1
  have h2' : x < (((⌊x / y⌋ : Int) : K) + 1) * y := (div_lt_iff₀ hy).mp h2
  constructor <;> nlinarith

/-- For `y > 0` and `x / y` of `2^31` or more, `rem(x, y)` is `x` plus `2^31`
times `y`: nothing is taken off. -/
theorem rem_of_large {K : Type} [LinearOrderedField K] [FloorRing K] (x y : K)
    (h : 2 ^ 31 ≤ x / y) : rem x y = x + y * 2 ^ 31 := by
  unfold rem
  rw [truncToInt_of_large (x / y) h]
  push_cast
  ring

/-- The running minimum is below its start value and below every entry
folded in. -/
theorem foldl_min_le {K : Type} [LinearOrderedField K] (t : List K) :
    ∀ a : K, t.foldl min a ≤ a ∧ ∀ v ∈ t, t.foldl min a ≤ v := by
  induction t with
  | nil =>
    intro a
    exact ⟨le_refl a, fun v hv => absurd hv (List.not_mem_nil v)⟩
  | cons u t ih =>
    intro a
    obtain ⟨h1, h2⟩ := ih (min a u)
    refine ⟨le_trans h1 (min_le_left a u), ?_⟩
    intro v hv
    rcases List.mem_cons.mp hv with h | h
    · rw [h]
      exact le_trans h1 (min_le_right a u)
    · exact h2 v h

/-- `ippsMin` is a lower bound of the array. -/
theorem ippsMin_le {K : Type} [LinearOrderedField K] (p : List K) (v : K) (hv : v ∈ p) : ippsMin p ≤ v := by
  cases p with
  | nil => exact absurd hv (List.not_mem_nil v)
  | cons a t =>
    obtain ⟨h1, h2⟩ := foldl_min_le t a
    rcases List.mem_cons.mp hv with h | h
    · rw [h]
      exact h1
    · exact h2 v h

/-- The running minimum is the start value or one of the entries. -/
theorem foldl_min_mem {K : Type} [LinearOrderedField K] (t : List K) : ∀ a : K, t.foldl min a ∈ a :: t := by
  induction t with
  | nil =>
    intro a
    simp
  | cons u t ih =>
    intro a
    have h := ih (min a u)
    rcases List.mem_cons.mp h with h | h
    · rw [List.foldl_cons, h]
      rcases min_choice a u with hm | hm <;> rw [hm] <;> simp
    · exact List.mem_cons_of_mem a (List.mem_cons_of_mem u h)

/-- `ippsMin` of a non-empty array is one of its entries. -/
theorem ippsMin_mem {K : Type} [LinearOrderedField K] (p : List K) (hp : p ≠ []) : ippsMin p ∈ p := by
  cases p with
  | nil => exact absurd rfl hp
  | cons a t => exact foldl_min_mem t a

/-- One pass of the last loop of `unwrap`. -/
theorem unwrapLoop_cons {K : Type} [LinearOrderedField K] (twopi tol c qi bi : K) (rest : List (K × K)) :
    unwrapLoop twopi tol c ((qi, bi) :: rest)
      = (qi + (c + jump twopi tol bi))
        :: unwrapLoop twopi tol (c + jump twopi tol bi) rest := rfl

/-- The pairs of a phase array with at least two samples. -/
theorem tailPairs_cons {K : Type} [LinearOrderedField K] (q0 q1 : K) (t : List K) :
    tailPairs q0 (q1 :: t) = (q1, q1 - q0) :: tailPairs q1 t := rfl

/-- The pairs visited by the last loop: `(q[0], q[0])` first. -/
theorem zip_differentiate {K : Type} [LinearOrderedField K] (q0 : K) (t : List K) :
    (q0 :: t).zip (differentiate (q0 :: t)) = (q0, q0) :: tailPairs q0 t := rfl

/-- The loop writes one sample per pair. -/
theorem length_unwrapLoop {K : Type} [LinearOrderedField K] (twopi tol : K) (l : List (K × K)) :
    ∀ c : K, (unwrapLoop twopi tol c l).length = l.length := by
  induction l with
  | nil => intro c; rfl
  | cons h t ih =>
    intro c
    obtain ⟨qi, bi⟩ := h
    rw [unwrapLoop_cons, List.length_cons, List.length_cons, ih]

/-- There are as many pairs as later samples. -/
theorem length_tailPairs {K : Type} [LinearOrderedField K] (q0 : K) (t : List K) : (tailPairs q0 t).length = t.length := by
  unfold tailPairs
  simp

/-- No jump for a difference within the tolerance. -/
theorem jump_of_within {K : Type} [LinearOrderedField K] (twopi tol b : K) (h1 : -tol ≤ b) (h2 : b ≤ tol) :
    jump twopi tol b = 0 := by
  unfold jump
  rw [if_neg (not_lt.mpr h2), if_neg (not_lt.mpr h1)]
  simp

/-- A difference above the tolerance takes one turn off. -/
theorem jump_of_gt {K : Type} [LinearOrderedField K] (twopi tol b : K) (htol : 0 ≤ tol) (h : tol < b) :
    jump twopi tol b = -twopi := by
  unfold jump
  rw [if_pos h, if_neg (by linarith)]
  simp

/-- A difference below minus the tolerance adds one turn. -/
theorem jump_of_lt {K : Type} [LinearOrderedField K] (twopi tol b : K) (htol : 0 ≤ tol) (h : b < -tol) :
    jump twopi tol b = twopi := by
  unfold jump
  rw [if_neg (by linarith), if_pos h]
  simp

/-- The vector `unwrap` on a non-empty array of fewer than `2^31` samples with
a non-negative tolerance returns the samples computed by the core. -/
theorem unwrap_eq_core {K : Type} [LinearOrderedField K] [FloorRing K] (pi tol : K) (p : List K) (hp : p ≠ []) (hlen : p.length < 2 ^ 31)
    (htol : 0 ≤ tol) : unwrap pi p tol = .ok (unwrapCore pi tol p) := by
  have hpos : 0 < p.length := List.length_pos.mpr hp
  have hne : p.isEmpty = false := by
    cases p with
    | nil => exact absurd rfl hp
    | cons a t => rfl
  have h32 : toInt32 (p.length : Int) = (p.length : Int) := by
    unfold toInt32
    omega
  have htake : List.take (p.length : Int).toNat p = p := by
    rw [Int.toNat_ofNat, List.take_length]
  have hdrop : List.drop (p.length : Int).toNat (List.replicate p.length (0 : K)) = [] := by
    apply List.drop_of_length_le
    simp
  have hcond : ¬ (p.isEmpty = true) := by
    rw [hne]
    exact Bool.false_ne_true
  have hptr : unwrapPtr pi (toInt32 (p.length : Int)) (some p)
      (some (List.replicate p.length (0 : K))) tol
      = .ok (some (unwrapCore pi tol p)) := by
    rw [h32]
    unfold unwrapPtr
    rw [if_neg (by omega)]
    simp only []
    rw [if_neg (not_lt.mpr htol), htake, hdrop, List.append_nil]
  unfold unwrap
  rw [if_neg hcond]
  simp only [hptr, Option.getD_some]

/-- The core writes one sample per input sample. -/
theorem length_unwrapCore {K : Type} [LinearOrderedField K] [FloorRing K] (pi tol : K) (p : List K) :
    (unwrapCore pi tol p).length = p.length := by
  unfold unwrapCore
  cases p with
  | nil => rfl
  | cons a t =>
    simp only [List.map_cons]
    rw [zip_differentiate, unwrapLoop_cons, List.length_cons, length_unwrapLoop,
      length_tailPairs, List.length_map, List.length_cons]

/-- The wrapped phase differs from the phase by a whole number of turns and
lies in `[-pi, pi)`. -/
theorem wrapToPi_spec {K : Type} [LinearOrderedField K] [FloorRing K] (pi : K) (hpi : 0 < pi)
    (theta : K) :
    wrapToPi pi theta = theta - 2 * pi * ((⌊(theta + pi) / (2 * pi)⌋ : Int) : K) ∧
      -pi ≤ wrapToPi pi theta ∧ wrapToPi pi theta < pi := by
  have h2pi : (0 : K) < 2 * pi := by linarith
  have h1 := Int.floor_le ((theta + pi) / (2 * pi))
  have h2 := Int.lt_floor_add_one ((theta + pi) / (2 * pi))
  have h1' := (le_div_iff₀ h2pi).mp h1
  have h2' := (div_lt_iff₀ h2pi).mp h2
  unfold wrapToPi floorMod
  refine ⟨by ring, ?_, ?_⟩ <;> nlinarith

/-- The step of the unwrapping on a wrapped linear phase: the difference of
two consecutive wrapped samples plus the jump it triggers is the slope. -/
theorem wrapped_step {K : Type} [LinearOrderedField K] [FloorRing K] (pi : K) (hpi : 0 < pi)
    (x b : K) (hb : |b| < pi) :
    (wrapToPi pi (x + b) - wrapToPi pi x)
      + jump (2 * pi) pi (wrapToPi pi (x + b) - wrapToPi pi x) = b := by
  obtain ⟨e1, l1, u1⟩ := wrapToPi_spec pi hpi (x + b)
  obtain ⟨e0, l0, u0⟩ := wrapToPi_spec pi hpi x
  obtain ⟨hb1, hb2⟩ := abs_lt.mp hb
  generalize hd : wrapToPi pi (x + b) - wrapToPi pi x = d at *
  generalize hm1 : ⌊(x + b + pi) / (2 * pi)⌋ = m1 at e1
  generalize hm0 : ⌊(x + pi) / (2 * pi)⌋ = m0 at e0
  have hdj : d = b - 2 * pi * (((m1 - m0 : Int)) : K) := by
    rw [← hd, e1, e0]
    push_cast
    ring
  generalize hj : m1 - m0 = j at hdj
  have hdl : -(2 * pi) < d := by rw [← hd]; linarith
  have hdu : d < 2 * pi := by rw [← hd]; linarith
  have hj1 : j ≤ 1 := by
    by_contra hcon
    have h2 : (2 : Int) ≤ j := by omega
    have h2K : (2 : K) ≤ (j : K) := by exact_mod_cast h2
    nlinarith [mul_le_mul_of_nonneg_left h2K (le_of_lt hpi)]
  have hj2 : -1 ≤ j := by
    by_contra hcon
    have h2 : j ≤ (-2 : Int) := by omega
    have h2K : (j : K) ≤ (-2 : K) := by exact_mod_cast h2
    nlinarith [mul_le_mul_of_nonneg_left h2K (le_of_lt hpi)]
  have hcases : j = -1 ∨ j = 0 ∨ j = 1 := by omega
  rcases hcases with h | h | h
  · rw [h] at hdj
    push_cast at hdj
    rw [jump_of_gt (2 * pi) pi d (le_of_lt hpi) (by linarith)]
    linarith
  · rw [h] at hdj
    push_cast at hdj
    rw [jump_of_within (2 * pi) pi d (by linarith) (by linarith)]
    linarith
  · rw [h] at hdj
    push_cast at hdj
    rw [jump_of_lt (2 * pi) pi d (le_of_lt hpi) (by linarith)]
    linarith

/-- A linear sequence is its first sample followed by the linear sequence
started one step later. -/
theorem linearPhase_succ {K : Type} [LinearOrderedField K] (a b : K) (n : Nat) :
    linearPhase a b (n + 1) = a :: linearPhase (a + b) b n := by
  unfold linearPhase
  rw [List.range_succ_eq_map, List.map_cons, List.map_map]
  congr 1
  · simp
  · apply List.map_congr_left
    intro k _
    simp only [Function.comp, Nat.succ_eq_add_one]
    push_cast
    ring

/-- The last loop of `unwrap` on the tail of a wrapped linear phase gives the
linear phase back, shifted by the offset accumulated so far. -/
theorem unwrapLoop_wrapped_linear {K : Type} [LinearOrderedField K] [FloorRing K] (pi : K)
    (hpi : 0 < pi) (b : K) (hb : |b| < pi) (n : Nat) :
    ∀ a c : K,
      unwrapLoop (2 * pi) pi c
          (tailPairs (wrapToPi pi a) ((linearPhase (a + b) b n).map (wrapToPi pi)))
        = (linearPhase (a + b) b n).map fun theta => theta + (wrapToPi pi a + c - a) := by
  induction n with
  | zero =>
    intro a c
    rfl
  | succ n ih =>
    intro a c
    rw [linearPhase_succ, List.map_cons, List.map_cons, tailPairs_cons, unwrapLoop_cons, ih]
    have hstep := wrapped_step pi hpi a b hb
    congr 1
    · linarith
    · apply List.map_congr_left
      intro theta _
      linarith

/-- On a wrapped linear phase the core of `unwrap` (tolerance `pi`) returns the
linear phase shifted by the constant `wrap(a) - a`. -/
theorem unwrapCore_wrapped_linear {K : Type} [LinearOrderedField K] [FloorRing K] (pi : K)
    (hpi : 0 < pi) (a b : K) (hb : |b| < pi) (n : Nat) :
    unwrapCore pi pi ((linearPhase a b (n + 1)).map (wrapToPi pi))
      = (linearPhase a b (n + 1)).map fun theta => theta + (wrapToPi pi a - a) := by
  have hrange : ∀ v ∈ (linearPhase a b (n + 1)).map (wrapToPi pi), -pi ≤ v ∧ v < pi := by
    intro v hv
    obtain ⟨theta, _, rfl⟩ := List.mem_map.mp hv
    exact (wrapToPi_spec pi hpi theta).2
  have hne : (linearPhase a b (n + 1)).map (wrapToPi pi) ≠ [] := by
    rw [linearPhase_succ]
    simp
  have hminmem := ippsMin_mem _ hne
  have hmin := (hrange _ hminmem).1
  have hq : ((linearPhase a b (n + 1)).map (wrapToPi pi)).map
      (fun v => rem (v - ippsMin ((linearPhase a b (n + 1)).map (wrapToPi pi))) (2 * pi)
        + ippsMin ((linearPhase a b (n + 1)).map (wrapToPi pi)))
      = (linearPhase a b (n + 1)).map (wrapToPi pi) := by
    conv_rhs => rw [← List.map_id ((linearPhase a b (n + 1)).map (wrapToPi pi))]
    apply List.map_congr_left
    intro v hv
    have hle := ippsMin_le _ v hv
    have hv2 := (hrange v hv).2
    rw [rem_eq_self _ _ (by linarith) (by linarith)]
    simp
  unfold unwrapCore
  simp only []
  rw [hq, linearPhase_succ, List.map_cons, zip_differentiate, unwrapLoop_cons,
    unwrapLoop_wrapped_linear pi hpi b hb n]
  obtain ⟨_, l0, u0⟩ := wrapToPi_spec pi hpi a
  rw [jump_of_within (2 * pi) pi (wrapToPi pi a) l0 (le_of_lt u0)]
  rw [List.map_cons]
  congr 1
  · ring
  · apply List.map_congr_left
    intro theta _
    ring

/-- Sample `k` of a linear sequence. -/
theorem getElem?_linearPhase {K : Type} [LinearOrderedField K] (a b : K) (n k : Nat)
    (hk : k < n) : (linearPhase a b n)[k]? = some (a + b * (k : K)) := by
  unfold linearPhase
  rw [List.getElem?_map, List.getElem?_range hk]
  rfl

/-- C12: unwrap correctness on wrapped linear phase.  For every linear
sequence `theta[k] = a + b*k` with `|b| < pi` and every length `n >= 1`
(below `2^31`, the range of `int`), with `p[k] = mod(theta[k] + pi, 2*pi) - pi`,
the output of `DFTUtilities::unwrap(p, tol = pi)` differs from `theta` by one
and the same additive constant at every index:
`unwrap(p)[k] - theta[k] = unwrap(p)[0] - theta[0]` for all `k < n` (exact
arithmetic in any ordered field, `pi` being any positive constant). -/
theorem unwrap_wrapped_linear {K : Type} [LinearOrderedField K] [FloorRing K] (pi : K)
    (hpi : 0 < pi) (a b : K) (hb : |b| < pi) (n : Nat) (hn : 1 ≤ n) (hlen : n < 2 ^ 31) :
    ∃ q : List K, unwrap pi ((linearPhase a b n).map (wrapToPi pi)) pi = .ok q ∧
      q.length = n ∧
      ∀ k : Nat, k < n → ∃ qk q0 : K, q[k]? = some qk ∧ q[0]? = some q0 ∧
        qk - (a + b * (k : K)) = q0 - (a + b * ((0 : Nat) : K)) := by
  obtain ⟨m, rfl⟩ : ∃ m, n = m + 1 := ⟨n - 1, by omega⟩
  have hlenp : ((linearPhase a b (m + 1)).map (wrapToPi pi)).length = m + 1 := by
    simp [linearPhase]
  have hne : (linearPhase a b (m + 1)).map (wrapToPi pi) ≠ [] := by
    intro h
    rw [h] at hlenp
    simp at hlenp
  have hrun := unwrap_eq_core pi pi _ hne (by rw [hlenp]; exact hlen) (le_of_lt hpi)
  rw [unwrapCore_wrapped_linear pi hpi a b hb m] at hrun
  refine ⟨_, hrun, by simp [linearPhase], ?_⟩
  intro k hk
  refine ⟨a + b * (k : K) + (wrapToPi pi a - a),
    a + b * ((0 : Nat) : K) + (wrapToPi pi a - a), ?_, ?_, by ring⟩
  · rw [List.getElem?_map, getElem?_linearPhase a b (m + 1) k hk]
    rfl
  · rw [List.getElem?_map, getElem?_linearPhase a b (m + 1) 0 (by omega)]
    rfl

/-- Witness for C12: the phase `1 + 2*k`, six samples, with the constant `3`
in the place of `pi`. -/
theorem unwrap_wrapped_linear_witness :
    ((0 : ℚ) < 3 ∧ |(2 : ℚ)| < 3 ∧ 1 ≤ 6 ∧ 6 < 2 ^ 31) ∧
    ∃ q : List ℚ, unwrap (3 : ℚ) ((linearPhase (1 : ℚ) 2 6).map (wrapToPi 3)) 3 = .ok q ∧
      q.length = 6 ∧
      ∀ k : Nat, k < 6 → ∃ qk q0 : ℚ, q[k]? = some qk ∧ q[0]? = some q0 ∧
        qk - (1 + 2 * (k : ℚ)) = q0 - (1 + 2 * ((0 : Nat) : ℚ)) :=
  ⟨⟨by norm_num, by norm_num [abs_of_pos], by decide, by decide⟩,
    unwrap_wrapped_linear (3 : ℚ) (by norm_num) 1 2 (by norm_num [abs_of_pos]) 6 (by decide)
      (by decide)⟩

/-- With a tolerance of at least half a turn, a difference of less than a
turn plus the jump it triggers is within the tolerance. -/
theorem abs_add_jump_le {K : Type} [LinearOrderedField K] (twopi tol b : K)
    (hT : 0 < twopi) (htol : twopi ≤ 2 * tol) (hlo : -twopi < b) (hhi : b < twopi) :
    |b + jump twopi tol b| ≤ tol := by
  have htol0 : 0 ≤ tol := by linarith
  rcases lt_trichotomy b (-tol) with h | h | h
  · rw [jump_of_lt twopi tol b htol0 h, abs_le]
    constructor <;> linarith
  · rw [jump_of_within twopi tol b (by linarith) (by linarith), abs_le]
    constructor <;> linarith
  · by_cases h2 : b ≤ tol
    · rw [jump_of_within twopi tol b (by linarith) h2, abs_le]
      constructor <;> linarith
    · rw [jump_of_gt twopi tol b htol0 (not_le.mp h2), abs_le]
      constructor <;> linarith

/-- With a tolerance of at least half a turn, the last loop of `unwrap` on
samples that all lie within one turn writes samples whose adjacent
differences are within the tolerance. -/
theorem unwrapLoop_chain {K : Type} [LinearOrderedField K] (twopi tol lo : K)
    (hT : 0 < twopi) (htol : twopi ≤ 2 * tol) (t : List K) :
    ∀ q0 c : K, lo ≤ q0 → q0 < lo + twopi → (∀ v ∈ t, lo ≤ v ∧ v < lo + twopi) →
      List.Chain (fun u v => |v - u| ≤ tol) (q0 + c)
        (unwrapLoop twopi tol c (tailPairs q0 t)) := by
  induction t with
  | nil =>
    intro q0 c _ _ _
    exact List.Chain.nil
  | cons q1 t ih =>
    intro q0 c h0 h0' ht
    obtain ⟨h1, h1'⟩ := ht q1 (List.mem_cons_self q1 t)
    rw [tailPairs_cons, unwrapLoop_cons]
    refine List.Chain.cons ?_ (ih q1 _ h1 h1' fun v hv => ht v (List.mem_cons_of_mem q1 hv))
    have hb := abs_add_jump_le twopi tol (q1 - q0) hT htol (by linarith) (by linarith)
    have e : q1 + (c + jump twopi tol (q1 - q0)) - (q0 + c)
        = q1 - q0 + jump twopi tol (q1 - q0) := by ring
    rw [e]
    exact hb

/-- C14 as stated fails: on `p = (0, 1)` with tolerance `0`, `unwrap` returns
`(0, 1 - 2*pi)`, whose two samples differ by `2*pi - 1 > 0` (`pi` being the
`double` `M_PI`). -/
theorem unwrap_adjacent_jump_remains :
    (0 : ℚ) ≤ 0 ∧ unwrap M_PI_double [0, 1] 0 = .ok [0, 1 - 2 * M_PI_double] ∧
      ¬ (|(1 - 2 * M_PI_double) - 0| ≤ (0 : ℚ)) := by
  refine ⟨le_refl 0, ?_, ?_⟩
  · rw [unwrap_eq_core M_PI_double 0 [0, 1] (by simp) (by decide) (le_refl 0)]
    have hmin : ippsMin ([0, 1] : List ℚ) = 0 := by norm_num [ippsMin]
    have hT : (1 : ℚ) < 2 * M_PI_double := by norm_num [M_PI_double]
    have h0 : rem (0 - 0 : ℚ) (2 * M_PI_double) + 0 = 0 := by
      rw [rem_eq_self _ _ (by norm_num) (by linarith)]
      norm_num
    have h1 : rem (1 - 0 : ℚ) (2 * M_PI_double) + 0 = 1 := by
      rw [rem_eq_self _ _ (by norm_num) (by linarith)]
      norm_num
    unfold unwrapCore
    simp only [List.map_cons, List.map_nil, hmin, h0, h1]
    rw [zip_differentiate, unwrapLoop_cons, tailPairs_cons, unwrapLoop_cons,
      jump_of_within (2 * M_PI_double) 0 0 (by norm_num) (by norm_num),
      jump_of_gt (2 * M_PI_double) 0 (1 - 0) (le_refl 0) (by norm_num)]
    simp only [tailPairs, List.zip_nil_left, unwrapLoop]
    congr 2
    · norm_num
    · congr 1
      ring
  · rw [not_le]
    have hT : (1 : ℚ) < 2 * M_PI_double := by norm_num [M_PI_double]
    have hneg : (1 - 2 * M_PI_double : ℚ) - 0 < 0 := by linarith
    rw [abs_of_neg hneg]
    linarith

/-- Past `2^31` turns `rem` takes nothing off: on `p = (0, 2*10^10)` with
tolerance `pi`, `unwrap` returns two samples more than `10^10` apart (`pi`
being the `double` `M_PI`). -/
theorem unwrap_far_sample_not_reduced :
    unwrap M_PI_double [0, 20000000000] M_PI_double
      = .ok [0, 20000000000 + 2 * M_PI_double * 2 ^ 31 - 2 * M_PI_double] ∧
    (10000000000 : ℚ) < |(20000000000 + 2 * M_PI_double * 2 ^ 31 - 2 * M_PI_double) - 0| := by
  have hpi : (0 : ℚ) ≤ M_PI_double := by norm_num [M_PI_double]
  have hpi3 : (3 : ℚ) < M_PI_double := by norm_num [M_PI_double]
  have hpi4 : M_PI_double < (4 : ℚ) := by norm_num [M_PI_double]
  refine ⟨?_, ?_⟩
  · rw [unwrap_eq_core M_PI_double M_PI_double [0, 20000000000] (by simp) (by decide) hpi]
    have hmin : ippsMin ([0, 20000000000] : List ℚ) = 0 := by norm_num [ippsMin]
    have h0 : rem (0 - 0 : ℚ) (2 * M_PI_double) + 0 = 0 := by
      rw [rem_eq_self _ _ (by norm_num) (by linarith)]
      norm_num
    have h1 : rem (20000000000 - 0 : ℚ) (2 * M_PI_double) + 0
        = 20000000000 + 2 * M_PI_double * 2 ^ 31 := by
      rw [rem_of_large _ _ (by rw [le_div_iff₀ (by linarith)]; norm_num [M_PI_double])]
      norm_num
    unfold unwrapCore
    simp only [List.map_cons, List.map_nil, hmin, h0, h1]
    rw [zip_differentiate, unwrapLoop_cons, tailPairs_cons, unwrapLoop_cons,
      jump_of_within (2 * M_PI_double) M_PI_double 0 (by linarith) hpi,
      jump_of_gt (2 * M_PI_double) M_PI_double _ hpi (by norm_num [M_PI_double])]
    simp only [tailPairs, List.zip_nil_left, unwrapLoop]
    congr 2
    · norm_num
    · congr 1
      ring
  · rw [abs_of_pos (by norm_num [M_PI_double])]
    norm_num [M_PI_double]

/-- C14, amended: for every non-empty phase vector `p` (fewer than `2^31`
samples) whose samples all lie less than `2^31` turns above its smallest
sample (`p[i] - min p < 2*pi*2^31`) and every tolerance `tol >= pi`, in
`q = DFTUtilities::unwrap(p, tol)` no two adjacent samples differ by more than
`tol`: `|q[i+1] - q[i]| <= tol` for every `i` with `i + 1 < n` (exact
arithmetic, `pi` any positive constant). -/
theorem unwrap_adjacent_within {K : Type} [LinearOrderedField K] [FloorRing K] (pi tol : K)
    (hpi : 0 < pi) (htol : pi ≤ tol) (p0 : K) (t : List K)
    (hlen : (p0 :: t).length < 2 ^ 31)
    (hspan : ∀ v ∈ p0 :: t, v - ippsMin (p0 :: t) < 2 * pi * 2 ^ 31) :
    ∃ q : List K, unwrap pi (p0 :: t) tol = .ok q ∧ q.length = (p0 :: t).length ∧
      ∀ (i : Nat) (u v : K), q[i]? = some u → q[i + 1]? = some v → |v - u| ≤ tol := by
  have h2pi : (0 : K) < 2 * pi := by linarith
  refine ⟨_, unwrap_eq_core pi tol (p0 :: t) (by simp) hlen (by linarith),
    length_unwrapCore pi tol (p0 :: t), ?_⟩
  have hrange : ∀ v ∈ p0 :: t,
      ippsMin (p0 :: t) ≤ rem (v - ippsMin (p0 :: t)) (2 * pi) + ippsMin (p0 :: t) ∧
      rem (v - ippsMin (p0 :: t)) (2 * pi) + ippsMin (p0 :: t)
        < ippsMin (p0 :: t) + 2 * pi := by
    intro v hv
    have hle := ippsMin_le _ v hv
    have hq : (v - ippsMin (p0 :: t)) / (2 * pi) < 2 ^ 31 := by
      rw [div_lt_iff₀ h2pi]
      have := hspan v hv
      linarith
    obtain ⟨r1, r2⟩ := rem_mem_Ico (v - ippsMin (p0 :: t)) (2 * pi) (by linarith) h2pi hq
    constructor <;> linarith
  have hchain : List.Chain' (fun u v => |v - u| ≤ tol) (unwrapCore pi tol (p0 :: t)) := by
    unfold unwrapCore
    simp only [List.map_cons]
    rw [zip_differentiate, unwrapLoop_cons]
    obtain ⟨r1, r2⟩ := hrange p0 (List.mem_cons_self p0 t)
    refine unwrapLoop_chain (2 * pi) tol (ippsMin (p0 :: t)) h2pi (by linarith) _ _ _ r1 r2 ?_
    intro v hv
    obtain ⟨w, hw, rfl⟩ := List.mem_map.mp hv
    exact hrange w (List.mem_cons_of_mem p0 hw)
  intro i u v hu hv
  obtain ⟨hi, rfl⟩ := List.getElem?_eq_some.mp hu
  obtain ⟨hi1, rfl⟩ := List.getElem?_eq_some.mp hv
  exact List.chain'_iff_get.mp hchain i (by omega)

/-- Witness for the amended C14: `p = (0, 5)` with tolerance `pi`, `pi` the
`double` `M_PI`; the jump of `5` is taken off, the output is
`(0, 5 - 2*pi)`. -/
theorem unwrap_adjacent_within_witness :
    unwrap M_PI_double [0, 5] M_PI_double = .ok [0, 5 - 2 * M_PI_double] ∧
    ∃ q : List ℚ, unwrap M_PI_double [0, 5] M_PI_double = .ok q ∧
      q.length = ([0, 5] : List ℚ).length ∧
      ∀ (i : Nat) (u v : ℚ), q[i]? = some u → q[i + 1]? = some v → |v - u| ≤ M_PI_double := by
  have hpi : (0 : ℚ) < M_PI_double := by norm_num [M_PI_double]
  have hpi3 : (3 : ℚ) < M_PI_double := by norm_num [M_PI_double]
  have hpi4 : M_PI_double < (4 : ℚ) := by norm_num [M_PI_double]
  have hmin : ippsMin ([0, 5] : List ℚ) = 0 := by norm_num [ippsMin]
  refine ⟨?_, unwrap_adjacent_within M_PI_double M_PI_double hpi (le_refl _) 0 [5]
    (by decide) ?_⟩
  · rw [unwrap_eq_core M_PI_double M_PI_double [0, 5] (by simp) (by decide) hpi.le]
    have h0 : rem (0 - 0 : ℚ) (2 * M_PI_double) + 0 = 0 := by
      rw [rem_eq_self _ _ (by norm_num) (by linarith)]
      norm_num
    have h1 : rem (5 - 0 : ℚ) (2 * M_PI_double) + 0 = 5 := by
      rw [rem_eq_self _ _ (by norm_num) (by linarith)]
      norm_num
    unfold unwrapCore
    simp only [List.map_cons, List.map_nil, hmin, h0, h1]
    rw [zip_differentiate, unwrapLoop_cons, tailPairs_cons, unwrapLoop_cons,
      jump_of_within (2 * M_PI_double) M_PI_double 0 (by linarith) hpi.le,
      jump_of_gt (2 * M_PI_double) M_PI_double (5 - 0) hpi.le (by linarith)]
    simp only [tailPairs, List.zip_nil_left, unwrapLoop]
    congr 2
    · norm_num
    · congr 1
      ring
  · intro v hv
    rw [hmin]
    have h5 : v ≤ 5 := by
      rcases List.mem_cons.mp hv with h | h
      · rw [h]; norm_num
      · rw [List.mem_singleton.mp h]
    have : (0 : ℚ) < 2 * M_PI_double * 2 ^ 31 - 5 := by norm_num [M_PI_double]
    linarith

end Utilities.Transforms.DFTUtilities

end RTSeis

namespace RTSeis

/-! ## Median filter: initialisation, reset and error reporting -/

namespace Utilities.FilterImplementations

open MedianFilterImpl

/-- `initialize` with a non-positive window fails and leaves the cleared
object. -/
theorem init_of_lt_one {α : Type} [Zero α] (ipp : Ipp α) (old : MedianFilter α) (n : Int)
    (mode : ProcessingMode) (prec : Precision) (hn : n < 1) :
    MedianFilter.init ipp old n mode prec = (-1, MedianFilter.clear old) := by
  unfold MedianFilter.init
  simp only [hn, if_true]

/-- `initialize` fails when the workspace-size query fails, and leaves a
cleared object. -/
theorem init_of_query_none {α : Type} [Zero α] (ipp : Ipp α) (old : MedianFilter α)
    (n : Int) (mode : ProcessingMode) (prec : Precision) (hn : 1 ≤ n)
    (hq : ipp.filterMedianGetBufferSize (MedianFilter.window n) prec = none) :
    MedianFilter.init ipp old n mode prec
      = (-1, { nwork := max 8 (MedianFilter.window n - 1) }) := by
  unfold MedianFilter.window at hq
  unfold MedianFilter.init MedianFilterImpl.init
  simp only [not_lt.mpr hn, if_false]
  cases prec <;> simp only [hq] <;> rfl

/-- `initialize` succeeds when the workspace-size query succeeds, and leaves
the fresh object. -/
theorem init_of_query_some {α : Type} [Zero α] (ipp : Ipp α) (old : MedianFilter α)
    (n : Int) (mode : ProcessingMode) (prec : Precision) (hn : 1 ≤ n) (b : Int)
    (hq : ipp.filterMedianGetBufferSize (MedianFilter.window n) prec = some b) :
    MedianFilter.init ipp old n mode prec
      = (0, MedianFilter.freshState (MedianFilter.window n) b mode prec) := by
  unfold MedianFilter.window at hq
  unfold MedianFilter.init MedianFilterImpl.init
  simp only [not_lt.mpr hn, if_false]
  cases prec <;> simp only [hq] <;> rfl

/-- A successful `initialize` had a positive window and a successful
workspace-size query, and left the fresh object. -/
theorem init_eq_ok {α : Type} [Zero α] (ipp : Ipp α) (old s : MedianFilter α) (n : Int)
    (mode : ProcessingMode) (prec : Precision)
    (h : MedianFilter.init ipp old n mode prec = (0, s)) :
    1 ≤ n ∧ ∃ b, ipp.filterMedianGetBufferSize (MedianFilter.window n) prec = some b ∧
      s = MedianFilter.freshState (MedianFilter.window n) b mode prec := by
  by_cases hn : n < 1
  · rw [init_of_lt_one ipp old n mode prec hn] at h
    simp at h
  · have hn' : 1 ≤ n := by omega
    cases hq : ipp.filterMedianGetBufferSize (MedianFilter.window n) prec with
    | none =>
      rw [init_of_query_none ipp old n mode prec hn' hq] at h
      simp at h
    | some b =>
      rw [init_of_query_some ipp old n mode prec hn' b hq] at h
      exact ⟨hn', b, rfl, (Prod.mk.inj h).2.symm⟩

/-- The window of a positive request is odd, at least `1`, and is the request
or the request plus one. -/
theorem window_spec (n : Int) (hn : 1 ≤ n) :
    MedianFilter.window n = (if n % 2 = 0 then n + 1 else n) ∧
      1 ≤ MedianFilter.window n ∧ MedianFilter.window n % 2 = 1 := by
  have e : Int.tmod n 2 = n % 2 := Int.tmod_eq_emod (by omega) (by decide)
  unfold MedianFilter.window
  rw [e]
  by_cases h : n % 2 = 0
  · rw [if_pos h]
    omega
  · rw [if_neg h]
    omega

/-- The fresh object is ready to filter. -/
theorem ready_freshState {α : Type} [Zero α] (w b : Int) (mode : ProcessingMode)
    (prec : Precision) (hw : 1 ≤ w) :
    Ready (MedianFilter.freshState w b mode prec : MedianFilter α) := by
  cases prec
  · refine ⟨rfl, hw, ?_⟩
    show (w - 1).toNat ≤ (ippsZero (max 8 (w - 1)) : List α).length ∧
      (w - 1).toNat ≤ (ippsZero (max 8 (w - 1)) : List α).length
    simp only [ippsZero, List.length_replicate]
    omega
  · refine ⟨rfl, hw, ?_⟩
    show (w - 1).toNat ≤ (ippsZero (max 8 (w - 1)) : List α).length ∧
      (w - 1).toNat ≤ (ippsZero (max 8 (w - 1)) : List α).length
    simp only [ippsZero, List.length_replicate]
    omega

/-- C15: median window rounding and state length.
`MedianFilter::initialize(n, mode, precision)` returns `-1` for every
`n < 1`; for every `n >= 1` with the kernel's buffer-size query succeeding it
returns `0`, the window `w` used is `n` when `n` is odd and `n + 1` when `n`
is even, and afterwards `isInitialized()` is true,
`getInitialConditionLength() = w - 1` and `getGroupDelay() = floor(w/2)`. -/
theorem init_window_and_lengths {α : Type} [Zero α] (ipp : Ipp α) (old : MedianFilter α)
    (n : Int) (mode : ProcessingMode) (prec : Precision) :
    (n < 1 → (MedianFilter.init ipp old n mode prec).1 = -1) ∧
    (1 ≤ n → ∀ b : Int,
      ipp.filterMedianGetBufferSize (if n % 2 = 0 then n + 1 else n) prec = some b →
      (MedianFilter.init ipp old n mode prec).1 = 0 ∧
      (MedianFilter.init ipp old n mode prec).2.maskSize = (if n % 2 = 0 then n + 1 else n) ∧
      MedianFilter.isInitialized (MedianFilter.init ipp old n mode prec).2 = true ∧
      MedianFilter.getInitialConditionLength (MedianFilter.init ipp old n mode prec).2
        = (if n % 2 = 0 then n + 1 else n) - 1 ∧
      MedianFilter.getGroupDelay (MedianFilter.init ipp old n mode prec).2
        = (if n % 2 = 0 then n + 1 else n) / 2) := by
  constructor
  · intro hn
    rw [init_of_lt_one ipp old n mode prec hn]
  · intro hn b hq
    obtain ⟨hw, hw1, _⟩ := window_spec n hn
    rw [← hw] at hq ⊢
    rw [init_of_query_some ipp old n mode prec hn b hq]
    have hdiv : Int.tdiv (MedianFilter.window n) 2 = MedianFilter.window n / 2 :=
      Int.tdiv_eq_ediv (by omega) (by decide)
    cases prec
    · exact ⟨rfl, rfl, rfl, rfl, hdiv⟩
    · exact ⟨rfl, rfl, rfl, rfl, hdiv⟩

/-- Whatever the mode, `apply` on a ready filter returns status `0` and the
sliding median over the delay line followed by the input. -/
theorem apply_output {α : Type} [LinearOrder α] [Zero α] (ipp : Ipp α) (s : MedianFilter α)
    (x : List α) (hready : Ready s) :
    (MedianFilter.apply ipp s x).1 = 0 ∧
    (MedianFilter.apply ipp s x).2.1
      = fromKernel ipp s.precision (slidingMedian
          (delayLine s ++ toKernel ipp s.precision x) s.maskSize.toNat x.length) := by
  cases hm : s.mode with
  | POST_PROCESSING =>
    rw [apply_postProcessing ipp s x hready hm]
    exact ⟨rfl, rfl⟩
  | REAL_TIME =>
    obtain ⟨s', he, _⟩ := apply_realTime ipp s x hready hm
    rw [he]
    exact ⟨rfl, rfl⟩

/-- C18 as stated fails: on a never-initialised `MedianFilter`, `apply` with
`n = 0` and with `n = -2` returns `0`, and `getGroupDelay()` returns `0`;
neither is the failure status `-1`. -/
theorem uninitialised_not_always_reported :
    MedianFilter.isInitialized (MedianFilter.new : MedianFilter Int) = false ∧
    (MedianFilter.applyPtr checkingVendor intIpp MedianFilter.new 0 (some []) (some [])).1
      = 0 ∧
    (MedianFilter.applyPtr checkingVendor intIpp MedianFilter.new (-2) (some []) (some [])).1
      = 0 ∧
    MedianFilter.getGroupDelay (MedianFilter.new : MedianFilter Int) = 0 := by
  decide

/-- C18, amended: on a `MedianFilter` that has not been successfully
initialised (never initialised, cleared, or after a failed `initialize`),
`apply(n, x, y)` returns `-1` for every `n > 0` and `0` (nothing to do) for
every `n <= 0`, whatever the pointers and the vendor kernel, and
`getInitialConditionLength()` returns `-1`. -/
theorem uninitialised_reported {α : Type} [Zero α] (vendor : IppPtr α) (ipp : Ipp α)
    (s : MedianFilter α) (hs : MedianFilter.isInitialized s = false) :
    (∀ (n : Int) (x y : Option (List α)), 0 < n →
      (MedianFilter.applyPtr vendor ipp s n x y).1 = -1) ∧
    (∀ (n : Int) (x y : Option (List α)), n ≤ 0 →
      (MedianFilter.applyPtr vendor ipp s n x y).1 = 0) ∧
    MedianFilter.getInitialConditionLength s = -1 ∧
    MedianFilter.isInitialized (MedianFilter.new : MedianFilter α) = false ∧
    (∀ t : MedianFilter α, MedianFilter.isInitialized (MedianFilter.clear t) = false) ∧
    (∀ (old : MedianFilter α) (n : Int) (mode : ProcessingMode) (prec : Precision),
      (MedianFilter.init ipp old n mode prec).1 ≠ 0 →
      MedianFilter.isInitialized (MedianFilter.init ipp old n mode prec).2 = false) := by
  have hs' : MedianFilterImpl.isInitialized s = false := hs
  refine ⟨?_, ?_, ?_, rfl, fun _ => rfl, ?_⟩
  · intro n x y hn
    unfold MedianFilter.applyPtr
    rw [if_neg (by omega), hs']
    rfl
  · intro n x y hn
    unfold MedianFilter.applyPtr
    rw [if_pos hn]
  · unfold MedianFilter.getInitialConditionLength
    rw [hs']
    rfl
  · intro old n mode prec hfail
    by_cases hn : n < 1
    · rw [init_of_lt_one ipp old n mode prec hn]
      rfl
    · have hn' : 1 ≤ n := by omega
      cases hq : ipp.filterMedianGetBufferSize (MedianFilter.window n) prec with
      | none =>
        rw [init_of_query_none ipp old n mode prec hn' hq]
        rfl
      | some b =>
        rw [init_of_query_some ipp old n mode prec hn' b hq] at hfail
        exact absurd rfl hfail

/-- Witness for the amended C18: a filter cleared after use. -/
theorem uninitialised_reported_witness :
    MedianFilter.isInitialized (MedianFilter.clear
      (MedianFilter.init intIpp MedianFilter.new 3 .REAL_TIME .DOUBLE).2) = false ∧
    (MedianFilter.applyPtr checkingVendor intIpp (MedianFilter.clear
      (MedianFilter.init intIpp MedianFilter.new 3 .REAL_TIME .DOUBLE).2)
      2 (some [1, 2]) (some [0, 0])).1 = -1 ∧
    ((∀ (n : Int) (x y : Option (List Int)), 0 < n →
      (MedianFilter.applyPtr checkingVendor intIpp (MedianFilter.clear
        (MedianFilter.init intIpp MedianFilter.new 3 .REAL_TIME .DOUBLE).2) n x y).1 = -1) ∧
    (∀ (n : Int) (x y : Option (List Int)), n ≤ 0 →
      (MedianFilter.applyPtr checkingVendor intIpp (MedianFilter.clear
        (MedianFilter.init intIpp MedianFilter.new 3 .REAL_TIME .DOUBLE).2) n x y).1 = 0) ∧
    MedianFilter.getInitialConditionLength (MedianFilter.clear
      (MedianFilter.init intIpp MedianFilter.new 3 .REAL_TIME .DOUBLE).2) = -1 ∧
    MedianFilter.isInitialized (MedianFilter.new : MedianFilter Int) = false ∧
    (∀ t : MedianFilter Int, MedianFilter.isInitialized (MedianFilter.clear t) = false) ∧
    (∀ (old : MedianFilter Int) (n : Int) (mode : ProcessingMode) (prec : Precision),
      (MedianFilter.init intIpp old n mode prec).1 ≠ 0 →
      MedianFilter.isInitialized (MedianFilter.init intIpp old n mode prec).2 = false)) :=
  ⟨by decide, by decide,
    uninitialised_reported checkingVendor intIpp
      (MedianFilter.clear (MedianFilter.init intIpp MedianFilter.new 3 .REAL_TIME .DOUBLE).2)
      (by decide)⟩

/-- C19, the code at the failing inputs: on a filter initialised with window 3
the call `apply(1, x, y)` returns `0`, not `-1`, with `x` null and with `y`
null - in single precision even when the vendor kernel rejects null pointers
(the kernel then only sees the buffers allocated inside `apply`), in double
precision whenever the vendor kernel reports no error. -/
theorem apply_null_pointer_not_rejected :
    MedianFilter.isInitialized
      (MedianFilter.init intIpp MedianFilter.new 3 .POST_PROCESSING .FLOAT).2 = true ∧
    (MedianFilter.applyPtr checkingVendor intIpp
      (MedianFilter.init intIpp MedianFilter.new 3 .POST_PROCESSING .FLOAT).2
      1 none (some [9])).1 = 0 ∧
    (MedianFilter.applyPtr checkingVendor intIpp
      (MedianFilter.init intIpp MedianFilter.new 3 .POST_PROCESSING .FLOAT).2
      1 (some [5]) none).1 = 0 ∧
    (MedianFilter.applyPtr lenientVendor intIpp
      (MedianFilter.init intIpp MedianFilter.new 3 .POST_PROCESSING .DOUBLE).2
      1 none (some [9])).1 = 0 ∧
    (MedianFilter.applyPtr checkingVendor intIpp
      (MedianFilter.init intIpp MedianFilter.new 3 .POST_PROCESSING .DOUBLE).2
      1 none (some [9])).1 = -1 := by
  decide

/-- C20: a failed `initialize` leaves the median filter cleared.  For every
prior state of a `MedianFilter` and every call `initialize(n, ...)` that fails
(`n < 1`, or the kernel buffer-size query failing), the call returns `-1` and
afterwards `isInitialized()` is false and the instance is in a state as after
`clear()`: window 0, post-processing mode, double precision, no buffers. -/
theorem failed_init_leaves_cleared {α : Type} [Zero α] (ipp : Ipp α) (old : MedianFilter α)
    (n : Int) (mode : ProcessingMode) (prec : Precision)
    (hfail : n < 1 ∨
      ipp.filterMedianGetBufferSize (if n % 2 = 0 then n + 1 else n) prec = none) :
    (MedianFilter.init ipp old n mode prec).1 = -1 ∧
    MedianFilter.isInitialized (MedianFilter.init ipp old n mode prec).2 = false ∧
    (MedianFilter.init ipp old n mode prec).2.maskSize = 0 ∧
    (MedianFilter.init ipp old n mode prec).2.mode = .POST_PROCESSING ∧
    (MedianFilter.init ipp old n mode prec).2.precision = .DOUBLE ∧
    (MedianFilter.init ipp old n mode prec).2.dlysrc64 = [] ∧
    (MedianFilter.init ipp old n mode prec).2.dlydst64 = [] ∧
    (MedianFilter.init ipp old n mode prec).2.dlysrc32 = [] ∧
    (MedianFilter.init ipp old n mode prec).2.dlydst32 = [] ∧
    (MedianFilter.init ipp old n mode prec).2.zi = [] ∧
    (MedianFilter.init ipp old n mode prec).2.bufferSize = 0 ∧
    MedianFilter.clear (MedianFilter.init ipp old n mode prec).2
      = (MedianFilter.init ipp old n mode prec).2 ∧
    (n < 1 → (MedianFilter.init ipp old n mode prec).2 = MedianFilter.clear old) := by
  by_cases hn : n < 1
  · rw [init_of_lt_one ipp old n mode prec hn]
    exact ⟨rfl, rfl, rfl, rfl, rfl, rfl, rfl, rfl, rfl, rfl, rfl, rfl, fun _ => rfl⟩
  · have hn' : 1 ≤ n := by omega
    have hq : ipp.filterMedianGetBufferSize (MedianFilter.window n) prec = none := by
      rw [(window_spec n hn').1]
      rcases hfail with h | h
      · exact absurd h hn
      · exact h
    rw [init_of_query_none ipp old n mode prec hn' hq]
    exact ⟨rfl, rfl, rfl, rfl, rfl, rfl, rfl, rfl, rfl, rfl, rfl, rfl, fun h => absurd h hn⟩

/-- Witness for C20: `initialize(0, ...)` on a filter that was initialised
with window 3 and used on two samples. -/
theorem failed_init_leaves_cleared_witness :
    (MedianFilter.init intIpp
      (MedianFilter.apply intIpp
        (MedianFilter.init intIpp MedianFilter.new 3 .REAL_TIME .DOUBLE).2 [5, 6]).2.2
      0 .REAL_TIME .DOUBLE).1 = -1 ∧
    MedianFilter.isInitialized (MedianFilter.init intIpp
      (MedianFilter.apply intIpp
        (MedianFilter.init intIpp MedianFilter.new 3 .REAL_TIME .DOUBLE).2 [5, 6]).2.2
      0 .REAL_TIME .DOUBLE).2 = false :=
  ⟨(failed_init_leaves_cleared intIpp
      (MedianFilter.apply intIpp
        (MedianFilter.init intIpp MedianFilter.new 3 .REAL_TIME .DOUBLE).2 [5, 6]).2.2
      0 .REAL_TIME .DOUBLE (Or.inl (by decide))).1,
    (failed_init_leaves_cleared intIpp
      (MedianFilter.apply intIpp
        (MedianFilter.init intIpp MedianFilter.new 3 .REAL_TIME .DOUBLE).2 [5, 6]).2.2
      0 .REAL_TIME .DOUBLE (Or.inl (by decide))).2.1⟩

end Utilities.FilterImplementations

end RTSeis

namespace RTSeis

/-! ## Median filter: resetting the initial conditions -/

/-- The first `k` samples after a copy of at least `k` samples are the first
`k` samples copied. -/
theorem take_ippsCopy_of_le {α : Type} (src dst : List α) (len : Int) (k : Nat)
    (hk : k ≤ len.toNat) (hs : k ≤ src.length) :
    (ippsCopy src dst len).take k = src.take k := by
  unfold ippsCopy
  rw [List.take_append_of_le_length (by simp; omega), List.take_take, Nat.min_eq_left hk]

/-- A copy of at least `k` available samples leaves at least `k` samples. -/
theorem le_length_ippsCopy {α : Type} (src dst : List α) (len : Int) (k : Nat)
    (hk : k ≤ len.toNat) (hs : k ≤ src.length) : k ≤ (ippsCopy src dst len).length := by
  unfold ippsCopy
  simp only [List.length_append, List.length_take, List.length_drop]
  omega

/-- The first `k` samples after a conversion of at least `k` samples are the
first `k` samples converted. -/
theorem take_ippsConvert_of_le {α : Type} (cvt : α → α) (src dst : List α) (len : Int)
    (k : Nat) (hk : k ≤ len.toNat) (hs : k ≤ src.length) :
    (ippsConvert cvt src dst len).take k = (src.take k).map cvt := by
  unfold ippsConvert
  rw [List.take_append_of_le_length (by simp; omega), ← List.map_take, List.take_take,
    Nat.min_eq_left hk]

/-- A conversion of at least `k` available samples leaves at least `k`
samples. -/
theorem le_length_ippsConvert {α : Type} (cvt : α → α) (src dst : List α) (len : Int)
    (k : Nat) (hk : k ≤ len.toNat) (hs : k ≤ src.length) :
    k ≤ (ippsConvert cvt src dst len).length := by
  unfold ippsConvert
  simp only [List.length_append, List.length_map, List.length_take, List.length_drop]
  omega

namespace Utilities.FilterImplementations

open MedianFilterImpl

/-- `resetInitialConditions` on a resettable filter: the delay line becomes the
stored initial conditions (rounded in single precision); nothing else that
matters changes. -/
theorem impl_reset_spec {α : Type} (ipp : Ipp α) (s : MedianFilter α)
    (hs : MedianFilter.Resettable s) :
    MedianFilter.Resettable (MedianFilterImpl.resetInitialConditions ipp s).2 ∧
    (MedianFilterImpl.resetInitialConditions ipp s).2.mode = s.mode ∧
    (MedianFilterImpl.resetInitialConditions ipp s).2.maskSize = s.maskSize ∧
    (MedianFilterImpl.resetInitialConditions ipp s).2.precision = s.precision ∧
    (MedianFilterImpl.resetInitialConditions ipp s).2.zi = s.zi ∧
    (MedianFilterImpl.resetInitialConditions ipp s).2.nwork = s.nwork ∧
    (MedianFilterImpl.resetInitialConditions ipp s).2.linit = s.linit ∧
    delayLine (MedianFilterImpl.resetInitialConditions ipp s).2
      = toKernel ipp s.precision (s.zi.take (s.maskSize - 1).toNat) := by
  obtain ⟨⟨hinit, hw, hsz⟩, hnw, hkn, hkz⟩ := hs
  cases hp : s.precision with
  | DOUBLE =>
    rw [hp] at hsz
    have he : (MedianFilterImpl.resetInitialConditions ipp s).2
        = { s with dlysrc64 := ippsCopy s.zi s.dlysrc64 s.nwork } := by
      unfold MedianFilterImpl.resetInitialConditions
      simp only [hp, hnw, if_true]
    rw [he]
    refine ⟨⟨⟨hinit, hw, ?_⟩, hnw, hkn, hkz⟩, rfl, rfl, hp, rfl, rfl, rfl, ?_⟩
    · show match s.precision with
        | .DOUBLE => (s.maskSize - 1).toNat ≤ (ippsCopy s.zi s.dlysrc64 s.nwork).length ∧
            (s.maskSize - 1).toNat ≤ s.dlydst64.length
        | .FLOAT => (s.maskSize - 1).toNat ≤ s.dlysrc32.length ∧
            (s.maskSize - 1).toNat ≤ s.dlydst32.length
      rw [hp]
      exact ⟨le_length_ippsCopy _ _ _ _ hkn hkz, hsz.2⟩
    · show (match s.precision with
        | .DOUBLE => (ippsCopy s.zi s.dlysrc64 s.nwork).take (s.maskSize - 1).toNat
        | .FLOAT => s.dlysrc32.take (s.maskSize - 1).toNat) = _
      rw [hp]
      exact take_ippsCopy_of_le _ _ _ _ hkn hkz
  | FLOAT =>
    rw [hp] at hsz
    have he : (MedianFilterImpl.resetInitialConditions ipp s).2
        = { s with dlysrc32 := ippsConvert ipp.convert_64f32f s.zi s.dlysrc32 s.nwork } := by
      unfold MedianFilterImpl.resetInitialConditions
      simp only [hp, hnw, if_true]
    rw [he]
    refine ⟨⟨⟨hinit, hw, ?_⟩, hnw, hkn, hkz⟩, rfl, rfl, hp, rfl, rfl, rfl, ?_⟩
    · show match s.precision with
        | .DOUBLE => (s.maskSize - 1).toNat ≤ s.dlysrc64.length ∧
            (s.maskSize - 1).toNat ≤ s.dlydst64.length
        | .FLOAT => (s.maskSize - 1).toNat
              ≤ (ippsConvert ipp.convert_64f32f s.zi s.dlysrc32 s.nwork).length ∧
            (s.maskSize - 1).toNat ≤ s.dlydst32.length
      rw [hp]
      exact ⟨le_length_ippsConvert _ _ _ _ _ hkn hkz, hsz.2⟩
    · show (match s.precision with
        | .DOUBLE => s.dlysrc64.take (s.maskSize - 1).toNat
        | .FLOAT => (ippsConvert ipp.convert_64f32f s.zi s.dlysrc32 s.nwork).take
            (s.maskSize - 1).toNat) = _
      rw [hp]
      exact take_ippsConvert_of_le _ _ _ _ _ hkn hkz

/-- `MedianFilterImpl::setInitialConditions` spelled out on the object that
its call of `resetInitialConditions` leaves. -/
theorem impl_setInitialConditions_eq {α : Type} (ipp : Ipp α) (s : MedianFilter α)
    (nz : Int) (z : List α) :
    (MedianFilterImpl.setInitialConditions ipp s nz z).2
      = (if (MedianFilterImpl.resetInitialConditions ipp s).2.maskSize - 1 > 0 then
          (match (MedianFilterImpl.resetInitialConditions ipp s).2.precision with
            | .DOUBLE =>
              { (MedianFilterImpl.resetInitialConditions ipp s).2 with
                zi := ippsCopy z (MedianFilterImpl.resetInitialConditions ipp s).2.zi
                  ((MedianFilterImpl.resetInitialConditions ipp s).2.maskSize - 1),
                dlysrc64 := ippsCopy z (MedianFilterImpl.resetInitialConditions ipp s).2.dlysrc64
                  ((MedianFilterImpl.resetInitialConditions ipp s).2.maskSize - 1) }
            | .FLOAT =>
              { (MedianFilterImpl.resetInitialConditions ipp s).2 with
                zi := ippsCopy z (MedianFilterImpl.resetInitialConditions ipp s).2.zi
                  ((MedianFilterImpl.resetInitialConditions ipp s).2.maskSize - 1),
                dlysrc32 := ippsConvert ipp.convert_64f32f z
                  (MedianFilterImpl.resetInitialConditions ipp s).2.dlysrc32
                  ((MedianFilterImpl.resetInitialConditions ipp s).2.maskSize - 1) })
        else (MedianFilterImpl.resetInitialConditions ipp s).2) := by
  unfold MedianFilterImpl.setInitialConditions
  generalize (MedianFilterImpl.resetInitialConditions ipp s).2 = s1
  simp only [MedianFilterImpl.getInitialConditionLength]
  by_cases h : s1.maskSize - 1 > 0
  · simp only [h, if_true]
    cases hp : s1.precision <;> simp [hp]
  · simp only [h, if_false]
    cases hp : s1.precision <;> simp [hp]

/-- `MedianFilterImpl::setInitialConditions` with `maskSize_ - 1` initial
conditions on a resettable filter: both the stored initial conditions and the
delay line start with them. -/
theorem impl_setInitialConditions_spec {α : Type} (ipp : Ipp α) (s : MedianFilter α)
    (hs : MedianFilter.Resettable s) (nz : Int) (z : List α)
    (hz : (z.length : Int) = s.maskSize - 1) :
    MedianFilter.Resettable (MedianFilterImpl.setInitialConditions ipp s nz z).2 ∧
    (MedianFilterImpl.setInitialConditions ipp s nz z).2.mode = s.mode ∧
    (MedianFilterImpl.setInitialConditions ipp s nz z).2.maskSize = s.maskSize ∧
    (MedianFilterImpl.setInitialConditions ipp s nz z).2.precision = s.precision ∧
    delayLine (MedianFilterImpl.setInitialConditions ipp s nz z).2
      = toKernel ipp s.precision
          ((MedianFilterImpl.setInitialConditions ipp s nz z).2.zi.take
            (s.maskSize - 1).toNat) := by
  obtain ⟨hr, hmode, hmask, hprec, hzi, hnwork, hlinit, hdly⟩ := impl_reset_spec ipp s hs
  rw [impl_setInitialConditions_eq]
  generalize (MedianFilterImpl.resetInitialConditions ipp s).2 = s1 at *
  obtain ⟨⟨hinit, hw, hsz⟩, hnw, hkn, hkz⟩ := hr
  by_cases hpos : s1.maskSize - 1 > 0
  · rw [if_pos hpos]
    have hk : (s1.maskSize - 1).toNat = z.length := by omega
    have hkk : (s1.maskSize - 1).toNat ≤ (s1.maskSize - 1).toNat := le_refl _
    have hkz' : (s1.maskSize - 1).toNat ≤ z.length := by omega
    rw [← hmask, ← hprec]
    cases hp : s1.precision with
    | DOUBLE =>
      rw [hp] at hsz
      simp only []
      refine ⟨⟨⟨hinit, hw, ?_⟩, hnw, hkn, ?_⟩, hmode, trivial, hp, ?_⟩
      · show match s1.precision with
          | .DOUBLE => (s1.maskSize - 1).toNat
                ≤ (ippsCopy z s1.dlysrc64 (s1.maskSize - 1)).length ∧
              (s1.maskSize - 1).toNat ≤ s1.dlydst64.length
          | .FLOAT => (s1.maskSize - 1).toNat ≤ s1.dlysrc32.length ∧
              (s1.maskSize - 1).toNat ≤ s1.dlydst32.length
        rw [hp]
        exact ⟨le_length_ippsCopy _ _ _ _ hkk hkz', hsz.2⟩
      · exact le_length_ippsCopy _ _ _ _ hkk hkz'
      · show (match s1.precision with
          | .DOUBLE => (ippsCopy z s1.dlysrc64 (s1.maskSize - 1)).take (s1.maskSize - 1).toNat
          | .FLOAT => s1.dlysrc32.take (s1.maskSize - 1).toNat)
          = toKernel ipp .DOUBLE
              ((ippsCopy z s1.zi (s1.maskSize - 1)).take (s1.maskSize - 1).toNat)
        rw [hp]
        simp only [toKernel]
        rw [take_ippsCopy_of_le _ _ _ _ hkk hkz', take_ippsCopy_of_le _ _ _ _ hkk hkz']
    | FLOAT =>
      rw [hp] at hsz
      simp only []
      refine ⟨⟨⟨hinit, hw, ?_⟩, hnw, hkn, ?_⟩, hmode, trivial, hp, ?_⟩
      · show match s1.precision with
          | .DOUBLE => (s1.maskSize - 1).toNat ≤ s1.dlysrc64.length ∧
              (s1.maskSize - 1).toNat ≤ s1.dlydst64.length
          | .FLOAT => (s1.maskSize - 1).toNat
                ≤ (ippsConvert ipp.convert_64f32f z s1.dlysrc32 (s1.maskSize - 1)).length ∧
              (s1.maskSize - 1).toNat ≤ s1.dlydst32.length
        rw [hp]
        exact ⟨le_length_ippsConvert _ _ _ _ _ hkk hkz', hsz.2⟩
      · exact le_length_ippsCopy _ _ _ _ hkk hkz'
      · show (match s1.precision with
          | .DOUBLE => s1.dlysrc64.take (s1.maskSize - 1).toNat
          | .FLOAT => (ippsConvert ipp.convert_64f32f z s1.dlysrc32 (s1.maskSize - 1)).take
              (s1.maskSize - 1).toNat)
          = toKernel ipp .FLOAT
              ((ippsCopy z s1.zi (s1.maskSize - 1)).take (s1.maskSize - 1).toNat)
        rw [hp]
        simp only [toKernel]
        rw [take_ippsConvert_of_le _ _ _ _ _ hkk hkz', take_ippsCopy_of_le _ _ _ _ hkk hkz']
  · rw [if_neg hpos]
    refine ⟨⟨⟨hinit, hw, hsz⟩, hnw, hkn, hkz⟩, hmode, hmask, hprec, ?_⟩
    rw [hdly, hzi]

/-- The double-precision kernel path never touches the stored initial
conditions nor the workspace length. -/
theorem applyKernel64_keeps_zi {α : Type} [LinearOrder α] [Zero α]
    (s : MedianFilterImpl α) (x : List α) :
    (applyKernel64 s x).2.2.zi = s.zi ∧ (applyKernel64 s x).2.2.nwork = s.nwork := by
  unfold applyKernel64 ippsFilterMedian
  simp only []
  split_ifs <;> exact ⟨rfl, rfl⟩

/-- The single-precision kernel path never touches the stored initial
conditions nor the workspace length. -/
theorem applyKernel32_keeps_zi {α : Type} [LinearOrder α] [Zero α]
    (s : MedianFilterImpl α) (x : List α) :
    (applyKernel32 s x).2.2.zi = s.zi ∧ (applyKernel32 s x).2.2.nwork = s.nwork := by
  unfold applyKernel32 ippsFilterMedian
  simp only []
  split_ifs <;> exact ⟨rfl, rfl⟩

/-- `apply` never touches the stored initial conditions nor the workspace
length. -/
theorem apply_keeps_zi {α : Type} [LinearOrder α] [Zero α] (ipp : Ipp α)
    (s : MedianFilter α) (x : List α) :
    (MedianFilter.apply ipp s x).2.2.zi = s.zi ∧
    (MedianFilter.apply ipp s x).2.2.nwork = s.nwork := by
  have h64 := applyKernel64_keeps_zi s x
  have h32 := applyKernel32_keeps_zi s (x.map ipp.convert_64f32f)
  unfold MedianFilter.apply MedianFilterImpl.apply
  simp only []
  split_ifs <;> first | exact ⟨rfl, rfl⟩ | exact h64 | exact h32

/-- `apply` keeps a resettable filter resettable, with the same mode, window,
precision and stored initial conditions. -/
theorem apply_keeps_resettable {α : Type} [LinearOrder α] [Zero α] (ipp : Ipp α)
    (s : MedianFilter α) (x : List α) (hs : MedianFilter.Resettable s) :
    MedianFilter.Resettable (MedianFilter.apply ipp s x).2.2 ∧
    (MedianFilter.apply ipp s x).2.2.mode = s.mode ∧
    (MedianFilter.apply ipp s x).2.2.maskSize = s.maskSize ∧
    (MedianFilter.apply ipp s x).2.2.precision = s.precision ∧
    (MedianFilter.apply ipp s x).2.2.zi = s.zi := by
  obtain ⟨hready, hnw, hkn, hkz⟩ := hs
  obtain ⟨hzi, hnwork⟩ := apply_keeps_zi ipp s x
  cases hm : s.mode with
  | POST_PROCESSING =>
    rw [apply_postProcessing ipp s x hready hm]
    exact ⟨⟨hready, hnw, hkn, hkz⟩, hm, rfl, rfl, rfl⟩
  | REAL_TIME =>
    obtain ⟨s', he, hready', hmode', hmask', hprec', _⟩ := apply_realTime ipp s x hready hm
    rw [he] at hzi hnwork ⊢
    simp only [] at hzi hnwork ⊢
    refine ⟨⟨hready', ?_, ?_, ?_⟩, hmode', hmask', hprec', hzi⟩
    · rw [hnwork]; exact hnw
    · rw [hnwork, hmask']; exact hkn
    · rw [hzi, hmask']; exact hkz

/-- The packet loop keeps a resettable filter resettable, with the same mode,
window, precision and stored initial conditions. -/
theorem applyPackets_keeps_resettable {α : Type} [LinearOrder α] [Zero α] (ipp : Ipp α)
    (packets : List (List α)) :
    ∀ s : MedianFilter α, MedianFilter.Resettable s →
      MedianFilter.Resettable (MedianFilter.applyPackets ipp s packets).2 ∧
      (MedianFilter.applyPackets ipp s packets).2.mode = s.mode ∧
      (MedianFilter.applyPackets ipp s packets).2.maskSize = s.maskSize ∧
      (MedianFilter.applyPackets ipp s packets).2.precision = s.precision ∧
      (MedianFilter.applyPackets ipp s packets).2.zi = s.zi := by
  induction packets with
  | nil =>
    intro s hs
    exact ⟨hs, rfl, rfl, rfl, rfl⟩
  | cons p ps ih =>
    intro s hs
    obtain ⟨h1, h2, h3, h4, h5⟩ := apply_keeps_resettable ipp s p hs
    obtain ⟨i1, i2, i3, i4, i5⟩ := ih (MedianFilter.apply ipp s p).2.2 h1
    have hstep : (MedianFilter.applyPackets ipp s (p :: ps)).2
        = (MedianFilter.applyPackets ipp (MedianFilter.apply ipp s p).2.2 ps).2 := by
      rw [MedianFilter.applyPackets]
    rw [hstep]
    exact ⟨i1, i2.trans h2, i3.trans h3, i4.trans h4, i5.trans h5⟩

/-- The fresh object is resettable. -/
theorem resettable_freshState {α : Type} [Zero α] (w b : Int) (mode : ProcessingMode)
    (prec : Precision) (hw : 1 ≤ w) :
    MedianFilter.Resettable (MedianFilter.freshState w b mode prec : MedianFilter α) := by
  refine ⟨ready_freshState w b mode prec hw, ?_, ?_, ?_⟩
  · cases prec
    · show (0 : Int) < max 8 (w - 1)
      omega
    · show (0 : Int) < max 8 (w - 1)
      omega
  · cases prec
    · show (w - 1).toNat ≤ (max 8 (w - 1)).toNat
      omega
    · show (w - 1).toNat ≤ (max 8 (w - 1)).toNat
      omega
  · cases prec
    · show (w - 1).toNat ≤ (ippsZero (max 8 (w - 1)) : List α).length
      simp only [ippsZero, List.length_replicate]
      omega
    · show (w - 1).toNat ≤ (ippsZero (max 8 (w - 1)) : List α).length
      simp only [ippsZero, List.length_replicate]
      omega

/-- In the fresh object the delay line is the stored initial conditions
(zeros), provided that rounding zero to single precision gives zero. -/
theorem delayLine_freshState {α : Type} [Zero α] (ipp : Ipp α)
    (hzero : ipp.convert_64f32f 0 = 0) (w b : Int) (mode : ProcessingMode)
    (prec : Precision) :
    delayLine (MedianFilter.freshState w b mode prec : MedianFilter α)
      = toKernel ipp prec
          ((MedianFilter.freshState w b mode prec : MedianFilter α).zi.take (w - 1).toNat) := by
  cases prec
  · rfl
  · show List.take (w - 1).toNat (ippsZero (max 8 (w - 1)) : List α)
      = List.map ipp.convert_64f32f (List.take (w - 1).toNat (ippsZero (max 8 (w - 1))))
    simp only [ippsZero, List.take_replicate, List.map_replicate, hzero]

/-- The window, mode and precision of the fresh object. -/
theorem fields_freshState {α : Type} [Zero α] (w b : Int) (mode : ProcessingMode)
    (prec : Precision) :
    (MedianFilter.freshState w b mode prec : MedianFilter α).maskSize = w ∧
    (MedianFilter.freshState w b mode prec : MedianFilter α).mode = mode ∧
    (MedianFilter.freshState w b mode prec : MedianFilter α).precision = prec := by
  cases prec <;> exact ⟨rfl, rfl, rfl⟩

/-- An optional `setInitialConditions` on a resettable filter whose delay line
is its stored initial conditions leaves such a filter, with the same mode,
window and precision. -/
theorem stamp_spec {α : Type} (ipp : Ipp α) (zi : Option (List α)) (s : MedianFilter α)
    (hs : MedianFilter.Resettable s)
    (hsync : delayLine s = toKernel ipp s.precision (s.zi.take (s.maskSize - 1).toNat)) :
    MedianFilter.Resettable (MedianFilter.stamp ipp zi s) ∧
    (MedianFilter.stamp ipp zi s).mode = s.mode ∧
    (MedianFilter.stamp ipp zi s).maskSize = s.maskSize ∧
    (MedianFilter.stamp ipp zi s).precision = s.precision ∧
    delayLine (MedianFilter.stamp ipp zi s)
      = toKernel ipp s.precision
          ((MedianFilter.stamp ipp zi s).zi.take (s.maskSize - 1).toNat) := by
  cases zi with
  | none => exact ⟨hs, rfl, rfl, rfl, hsync⟩
  | some z =>
    have hinit : MedianFilterImpl.isInitialized s = true := hs.1.1
    by_cases hz : (z.length : Int) = s.maskSize - 1
    · have he : MedianFilter.stamp ipp (some z) s
          = (MedianFilterImpl.setInitialConditions ipp s z.length z).2 := by
        unfold MedianFilter.stamp MedianFilter.setInitialConditions
        simp only [hinit, Bool.not_true, Bool.false_eq_true, if_false,
          MedianFilterImpl.getInitialConditionLength, hz, ne_eq, not_true_eq_false]
      rw [he]
      exact impl_setInitialConditions_spec ipp s hs z.length z hz
    · have he : MedianFilter.stamp ipp (some z) s = s := by
        unfold MedianFilter.stamp MedianFilter.setInitialConditions
        simp only [hinit, Bool.not_true, Bool.false_eq_true, if_false,
          MedianFilterImpl.getInitialConditionLength, ne_eq, hz, not_false_eq_true, if_true]
      rw [he]
      exact ⟨hs, rfl, rfl, rfl, hsync⟩

/-- C16: reset idempotence for the median filter.  For every initialised
`MedianFilter` (either mode, either precision), every optional
initial-condition vector `zi` stamped with `setInitialConditions`, and every
sequence of `apply` calls made since, after `resetInitialConditions()` the
next `apply` on an input `x` returns the same status and output as a freshly
initialised `MedianFilter` with the same window, mode and precision (and the
same `zi` stamped) returns on `x`.  (Rounding zero to single precision is
taken to give zero.) -/
theorem reset_then_apply_as_fresh {α : Type} [LinearOrder α] [Zero α] (ipp : Ipp α)
    (hzero : ipp.convert_64f32f 0 = 0) (n : Int) (mode : ProcessingMode) (prec : Precision)
    (a b used fresh : MedianFilter α)
    (hused : MedianFilter.init ipp a n mode prec = (0, used))
    (hfresh : MedianFilter.init ipp b n mode prec = (0, fresh))
    (zi : Option (List α)) (packets : List (List α)) (x : List α) :
    (MedianFilter.resetInitialConditions ipp
      (MedianFilter.applyPackets ipp (MedianFilter.stamp ipp zi used) packets).2).1 = 0 ∧
    (MedianFilter.apply ipp (MedianFilter.resetInitialConditions ipp
      (MedianFilter.applyPackets ipp (MedianFilter.stamp ipp zi used) packets).2).2 x).1
      = (MedianFilter.apply ipp (MedianFilter.stamp ipp zi fresh) x).1 ∧
    (MedianFilter.apply ipp (MedianFilter.resetInitialConditions ipp
      (MedianFilter.applyPackets ipp (MedianFilter.stamp ipp zi used) packets).2).2 x).2.1
      = (MedianFilter.apply ipp (MedianFilter.stamp ipp zi fresh) x).2.1 := by
  obtain ⟨hn, bu, hqu, hu⟩ := init_eq_ok ipp a used n mode prec hused
  obtain ⟨_, bf, hqf, hf⟩ := init_eq_ok ipp b fresh n mode prec hfresh
  have hb : bu = bf := by
    rw [hqu] at hqf
    exact Option.some.inj hqf
  have hsame : used = fresh := by rw [hu, hf, hb]
  subst hsame
  have hw := (window_spec n hn).2.1
  obtain ⟨fm, _, fp⟩ := fields_freshState (α := α) (MedianFilter.window n) bu mode prec
  have hres0 : MedianFilter.Resettable used := by
    rw [hu]
    exact resettable_freshState _ bu mode prec hw
  have hsync0 : delayLine used
      = toKernel ipp used.precision (used.zi.take (used.maskSize - 1).toNat) := by
    rw [hu, fm, fp]
    exact delayLine_freshState ipp hzero _ bu mode prec
  obtain ⟨hres1, _, hmask1, hprec1, hsync1⟩ := stamp_spec ipp zi used hres0 hsync0
  generalize MedianFilter.stamp ipp zi used = s1 at *
  obtain ⟨hres2, _, hmask2, hprec2, hzi2⟩ := applyPackets_keeps_resettable ipp packets s1 hres1
  generalize (MedianFilter.applyPackets ipp s1 packets).2 = s2 at *
  have hinit2 : MedianFilterImpl.isInitialized s2 = true := hres2.1.1
  have hreset : MedianFilter.resetInitialConditions ipp s2
      = (0, (MedianFilterImpl.resetInitialConditions ipp s2).2) := by
    unfold MedianFilter.resetInitialConditions
    simp only [hinit2, Bool.not_true, Bool.false_eq_true, if_false]
  rw [hreset]
  obtain ⟨hres3, _, hmask3, hprec3, _, _, _, hdly3⟩ := impl_reset_spec ipp s2 hres2
  generalize (MedianFilterImpl.resetInitialConditions ipp s2).2 = s3 at *
  obtain ⟨o3a, o3b⟩ := apply_output ipp s3 x hres3.1
  obtain ⟨o1a, o1b⟩ := apply_output ipp s1 x hres1.1
  refine ⟨rfl, by rw [o3a, o1a], ?_⟩
  rw [o3b, o1b, hdly3, hsync1, hprec3, hmask3, hprec2, hmask2, hzi2, hprec1, hmask1]

/-- Witness for C16: window 3 in real-time mode, the initial conditions
`(5, 6)` stamped, two packets filtered, then reset and a third input. -/
theorem reset_then_apply_as_fresh_witness :
    (MedianFilter.apply intIpp (MedianFilter.resetInitialConditions intIpp
      (MedianFilter.applyPackets intIpp (MedianFilter.stamp intIpp (some [5, 6])
        (MedianFilter.init intIpp MedianFilter.new 3 .REAL_TIME .DOUBLE).2)
        [[1, 2], [127]]).2).2 [4, 9, 0]).2.1 = [5, 6, 4] ∧
    ((MedianFilter.resetInitialConditions intIpp
      (MedianFilter.applyPackets intIpp (MedianFilter.stamp intIpp (some [5, 6])
        (MedianFilter.init intIpp MedianFilter.new 3 .REAL_TIME .DOUBLE).2)
        [[1, 2], [127]]).2).1 = 0 ∧
    (MedianFilter.apply intIpp (MedianFilter.resetInitialConditions intIpp
      (MedianFilter.applyPackets intIpp (MedianFilter.stamp intIpp (some [5, 6])
        (MedianFilter.init intIpp MedianFilter.new 3 .REAL_TIME .DOUBLE).2)
        [[1, 2], [127]]).2).2 [4, 9, 0]).1
      = (MedianFilter.apply intIpp (MedianFilter.stamp intIpp (some [5, 6])
          (MedianFilter.init intIpp MedianFilter.new 3 .REAL_TIME .DOUBLE).2) [4, 9, 0]).1 ∧
    (MedianFilter.apply intIpp (MedianFilter.resetInitialConditions intIpp
      (MedianFilter.applyPackets intIpp (MedianFilter.stamp intIpp (some [5, 6])
        (MedianFilter.init intIpp MedianFilter.new 3 .REAL_TIME .DOUBLE).2)
        [[1, 2], [127]]).2).2 [4, 9, 0]).2.1
      = (MedianFilter.apply intIpp (MedianFilter.stamp intIpp (some [5, 6])
          (MedianFilter.init intIpp MedianFilter.new 3 .REAL_TIME .DOUBLE).2) [4, 9, 0]).2.1) :=
  ⟨by decide,
    reset_then_apply_as_fresh intIpp rfl 3 .REAL_TIME .DOUBLE MedianFilter.new MedianFilter.new
      _ _ rfl rfl (some [5, 6]) [[1, 2], [127]] [4, 9, 0]⟩

end Utilities.FilterImplementations

end RTSeis

namespace RTSeis

/-! ## Normalised frequencies -/

namespace PostProcessing.SingleChannel

/-- The Nyquist frequency of a positive sampling period is positive. -/
theorem nyquist_pos {K : Type} [LinearOrderedField K] (dt : K) (hdt : 0 < dt) :
    0 < computeNyquistFrequencyFromSamplingPeriod dt := by
  unfold computeNyquistFrequencyFromSamplingPeriod
  positivity

/-- C21 as stated fails at both ends of the range: with `dt = 1/2` (Nyquist
frequency `1`) the cutoffs `fc = 0` and `fc = 1` are accepted and normalised
to `0` and `1`; nothing is thrown. -/
theorem normalizedFrequency_endpoints_accepted :
    computeNyquistFrequencyFromSamplingPeriod (1 / 2 : ℚ) = 1 ∧
    computeNormalizedFrequencyFromSamplingPeriod (0 : ℚ) (1 / 2) = .ok 0 ∧
    computeNormalizedFrequencyFromSamplingPeriod (1 : ℚ) (1 / 2) = .ok 1 := by
  refine ⟨?_, ?_, ?_⟩ <;>
    norm_num [computeNormalizedFrequencyFromSamplingPeriod,
      computeNyquistFrequencyFromSamplingPeriod]

/-- C21 (amended): for every sampling period `dt > 0` and cutoff `fc`, with
`f_N = 1/(2*dt)` and `r = fc / f_N`, the function returns `r` when
`0 <= r <= 1` (the ends `fc = 0` and `fc = f_N` included) and throws
`std::invalid_argument` when `r < 0` or `r > 1`. -/
theorem normalizedFrequency_closed_range {K : Type} [LinearOrderedField K]
    (fc dt : K) (hdt : 0 < dt) :
    (0 ≤ fc / computeNyquistFrequencyFromSamplingPeriod dt ∧
        fc / computeNyquistFrequencyFromSamplingPeriod dt ≤ 1 →
      computeNormalizedFrequencyFromSamplingPeriod fc dt
        = .ok (fc / computeNyquistFrequencyFromSamplingPeriod dt)) ∧
    (fc / computeNyquistFrequencyFromSamplingPeriod dt < 0 ∨
        1 < fc / computeNyquistFrequencyFromSamplingPeriod dt →
      computeNormalizedFrequencyFromSamplingPeriod fc dt = .error .invalid_argument) := by
  have hN := nyquist_pos dt hdt
  unfold computeNormalizedFrequencyFromSamplingPeriod
  simp only []
  constructor
  · rintro ⟨h0, h1⟩
    have h0' : 0 ≤ fc := by
      by_contra hlt
      exact absurd h0 (not_le.mpr (div_neg_of_neg_of_pos (not_le.mp hlt) hN))
    have h1' : fc ≤ computeNyquistFrequencyFromSamplingPeriod dt := (div_le_one hN).mp h1
    rw [if_neg]
    rintro (h | h)
    · exact absurd h0' (not_le.mpr h)
    · exact absurd h1' (not_le.mpr h)
  · intro h
    rw [if_pos]
    rcases h with h | h
    · left
      by_contra hge
      exact absurd h (not_lt.mpr (div_nonneg (not_lt.mp hge) hN.le))
    · right
      exact (one_lt_div hN).mp h

/-- Witness for C21: `dt = 1/2`, `fc = 1/4` gives `r = 1/4`. -/
theorem normalizedFrequency_closed_range_witness :
    (0 : ℚ) < 1 / 2 ∧
    computeNormalizedFrequencyFromSamplingPeriod (1 / 4 : ℚ) (1 / 2)
      = .ok (1 / 4 / computeNyquistFrequencyFromSamplingPeriod (1 / 2 : ℚ)) :=
  ⟨by norm_num,
    (normalizedFrequency_closed_range (1 / 4 : ℚ) (1 / 2) (by norm_num)).1
      (by norm_num [computeNyquistFrequencyFromSamplingPeriod])⟩

/-- C22 as stated fails at the upper end of the range: with `dt = 1/2`
(Nyquist frequency `1`) the band `(1/2, 1)` is accepted and normalised to
`(1/2, 1)`; nothing is thrown. -/
theorem normalizedBand_nyquist_accepted :
    computeNyquistFrequencyFromSamplingPeriod (1 / 2 : ℚ) = 1 ∧
    computeNormalizedFrequencyFromSamplingPeriodPair ((1 / 2, 1) : ℚ × ℚ) (1 / 2)
      = .ok (1 / 2, 1) := by
  refine ⟨?_, ?_⟩ <;>
    norm_num [computeNormalizedFrequencyFromSamplingPeriodPair,
      computeNyquistFrequencyFromSamplingPeriod]

/-- C22 (amended): for every sampling period `dt > 0` and pair `(f1, f2)`,
with `f_N = 1/(2*dt)`, `r1 = f1 / f_N` and `r2 = f2 / f_N`, the function
returns `(r1, r2)` when `0 < r1 < r2 <= 1` (the end `f2 = f_N` included) and
throws `std::invalid_argument` when `r1 < 0` or `r1 >= r2` or `r2 > 1`. -/
theorem normalizedBand_range {K : Type} [LinearOrderedField K]
    (f1 f2 dt : K) (hdt : 0 < dt) :
    (0 < f1 / computeNyquistFrequencyFromSamplingPeriod dt ∧
        f1 / computeNyquistFrequencyFromSamplingPeriod dt
          < f2 / computeNyquistFrequencyFromSamplingPeriod dt ∧
        f2 / computeNyquistFrequencyFromSamplingPeriod dt ≤ 1 →
      computeNormalizedFrequencyFromSamplingPeriodPair (f1, f2) dt
        = .ok (f1 / computeNyquistFrequencyFromSamplingPeriod dt,
            f2 / computeNyquistFrequencyFromSamplingPeriod dt)) ∧
    (f1 / computeNyquistFrequencyFromSamplingPeriod dt < 0 ∨
        f2 / computeNyquistFrequencyFromSamplingPeriod dt
          ≤ f1 / computeNyquistFrequencyFromSamplingPeriod dt ∨
        1 < f2 / computeNyquistFrequencyFromSamplingPeriod dt →
      computeNormalizedFrequencyFromSamplingPeriodPair (f1, f2) dt
        = .error .invalid_argument) := by
  have hN := nyquist_pos dt hdt
  unfold computeNormalizedFrequencyFromSamplingPeriodPair
  simp only []
  constructor
  · rintro ⟨h0, h12, h2⟩
    have h0' : 0 < f1 := by
      by_contra hle
      exact absurd h0 (not_lt.mpr (div_nonpos_of_nonpos_of_nonneg (not_lt.mp hle) hN.le))
    have h12' : f1 < f2 := (div_lt_div_iff_of_pos_right hN).mp h12
    have h2' : f2 ≤ computeNyquistFrequencyFromSamplingPeriod dt := (div_le_one hN).mp h2
    rw [if_neg (not_lt.mpr h0'.le), if_neg (not_le.mpr h12'), if_neg (not_lt.mpr h2')]
  · intro h
    split_ifs with c1 c2 c3
    · rfl
    · rfl
    · rfl
    · exfalso
      rcases h with h | h | h
      · exact absurd h (not_lt.mpr (div_nonneg (not_lt.mp c1) hN.le))
      · exact c2 ((div_le_div_iff_of_pos_right hN).mp h)
      · exact c3 ((one_lt_div hN).mp h)

/-- Witness for C22: `dt = 1/2`, the band `(1/4, 1/2)` gives `(1/4, 1/2)`. -/
theorem normalizedBand_range_witness :
    (0 : ℚ) < 1 / 2 ∧
    computeNormalizedFrequencyFromSamplingPeriodPair ((1 / 4, 1 / 2) : ℚ × ℚ) (1 / 2)
      = .ok (1 / 4 / computeNyquistFrequencyFromSamplingPeriod (1 / 2 : ℚ),
          1 / 2 / computeNyquistFrequencyFromSamplingPeriod (1 / 2 : ℚ)) :=
  ⟨by norm_num,
    (normalizedBand_range (1 / 4 : ℚ) (1 / 2) (1 / 2) (by norm_num)).1
      (by norm_num [computeNyquistFrequencyFromSamplingPeriod])⟩

end PostProcessing.SingleChannel

end RTSeis

namespace RTSeis

/-! ## Second-order sections: copies and the tolerance -/

namespace Utilities.FilterRepresentations.SOS

/-- When `a == b` holds, in terms of the fields. -/
theorem eq_eq_true_iff (a b : SOSImpl) :
    eq a b = true ↔
      a.ns = b.ns ∧ a.bs.length = b.bs.length ∧ a.as.length = b.as.length ∧
      (∀ i, i < a.bs.length → |a.bs.getD i 0 - b.bs.getD i 0| ≤ a.tol) ∧
      (∀ i, i < a.as.length → |a.as.getD i 0 - b.as.getD i 0| ≤ a.tol) := by
  rw [← differsBeyond_eq_false_iff, ← differsBeyond_eq_false_iff]
  unfold eq
  split_ifs with h1 h2 h3 h4 h5
  · exact ⟨fun h => (by cases h), fun h => absurd h.2.1 h1⟩
  · exact ⟨fun h => (by cases h), fun h => absurd h.2.2.1 h2⟩
  · exact ⟨fun h => (by cases h), fun h => absurd h.1 h3⟩
  · exact ⟨fun h => (by cases h), fun h => by rw [h4] at h; exact absurd h.2.2.2.1 (by simp)⟩
  · exact ⟨fun h => (by cases h), fun h => by rw [h5] at h; exact absurd h.2.2.2.2 (by simp)⟩
  · refine ⟨fun _ => ⟨not_not.mp h3, not_not.mp h1, not_not.mp h2, ?_, ?_⟩, fun _ => rfl⟩
    · simpa using h4
    · simpa using h5

/-- An `SOS` with a non-negative tolerance compares equal to itself. -/
theorem eq_self_of_tol_nonneg (s : SOSImpl) (h : 0 ≤ s.tol) : eq s s = true := by
  rw [eq_eq_true_iff]
  refine ⟨rfl, rfl, rfl, ?_, ?_⟩ <;>
  · intro i _
    rw [sub_self, abs_zero]
    exact h

/-- C25: for every `SOS` `s`, the copy-constructed value and the value
copy-assigned over any object `t` have the same number of sections, the same
numerator and denominator coefficients and the same equality tolerance as
`s`; and when that tolerance is non-negative the copy `c` satisfies `c == s`
and `s == c`, and `s == s`. -/
theorem copy_equals_source (s t : SOSImpl) :
    assign t s = copy s ∧
    getNumberOfSections (copy s) = getNumberOfSections s ∧
    getNumeratorCoefficients (copy s) = getNumeratorCoefficients s ∧
    getDenominatorCoefficients (copy s) = getDenominatorCoefficients s ∧
    (copy s).tol = s.tol ∧
    (0 ≤ s.tol → eq (copy s) s = true ∧ eq s (copy s) = true ∧ eq s s = true) := by
  have hc : copy s = s := rfl
  refine ⟨rfl, rfl, rfl, rfl, rfl, fun h => ?_⟩
  rw [hc]
  exact ⟨eq_self_of_tol_nonneg s h, eq_self_of_tol_nonneg s h, eq_self_of_tol_nonneg s h⟩

/-- Witness for C25: a one-section filter with tolerance `1/2`. -/
theorem copy_equals_source_witness :
    (0 : ℚ) ≤ (setEqualityTolerance
      (setSecondOrderSections new 1 [1, 2, 3] [4, 5, 6]).2 (1 / 2)).tol ∧
    eq (copy (setEqualityTolerance
        (setSecondOrderSections new 1 [1, 2, 3] [4, 5, 6]).2 (1 / 2)))
      (setEqualityTolerance (setSecondOrderSections new 1 [1, 2, 3] [4, 5, 6]).2 (1 / 2))
      = true :=
  ⟨by norm_num [setEqualityTolerance],
    ((copy_equals_source (setEqualityTolerance
      (setSecondOrderSections new 1 [1, 2, 3] [4, 5, 6]).2 (1 / 2)) new).2.2.2.2.2
        (by norm_num [setEqualityTolerance])).1⟩

/-- Whatever `setSecondOrderSections` does, the tolerance afterwards is the
default one. -/
theorem setSecondOrderSections_tol (s : SOSImpl) (ns : Int) (bs as : List ℚ) :
    (setSecondOrderSections s ns bs as).2.tol = DEFAULT_TOL := by
  rcases setSecondOrderSections_cases s ns bs as with ⟨h, _⟩ | ⟨h, _⟩ <;> rw [h] <;> rfl

/-- C26: for every tolerance `t` set with `setEqualityTolerance(t)` and every
later call of `setSecondOrderSections`, returning or throwing, the object `r`
afterwards holds the default tolerance `1e-12`, and `r == o` holds exactly
when the section counts and coefficient counts agree and all corresponding
coefficients differ by at most `1e-12`: `t` plays no part. -/
theorem setSecondOrderSections_resets_tolerance (s o : SOSImpl) (t : ℚ) (ns : Int)
    (bs as : List ℚ) :
    (setEqualityTolerance s t).tol = t ∧
    (setSecondOrderSections (setEqualityTolerance s t) ns bs as).2.tol = 1 / 10 ^ 12 ∧
    (eq (setSecondOrderSections (setEqualityTolerance s t) ns bs as).2 o = true ↔
      (setSecondOrderSections (setEqualityTolerance s t) ns bs as).2.ns = o.ns ∧
      (setSecondOrderSections (setEqualityTolerance s t) ns bs as).2.bs.length
        = o.bs.length ∧
      (setSecondOrderSections (setEqualityTolerance s t) ns bs as).2.as.length
        = o.as.length ∧
      (∀ i, i < (setSecondOrderSections (setEqualityTolerance s t) ns bs as).2.bs.length →
        |(setSecondOrderSections (setEqualityTolerance s t) ns bs as).2.bs.getD i 0
          - o.bs.getD i 0| ≤ 1 / 10 ^ 12) ∧
      (∀ i, i < (setSecondOrderSections (setEqualityTolerance s t) ns bs as).2.as.length →
        |(setSecondOrderSections (setEqualityTolerance s t) ns bs as).2.as.getD i 0
          - o.as.getD i 0| ≤ 1 / 10 ^ 12)) := by
  have htol := setSecondOrderSections_tol (setEqualityTolerance s t) ns bs as
  refine ⟨rfl, htol, ?_⟩
  rw [eq_eq_true_iff, htol]
  rfl

end Utilities.FilterRepresentations.SOS

/-! ## `fftShift` applied twice -/

namespace Utilities.Transforms.DFTUtilities

/-- Rotating a list that starts with `0` and goes on with at least one `1` by
one position changes it. -/
theorem rotate_one_ne (m : Nat) :
    ((0 : Int) :: List.replicate (m + 1) 1).rotate 1 ≠ (0 : Int) :: List.replicate (m + 1) 1 := by
  rw [List.rotate_cons_succ, List.rotate_zero, List.replicate_succ, List.cons_append]
  intro h
  have := List.head_eq_of_cons_eq h
  exact absurd this (by decide)

/-- C27: for every `x` of even length (below `2^31`), `fftShift(fftShift(x))
= x`; for every `x` of odd length, applying `fftShift` twice rotates `x` by one
position; and for every odd length `n >= 3` there is an `x` of length `n` with
`fftShift(fftShift(x)) != x`. -/
theorem fftShift_twice {α : Type} [Inhabited α] (x : List α) (hlen : x.length < 2 ^ 31) :
    (x.length % 2 = 0 → fftShift (fftShift x) = x) ∧
    (x.length % 2 = 1 → fftShift (fftShift x) = x.rotate 1) ∧
    (∀ n : Nat, 3 ≤ n → n % 2 = 1 → n < 2 ^ 31 →
      ∃ z : List Int, z.length = n ∧ fftShift (fftShift z) ≠ z) := by
  have htwice : ∀ {β : Type} [Inhabited β] (l : List β), l.length < 2 ^ 31 →
      fftShift (fftShift l) = l.rotate ((l.length + 1) / 2 + (l.length + 1) / 2) := by
    intro β _ l hl
    have h1 := fftShift_eq_rotate l hl
    have h2 := fftShift_eq_rotate (fftShift l) (by rw [h1, List.length_rotate]; exact hl)
    rw [h2, h1, List.length_rotate, List.rotate_rotate]
  have hodd : ∀ {β : Type} [Inhabited β] (l : List β), l.length < 2 ^ 31 →
      l.length % 2 = 1 → fftShift (fftShift l) = l.rotate 1 := by
    intro β _ l hl ho
    rw [htwice l hl]
    have : (l.length + 1) / 2 + (l.length + 1) / 2 = l.length + 1 := by omega
    rw [this, ← List.rotate_mod l (l.length + 1), Nat.add_mod_left, List.rotate_mod]
  refine ⟨fun he => ?_, hodd x hlen, ?_⟩
  · rw [htwice x hlen]
    have : (x.length + 1) / 2 + (x.length + 1) / 2 = x.length := by omega
    rw [this, List.rotate_length]
  · intro n h3 ho hn
    obtain ⟨m, rfl⟩ : ∃ m, n = m + 2 := ⟨n - 2, by omega⟩
    refine ⟨(0 : Int) :: List.replicate (m + 1) 1, by simp, ?_⟩
    rw [hodd _ (by rw [List.length_cons, List.length_replicate]; exact hn)
      (by rw [List.length_cons, List.length_replicate]; exact ho)]
    exact rotate_one_ne m

/-- Witness for C27: `1, 2, 3, 4` comes back after two shifts, `1, 2, 3` comes
back rotated by one position. -/
theorem fftShift_twice_witness :
    fftShift (fftShift ([1, 2, 3, 4] : List Int)) = [1, 2, 3, 4] ∧
    fftShift (fftShift ([1, 2, 3] : List Int)) = [2, 3, 1] :=
  ⟨(fftShift_twice ([1, 2, 3, 4] : List Int) (by decide)).1 (by decide),
    (fftShift_twice ([1, 2, 3] : List Int) (by decide)).2.1 (by decide)⟩

end Utilities.Transforms.DFTUtilities

end RTSeis

namespace RTSeis

/-! ## `unwrap` adds whole turns -/

namespace Utilities.Transforms.DFTUtilities

/-- The remainder differs from its argument by a whole multiple of the
divisor. -/
theorem rem_sub_whole {K : Type} [LinearOrderedField K] [FloorRing K] (x y : K) :
    ∃ m : Int, rem x y - x = y * (m : K) :=
  ⟨-truncToInt (x / y), by unfold rem; push_cast; ring⟩

/-- Every sample written by the last loop of `unwrap` is the sample read plus
a whole number of turns, when the running sum starts at a whole number of
turns. -/
theorem unwrapLoop_whole_turns {K : Type} [LinearOrderedField K] (twopi tol : K)
    (l : List (K × K)) :
    ∀ c : K, (∃ k : Int, c = twopi * (k : K)) →
      List.Forall₂ (fun out v => ∃ m : Int, out - v = twopi * (m : K))
        (unwrapLoop twopi tol c l) (l.map Prod.fst) := by
  induction l with
  | nil => intro c _; exact List.Forall₂.nil
  | cons h t ih =>
    rintro c ⟨k, rfl⟩
    obtain ⟨qi, bi⟩ := h
    rw [unwrapLoop_cons, List.map_cons]
    have hj : ∃ j : Int, twopi * (k : K) + jump twopi tol bi = twopi * (j : K) :=
      ⟨k + ((if bi > tol then -1 else 0) + (if bi < -tol then 1 else 0)), by
        unfold jump; push_cast; ring⟩
    refine List.Forall₂.cons ?_ (ih _ hj)
    obtain ⟨j, hj⟩ := hj
    exact ⟨j, by rw [hj]; ring⟩

/-- The phase differences are as many as the phases. -/
theorem length_differentiate {K : Type} [LinearOrderedField K] (q : List K) :
    (differentiate q).length = q.length := by
  cases q with
  | nil => rfl
  | cons a t => simp [differentiate]

/-- Every sample of `unwrapCore` is the input sample plus a whole number of
turns. -/
theorem unwrapCore_whole_turns {K : Type} [LinearOrderedField K] [FloorRing K]
    (pi tol : K) (p : List K) :
    List.Forall₂ (fun out v => ∃ m : Int, out - v = 2 * pi * (m : K))
      (unwrapCore pi tol p) p := by
  unfold unwrapCore
  simp only []
  have h := unwrapLoop_whole_turns (2 * pi) tol
    ((p.map fun v => rem (v - ippsMin p) (2 * pi) + ippsMin p).zip
      (differentiate (p.map fun v => rem (v - ippsMin p) (2 * pi) + ippsMin p)))
    0 ⟨0, by simp⟩
  rw [List.map_fst_zip _ _ (by rw [length_differentiate]), List.forall₂_map_right_iff] at h
  refine h.imp ?_
  rintro out v ⟨m, hm⟩
  obtain ⟨m', hm'⟩ := rem_sub_whole (v - ippsMin p) (2 * pi)
  refine ⟨m + m', ?_⟩
  have : out - v = (out - (rem (v - ippsMin p) (2 * pi) + ippsMin p))
      + (rem (v - ippsMin p) (2 * pi) - (v - ippsMin p)) := by ring
  rw [this, hm, hm']
  push_cast
  ring

/-- C28: for every non-empty phase vector `p` (of fewer than `2^31` samples),
every tolerance `tol >= 0` and whatever the value `pi` of `M_PI`,
`DFTUtilities::unwrap` returns a vector `q` of the length of `p` with
`q[i] - p[i] = 2*pi*m` for some integer `m`, at every index `i`. -/
theorem unwrap_whole_turns {K : Type} [LinearOrderedField K] [FloorRing K]
    (pi tol : K) (p : List K) (hp : p ≠ []) (hlen : p.length < 2 ^ 31) (htol : 0 ≤ tol) :
    ∃ q : List K, unwrap pi p tol = .ok q ∧ q.length = p.length ∧
      ∀ i (h1 : i < q.length) (h2 : i < p.length),
        ∃ m : Int, q[i] - p[i] = 2 * pi * (m : K) := by
  refine ⟨unwrapCore pi tol p, unwrap_eq_core pi tol p hp hlen htol,
    length_unwrapCore pi tol p, ?_⟩
  have h := unwrapCore_whole_turns pi tol p
  rw [List.forall₂_iff_get] at h
  intro i h1 h2
  exact h.2 i h1 h2

/-- Witness for C28: the two phases `0, 4` with tolerance `1` and
`pi = 3`. -/
theorem unwrap_whole_turns_witness :
    ∃ q : List ℚ, unwrap 3 [0, 4] 1 = .ok q ∧ q.length = ([0, 4] : List ℚ).length ∧
      ∀ i (h1 : i < q.length) (h2 : i < ([0, 4] : List ℚ).length),
        ∃ m : Int, q[i] - ([0, 4] : List ℚ)[i] = 2 * 3 * (m : ℚ) :=
  unwrap_whole_turns 3 1 [0, 4] (by simp) (by decide) (by norm_num)

end Utilities.Transforms.DFTUtilities

end RTSeis

namespace RTSeis

/-! ## Downsampler -/

namespace Utilities.FilterImplementations

/-- With `skip < q` samples passed over first, `sampleDown` keeps
`floor((n + q - 1 - skip)/q)` of `n` samples. -/
theorem length_sampleDown {α : Type} (q : Nat) (hq : 1 ≤ q) (x : List α) :
    ∀ skip, skip < q →
      (Downsample.sampleDown q skip x).length = (x.length + q - 1 - skip) / q := by
  induction x with
  | nil =>
    intro skip hs
    rw [Downsample.sampleDown, List.length_nil]
    exact (Nat.div_eq_of_lt (by omega)).symm
  | cons a t ih =>
    intro skip hs
    cases skip with
    | zero =>
      rw [Downsample.sampleDown, List.length_cons, ih (q - 1) (by omega), List.length_cons]
      have h1 : t.length + q - 1 - (q - 1) = t.length := by omega
      have h2 : t.length + 1 + q - 1 - 0 = t.length + q := by omega
      rw [h1, h2, Nat.add_div_right _ (by omega : 0 < q)]
    | succ k =>
      rw [Downsample.sampleDown, ih k (by omega), List.length_cons]
      have h1 : t.length + 1 + q - 1 - (k + 1) = t.length + q - 1 - k := by omega
      rw [h1]

/-- With `skip < q` samples passed over first, sample `j` kept by `sampleDown`
is input sample `skip + j*q`. -/
theorem getElem?_sampleDown {α : Type} (q : Nat) (hq : 1 ≤ q) (x : List α) :
    ∀ skip j, skip < q → (Downsample.sampleDown q skip x)[j]? = x[skip + j * q]? := by
  induction x with
  | nil =>
    intro skip j _
    rw [Downsample.sampleDown]
    simp
  | cons a t ih =>
    intro skip j hs
    cases skip with
    | zero =>
      rw [Downsample.sampleDown]
      cases j with
      | zero => simp
      | succ j =>
        rw [List.getElem?_cons_succ, ih (q - 1) j (by omega)]
        have h : 0 + (j + 1) * q = (q - 1 + j * q) + 1 := by
          rw [Nat.add_mul, Nat.one_mul]
          omega
        rw [h, List.getElem?_cons_succ]
    | succ k =>
      rw [Downsample.sampleDown, ih k j (by omega)]
      have h : k + 1 + j * q = (k + j * q) + 1 := by omega
      rw [h, List.getElem?_cons_succ]

/-- The quotient `(n + q - 1) / q` is the ceiling of `n/q`. -/
theorem ceil_div_eq (n q : Nat) (hq : 1 ≤ q) :
    ⌈((n : ℚ) / (q : ℚ))⌉ = (((n + q - 1) / q : Nat) : Int) := by
  have hq0 : (0 : ℚ) < (q : ℚ) := by exact_mod_cast hq
  have hlo : (n + q - 1) / q * q ≤ n + q - 1 := Nat.div_mul_le_self _ _
  have hhi : n + q - 1 < ((n + q - 1) / q + 1) * q := by
    have := Nat.lt_div_mul_add (a := n + q - 1) (b := q) (by omega)
    rw [Nat.add_mul, Nat.one_mul]
    exact this
  have h1 : (n + q - 1) / q * q < n + q := by omega
  have h2 : n ≤ (n + q - 1) / q * q := by
    rw [Nat.add_mul, Nat.one_mul] at hhi
    omega
  generalize (n + q - 1) / q = z at h1 h2
  rw [Int.ceil_eq_iff, Int.cast_natCast]
  constructor
  · rw [lt_div_iff₀ hq0]
    have h' : (z : ℚ) * (q : ℚ) < (n : ℚ) + (q : ℚ) := by exact_mod_cast h1
    linarith
  · rw [div_le_iff₀ hq0]
    exact_mod_cast h2

/-- C24: for every downsampling factor `q >= 1` and every input `x` of
length `n >= 1`, a `Downsample` initialised in post-processing mode and applied
to `x`, with room for `ny >= ceil(n/q)` samples in `y`, writes exactly
`ceil(n/q)` samples, the number `estimateSpace(n)` announces, sample `j` being
`x[j*q]`; the rest of `y` and the object are left as they were. -/
theorem downsample_postProcessing_every_qth {α : Type} (q : Nat) (hq : 1 ≤ q)
    (x ys : List α) (hx : 1 ≤ x.length) (ny : Int)
    (hny : (((x.length + q - 1) / q : Nat) : Int) ≤ ny) :
    ∃ (d : DownsampleImpl) (out : List α),
      Downsample.init Downsample.new q .POST_PROCESSING = (.ok (), d) ∧
      Downsample.estimateSpace d x.length = .ok (out.length : Int) ∧
      Downsample.apply d x.length (some x) ny (some ys)
        = (.ok ((out.length : Int), some (out ++ ys.drop out.length)), d) ∧
      (out.length : Int) = ⌈((x.length : ℚ) / (q : ℚ))⌉ ∧
      ∀ j, j < out.length → j * q < x.length ∧ out[j]? = x[j * q]? := by
  have hlen := length_sampleDown q hq x 0 (by omega)
  have hget := fun j => getElem?_sampleDown q hq x 0 j (by omega)
  rw [Nat.sub_zero] at hlen
  refine ⟨{ downFactor := q, phase := 0, mode := .POST_PROCESSING, linit := true },
    Downsample.sampleDown q 0 x, ?_, ?_, ?_, ?_, ?_⟩
  · unfold Downsample.init
    rw [if_neg (by omega)]
  · unfold Downsample.estimateSpace
    have h : ((x.length : Int) + (q : Int) - 1 - 0) = ((x.length + q - 1 : Nat) : Int) := by
      omega
    simp only [Bool.not_true, Bool.false_eq_true, if_false]
    rw [if_neg (by omega), h, hlen, Int.natCast_div]
  · unfold Downsample.apply
    simp only [Bool.not_true, Bool.false_eq_true, if_false, Int.toNat_ofNat, List.take_length]
    rw [if_neg (by omega)]
    simp only [Int.toNat_zero]
    rw [if_neg (by rw [hlen]; omega)]
  · rw [hlen, ceil_div_eq x.length q hq]
  · intro j hj
    have h := hget j
    rw [Nat.zero_add] at h
    refine ⟨?_, h⟩
    by_contra hge
    rw [List.getElem?_eq_getElem hj, List.getElem?_eq_none (by omega)] at h
    cases h

/-- Witness for C24: the five samples `10, 20, 30, 40, 50` downsampled by
`q = 2`. -/
theorem downsample_postProcessing_every_qth_witness :
    Downsample.apply (Downsample.init Downsample.new 2 .POST_PROCESSING).2 5
        (some [10, 20, 30, 40, 50]) 5 (some [0, 0, 0, 0, (0 : Int)])
      = (.ok (3, some [10, 30, 50, 0, 0]),
          (Downsample.init Downsample.new 2 .POST_PROCESSING).2) ∧
    ∃ (d : DownsampleImpl) (out : List Int),
      Downsample.init Downsample.new ((2 : Nat) : Int) .POST_PROCESSING = (.ok (), d) ∧
      Downsample.estimateSpace d ([10, 20, 30, 40, 50] : List Int).length
        = .ok (out.length : Int) ∧
      Downsample.apply d ([10, 20, 30, 40, 50] : List Int).length (some [10, 20, 30, 40, 50])
          5 (some [0, 0, 0, 0, (0 : Int)])
        = (.ok ((out.length : Int), some (out ++ [0, 0, 0, 0, (0 : Int)].drop out.length)), d) ∧
      (out.length : Int) = ⌈((([10, 20, 30, 40, 50] : List Int).length : ℚ) / ((2 : Nat) : ℚ))⌉ ∧
      ∀ j, j < out.length → j * 2 < ([10, 20, 30, 40, 50] : List Int).length ∧
        out[j]? = ([10, 20, 30, 40, 50] : List Int)[j * 2]? :=
  ⟨rfl, downsample_postProcessing_every_qth 2 (by decide) [10, 20, 30, 40, 50]
    [0, 0, 0, 0, 0] (by decide) 5 (by decide)⟩

end Utilities.FilterImplementations

end RTSeis

namespace RTSeis

/-! ## Waveform: the sampling period -/

namespace PostProcessing.SingleChannel

/-- Copying data into the object leaves both sampling periods alone. -/
theorem setData_periods {K : Type} [Zero K] (self : WaveformImpl K) (n : Int)
    (x : Option (List K)) (lfirst : Bool) :
    (self.setData n x lfirst).dt_ = self.dt_ ∧ (self.setData n x lfirst).dt0_ = self.dt0_ := by
  unfold WaveformImpl.setData
  simp only []
  split_ifs <;> exact ⟨rfl, rfl⟩

/-- Taking the output of the last method as input leaves both sampling
periods alone. -/
theorem chain_periods {K : Type} [Zero K] (self : WaveformImpl K) :
    (Waveform.chain self).dt_ = self.dt_ ∧ (Waveform.chain self).dt0_ = self.dt0_ := by
  unfold Waveform.chain
  split_ifs
  · unfold WaveformImpl.overwriteInputWithOutput
    exact setData_periods _ _ _ _
  · exact ⟨rfl, rfl⟩

/-- Resizing the output leaves both sampling periods alone. -/
theorem resizeOutputData_periods {K : Type} [Zero K] (self : WaveformImpl K) (ny : Int) :
    (self.resizeOutputData ny).dt_ = self.dt_ ∧ (self.resizeOutputData ny).dt0_ = self.dt0_ := by
  unfold WaveformImpl.resizeOutputData
  simp only []
  split_ifs <;> exact ⟨rfl, rfl⟩

/-- When the calls on the `Downsample<T>` object all return, the `try` block
of `downsample` runs to its end, hands the output of `apply` over as output
data and multiplies the sampling period by the factor. -/
theorem downsampleTry_runs {K : Type} [LinearOrderedField K]
    (mk : Int → ProcessingMode → Except Exn (Resampler K))
    (self : WaveformImpl K) (nq len : Int)
    (h : Waveform.resamplerRuns (mk nq .POST_PROCESSING) self len = true) :
    (Waveform.downsampleTry mk self nq len).1 = .ok () ∧
    (Waveform.downsampleTry mk self nq len).2.dt_ = self.dt_ * (nq : K) ∧
    (Waveform.downsampleTry mk self nq len).2.dt0_ = self.dt0_ ∧
    (Waveform.downsampleTry mk self nq len).2.lfirstFilter_ = false := by
  unfold Waveform.resamplerRuns at h
  unfold Waveform.downsampleTry
  cases hm : mk nq .POST_PROCESSING with
  | error e => rw [hm] at h; cases h
  | ok d =>
    rw [hm] at h
    simp only [] at h ⊢
    cases he : d.estimateSpace len with
    | error e => rw [he] at h; cases h
    | ok leny =>
      rw [he] at h
      simp only [] at h ⊢
      cases ha : d.apply len (self.resizeOutputData leny).getInputDataPointer leny
          (self.resizeOutputData leny).getOutputDataPointer with
      | error e => rw [ha] at h; cases h
      | ok r =>
        obtain ⟨h1, h2⟩ := resizeOutputData_periods self leny
        exact ⟨rfl, by simp only []; rw [h1], h2, rfl⟩

/-- When the calls on the `Decimate<T>` object all return, the `try` block of
`decimate` runs to its end, hands the output of `apply` over as output data
and multiplies the sampling period by the factor. -/
theorem decimateTry_runs {K : Type} [LinearOrderedField K]
    (mk : Int → Int → Bool → ProcessingMode → Except Exn (Resampler K))
    (self : WaveformImpl K) (nq nfir len : Int)
    (h : Waveform.resamplerRuns (mk nq nfir true .POST_PROCESSING) self len = true) :
    (Waveform.decimateTry mk self nq nfir len).1 = .ok () ∧
    (Waveform.decimateTry mk self nq nfir len).2.dt_ = self.dt_ * (nq : K) ∧
    (Waveform.decimateTry mk self nq nfir len).2.dt0_ = self.dt0_ ∧
    (Waveform.decimateTry mk self nq nfir len).2.lfirstFilter_ = false := by
  unfold Waveform.resamplerRuns at h
  unfold Waveform.decimateTry
  cases hm : mk nq nfir true .POST_PROCESSING with
  | error e => rw [hm] at h; cases h
  | ok d =>
    rw [hm] at h
    simp only [] at h ⊢
    cases he : d.estimateSpace len with
    | error e => rw [he] at h; cases h
    | ok leny =>
      rw [he] at h
      simp only [] at h ⊢
      cases ha : d.apply len (self.resizeOutputData leny).getInputDataPointer leny
          (self.resizeOutputData leny).getOutputDataPointer with
      | error e => rw [ha] at h; cases h
      | ok r =>
        obtain ⟨h1, h2⟩ := resizeOutputData_periods self leny
        exact ⟨rfl, by simp only []; rw [h1], h2, rfl⟩

/-- A successful call returns normally, multiplies the sampling period by
its factor and leaves the input sampling period alone. -/
theorem resample_completes {K : Type} [LinearOrderedField K]
    (mkDown : Int → ProcessingMode → Except Exn (Resampler K))
    (mkDec : Int → Int → Bool → ProcessingMode → Except Exn (Resampler K))
    (self : WaveformImpl K) (op : Waveform.Resampling)
    (h : Waveform.completes mkDown mkDec self op = true) :
    (Waveform.resample mkDown mkDec self op).1 = .ok () ∧
    (Waveform.resample mkDown mkDec self op).2.dt_ = self.dt_ * ((op.factor : Int) : K) ∧
    (Waveform.resample mkDown mkDec self op).2.dt0_ = self.dt0_ := by
  obtain ⟨hc1, hc2⟩ := chain_periods self
  cases op with
  | downsample nq =>
    unfold Waveform.completes at h
    simp only [Bool.and_eq_true, decide_eq_true_eq] at h
    obtain ⟨⟨hlen, hnq⟩, hok⟩ := h
    obtain ⟨h1, h2, h3, _⟩ := downsampleTry_runs mkDown _ _ _ hok
    unfold Waveform.resample Waveform.downsample
    simp only [WaveformImpl.getLengthOfInputSignal]
    rw [if_neg (by omega), if_neg (by omega)]
    generalize Waveform.downsampleTry mkDown (Waveform.chain self) nq (Waveform.chain self).nx_
      = r at *
    obtain ⟨r1, r2⟩ := r
    simp only [] at h1 h2 h3
    subst h1
    exact ⟨rfl, by rw [← hc1]; exact h2, by rw [← hc2]; exact h3⟩
  | decimate nq filterLength =>
    unfold Waveform.completes at h
    simp only [Bool.and_eq_true, decide_eq_true_eq] at h
    obtain ⟨⟨⟨hlen, hnq⟩, hfl⟩, hok⟩ := h
    obtain ⟨_, h2, h3, _⟩ := decimateTry_runs mkDec _ _ _ _ hok
    unfold Waveform.resample Waveform.decimate
    simp only [WaveformImpl.getLengthOfInputSignal]
    rw [if_neg (by omega), if_neg (by omega), if_neg (by omega)]
    exact ⟨rfl, by rw [← hc1]; exact h2, by rw [← hc2]; exact h3⟩

/-- After a sequence of successful calls the sampling period is the one
before times the product of the factors, and the input sampling period is the
one before. -/
theorem resampleAll_periods {K : Type} [LinearOrderedField K]
    (mkDown : Int → ProcessingMode → Except Exn (Resampler K))
    (mkDec : Int → Int → Bool → ProcessingMode → Except Exn (Resampler K))
    (ops : List Waveform.Resampling) :
    ∀ self : WaveformImpl K, Waveform.allComplete mkDown mkDec self ops = true →
      (Waveform.resampleAll mkDown mkDec self ops).dt_
        = self.dt_ * (((ops.map Waveform.Resampling.factor).prod : Int) : K) ∧
      (Waveform.resampleAll mkDown mkDec self ops).dt0_ = self.dt0_ := by
  induction ops with
  | nil =>
    intro self _
    simp [Waveform.resampleAll]
  | cons op ops ih =>
    intro self h
    unfold Waveform.allComplete at h
    rw [Bool.and_eq_true] at h
    obtain ⟨_, h2, h3⟩ := resample_completes mkDown mkDec self op h.1
    obtain ⟨i1, i2⟩ := ih _ h.2
    unfold Waveform.resampleAll
    rw [i1, i2, h2, h3, List.map_cons, List.prod_cons]
    push_cast
    exact ⟨by ring, rfl⟩

/-- `Waveform::setData` leaves the input sampling period alone and leaves the
sampling period alone or restores it to the input sampling period. -/
theorem waveform_setData_periods {K : Type} [Zero K] (w : WaveformImpl K) (n : Nat)
    (x : Option (List K)) :
    (Waveform.setData w n x).2.dt0_ = w.dt0_ ∧
    ((Waveform.setData w n x).2.dt_ = w.dt_ ∨ (Waveform.setData w n x).2.dt_ = w.dt0_) := by
  obtain ⟨a, b⟩ := setData_periods w.restoreSamplingPeriod n x true
  unfold Waveform.setData
  split_ifs
  · exact ⟨rfl, Or.inl rfl⟩
  · exact ⟨b, Or.inr a⟩

/-- An accepted `Waveform::setData` restores the sampling period to the input
sampling period. -/
theorem waveform_setData_accepted {K : Type} [Zero K] (w : WaveformImpl K) (m : Nat)
    (z : List K) (hm : 1 ≤ m) :
    (Waveform.setData w m (some z)).1 = .ok () ∧ (Waveform.setData w m (some z)).2.dt_ = w.dt0_ := by
  have hc : ¬ (m < 1 ∨ (some z).isNone = true) := by
    rintro (h | h)
    · omega
    · cases h
  obtain ⟨a, _⟩ := setData_periods w.restoreSamplingPeriod m (some z) true
  unfold Waveform.setData
  rw [if_neg hc]
  exact ⟨rfl, a⟩

/-- An accepted `Waveform::setDataPointer` restores the sampling period to the
input sampling period. -/
theorem waveform_setDataPointer_accepted {K : Type} (w : WaveformImpl K) (m : Nat)
    (z : List K) (hm : 1 ≤ m) :
    (Waveform.setDataPointer w m (some z)).1 = .ok () ∧
      (Waveform.setDataPointer w m (some z)).2.dt_ = w.dt0_ := by
  have hc : ¬ (m < 1 ∨ (some z).isNone = true) := by
    rintro (h | h)
    · omega
    · cases h
  unfold Waveform.setDataPointer
  rw [if_neg hc]
  exact ⟨rfl, rfl⟩

/-- C30: after `setSamplingPeriod(dt)` with `dt > 0` and a `setData`,
every successful `downsample(q)` or `decimate(q, ...)` returns normally and
multiplies `getSamplingPeriod()` by `q`, so that after successful calls with
the factors `q1, ..., qk` it is `dt*q1*...*qk`, with `getNyquistFrequency() =
1/(2*getSamplingPeriod())`; an accepted `setData` or `setDataPointer`
afterwards restores `getSamplingPeriod()` to `dt`; and `setSamplingPeriod`
with `dt <= 0` throws `std::invalid_argument` and leaves the object, both
periods included, as it was.  A call is successful when there is data, the
arguments are accepted and `initialize`, `estimateSpace` and `apply` of the
`Downsample<T>` or `Decimate<T>` object all return. -/
theorem sampling_period_bookkeeping {K : Type} [LinearOrderedField K]
    (mkDown : Int → ProcessingMode → Except Exn (Resampler K))
    (mkDec : Int → Int → Bool → ProcessingMode → Except Exn (Resampler K))
    (w0 : WaveformImpl K) (dt : K) (hdt : 0 < dt) (n : Nat) (x : Option (List K))
    (ops : List Waveform.Resampling)
    (hops : Waveform.allComplete mkDown mkDec
      (Waveform.setData (Waveform.setSamplingPeriod w0 dt).2 n x).2 ops = true) :
    (Waveform.setSamplingPeriod w0 dt).1 = .ok () ∧
    Waveform.getSamplingPeriod (Waveform.resampleAll mkDown mkDec
        (Waveform.setData (Waveform.setSamplingPeriod w0 dt).2 n x).2 ops)
      = dt * (((ops.map Waveform.Resampling.factor).prod : Int) : K) ∧
    Waveform.getNyquistFrequency (Waveform.resampleAll mkDown mkDec
        (Waveform.setData (Waveform.setSamplingPeriod w0 dt).2 n x).2 ops)
      = 1 / (2 * Waveform.getSamplingPeriod (Waveform.resampleAll mkDown mkDec
        (Waveform.setData (Waveform.setSamplingPeriod w0 dt).2 n x).2 ops)) ∧
    (∀ (w : WaveformImpl K) (op : Waveform.Resampling),
      Waveform.completes mkDown mkDec w op = true →
        (Waveform.resample mkDown mkDec w op).1 = .ok () ∧
        Waveform.getSamplingPeriod (Waveform.resample mkDown mkDec w op).2
          = Waveform.getSamplingPeriod w * ((op.factor : Int) : K)) ∧
    (∀ (m : Nat) (z : List K), 1 ≤ m →
      Waveform.getSamplingPeriod (Waveform.setData (Waveform.resampleAll mkDown mkDec
        (Waveform.setData (Waveform.setSamplingPeriod w0 dt).2 n x).2 ops) m (some z)).2 = dt ∧
      Waveform.getSamplingPeriod (Waveform.setDataPointer (Waveform.resampleAll mkDown mkDec
        (Waveform.setData (Waveform.setSamplingPeriod w0 dt).2 n x).2 ops) m (some z)).2 = dt) ∧
    (∀ (w : WaveformImpl K) (d : K), d ≤ 0 →
      Waveform.setSamplingPeriod w d = (.error .invalid_argument, w)) := by
  have hset : Waveform.setSamplingPeriod w0 dt = (.ok (), { w0 with dt0_ := dt, dt_ := dt }) := by
    unfold Waveform.setSamplingPeriod
    rw [if_neg (not_le.mpr hdt)]
  have hdata : (Waveform.setData (Waveform.setSamplingPeriod w0 dt).2 n x).2.dt_ = dt ∧
      (Waveform.setData (Waveform.setSamplingPeriod w0 dt).2 n x).2.dt0_ = dt := by
    obtain ⟨a, b⟩ := waveform_setData_periods (Waveform.setSamplingPeriod w0 dt).2 n x
    rw [hset] at a b ⊢
    rcases b with b | b
    · exact ⟨b, a⟩
    · exact ⟨b, a⟩
  obtain ⟨h1, h2⟩ := resampleAll_periods mkDown mkDec ops _ hops
  rw [hdata.1] at h1
  rw [hdata.2] at h2
  refine ⟨by rw [hset], h1, rfl, ?_, ?_, ?_⟩
  · intro w op h
    exact ⟨(resample_completes mkDown mkDec w op h).1,
      (resample_completes mkDown mkDec w op h).2.1⟩
  · intro m z hm
    exact ⟨((waveform_setData_accepted _ m z hm).2).trans h2,
      ((waveform_setDataPointer_accepted _ m z hm).2).trans h2⟩
  · intro w d hd
    unfold Waveform.setSamplingPeriod
    rw [if_pos hd]

/-- Witness for C30: six samples at `dt = 2`, downsampled by `2` with the
downsampler of the specification and then decimated by `3` with a decimator
that only downsamples (its lowpass filter left out); both calls are
successful, one sample is left and the sampling period is `12`. -/
theorem sampling_period_bookkeeping_witness :
    Waveform.allComplete Utilities.FilterImplementations.Downsample.resampler
        (fun nq _ _ mode => Utilities.FilterImplementations.Downsample.resampler nq mode)
        (Waveform.setData (Waveform.setSamplingPeriod (Waveform.new : WaveformImpl ℚ)
          2).2 6 (some [1, 2, 3, 4, 5, 6])).2 [.downsample 2, .decimate 3 5] = true ∧
    Waveform.getData (Waveform.resampleAll Utilities.FilterImplementations.Downsample.resampler
        (fun nq _ _ mode => Utilities.FilterImplementations.Downsample.resampler nq mode)
        (Waveform.setData (Waveform.setSamplingPeriod (Waveform.new : WaveformImpl ℚ)
          2).2 6 (some [1, 2, 3, 4, 5, 6])).2 [.downsample 2]) = [1, 3, 5] ∧
    Waveform.getData (Waveform.resampleAll Utilities.FilterImplementations.Downsample.resampler
        (fun nq _ _ mode => Utilities.FilterImplementations.Downsample.resampler nq mode)
        (Waveform.setData (Waveform.setSamplingPeriod (Waveform.new : WaveformImpl ℚ)
          2).2 6 (some [1, 2, 3, 4, 5, 6])).2 [.downsample 2, .decimate 3 5]) = [1] ∧
    Waveform.getSamplingPeriod (Waveform.resampleAll
        Utilities.FilterImplementations.Downsample.resampler
        (fun nq _ _ mode => Utilities.FilterImplementations.Downsample.resampler nq mode)
        (Waveform.setData (Waveform.setSamplingPeriod (Waveform.new : WaveformImpl ℚ)
          2).2 6 (some [1, 2, 3, 4, 5, 6])).2 [.downsample 2, .decimate 3 5])
      = 2 * (((([.downsample 2, .decimate 3 5] : List Waveform.Resampling).map
          Waveform.Resampling.factor).prod : Int) : ℚ) :=
  ⟨by decide, by decide, by decide,
    (sampling_period_bookkeeping Utilities.FilterImplementations.Downsample.resampler
      (fun nq _ _ mode => Utilities.FilterImplementations.Downsample.resampler nq mode)
      (Waveform.new : WaveformImpl ℚ) 2 (by norm_num) 6 (some [1, 2, 3, 4, 5, 6])
      [.downsample 2, .decimate 3 5] (by decide)).2.1⟩

end PostProcessing.SingleChannel

end RTSeis

namespace RTSeis

/-! ## FIR envelope -/

namespace Utilities.Transforms

/-- What a successful `initialize` leaves in the object. -/
theorem firEnvelope_init_ok {K F : Type} [LinearOrderedField K] (parts : FIREnvelopeParts K F)
    (s0 s : FIREnvelopeImpl K F) (ntaps : Int) (mode : ProcessingMode)
    (h : FIREnvelope.init parts s0 ntaps mode = (.ok (), s)) :
    1 ≤ ntaps ∧ s.mInitialized = true ∧ s.mMode = mode ∧
      s.mType3 = decide (Int.tmod ntaps 2 = 1) ∧ s.mNumberOfTaps = ntaps := by
  unfold FIREnvelope.init at h
  simp only [] at h
  split_ifs at h with h1
  · cases h
  · split at h
    · cases h
    · split at h
      · cases h
      · split at h
        · cases h
        · simp only [Prod.mk.injEq, true_and] at h
          subst h
          exact ⟨by omega, rfl, rfl, rfl, rfl⟩

/-- The de-meaned input followed by `g` zeros, as `transform` builds it. -/
theorem xPad_eq {K : Type} [LinearOrderedField K] (x : List K) (mu : K) (g : Int) (hg : 0 ≤ g) :
    ippsZeroAt (ippsSubC x mu (ippsZero ((x.length : Int) + g)) x.length) x.length g
      = x.map (fun v => v - mu) ++ List.replicate g.toNat 0 := by
  have h1 : ((x.length : Int) + g).toNat = x.length + g.toNat := by omega
  unfold ippsZeroAt ippsSubC ippsZero
  simp only [Int.toNat_ofNat, List.take_length, h1]
  rw [List.take_left' (by simp), List.drop_replicate, Nat.add_sub_cancel_left,
    List.drop_eq_nil_of_le (by simp), List.append_nil]

/-- The output samples of the magnitude followed by the addition of the
mean. -/
theorem getElem?_addC_magnitude {K : Type} [LinearOrderedField K] (sqrt : K → K)
    (re im y : List K) (mu : K) (n i : Nat) (hi : i < n) (hre : n ≤ re.length)
    (him : n ≤ im.length) :
    (ippsAddC_I mu (ippsMagnitude sqrt re im y n) n)[i]?
      = some (sqrt (re.getD i 0 * re.getD i 0 + im.getD i 0 * im.getD i 0) + mu) := by
  have hre' : i < re.length := by omega
  have him' : i < im.length := by omega
  unfold ippsAddC_I ippsMagnitude
  simp only [Int.toNat_ofNat]
  have hz : (List.zipWith (fun a b => sqrt (a * a + b * b)) (re.take n) (im.take n)).length
      = n := by
    simp [List.length_zipWith, hre, him]
  rw [List.take_left' hz, List.getElem?_append_left (by simp [hz, hi]), List.getElem?_map,
    List.getElem?_zipWith, List.getElem?_take_of_lt hi, List.getElem?_take_of_lt hi,
    List.getElem?_eq_getElem hre', List.getElem?_eq_getElem him',
    List.getD_eq_getElem _ _ hre', List.getD_eq_getElem _ _ him']
  rfl

/-- The post-processing transform of an initialised type-III envelope, in
terms of the output `h` of the imaginary filter. -/
theorem transform_type3 {K F : Type} [LinearOrderedField K] (parts : FIREnvelopeParts K F)
    (s : FIREnvelopeImpl K F) (hI : s.mInitialized = true) (hM : s.mMode = .POST_PROCESSING)
    (hT : s.mType3 = true) (hN : 0 ≤ s.mNumberOfTaps) (x y h : List K) (fi : F)
    (hx : 1 ≤ x.length)
    (happly : parts.firApply s.mImagFIRFilter ((x.length : Int) + s.mNumberOfTaps / 2)
      (x.map (fun v => v - ippsMean x x.length)
        ++ List.replicate (s.mNumberOfTaps / 2).toNat 0)
      (List.replicate (x.length + (s.mNumberOfTaps / 2).toNat) 0) = .ok (h, fi)) :
    FIREnvelope.transform parts s x.length (some x) (some y)
      = (.ok (), some (ippsAddC_I (ippsMean x x.length)
          (ippsMagnitude parts.sqrt
            (x.map (fun v => v - ippsMean x x.length)
              ++ List.replicate (s.mNumberOfTaps / 2).toNat 0)
            (h.drop (s.mNumberOfTaps / 2).toNat) y x.length) x.length),
          { s with mMean := ippsMean x x.length, mImagFIRFilter := fi }) := by
  have hg : 0 ≤ s.mNumberOfTaps / 2 := Int.ediv_nonneg hN (by decide)
  have htd : Int.tdiv s.mNumberOfTaps 2 = s.mNumberOfTaps / 2 :=
    Int.tdiv_eq_ediv hN (by decide)
  have hz : (ippsZero ((x.length : Int) + s.mNumberOfTaps / 2) : List K)
      = List.replicate (x.length + (s.mNumberOfTaps / 2).toNat) 0 := by
    unfold ippsZero
    congr 1
    omega
  unfold FIREnvelope.transform
  simp only [FIREnvelope.isInitialized, hI, hM]
  rw [if_neg (by omega)]
  simp only [Bool.not_true, Bool.false_eq_true, if_false]
  unfold FIREnvelope.transformPostProcessing
  simp only [hT, if_true, htd]
  rw [xPad_eq x _ _ hg, hz, happly]

/-- The array `y` keeps its length through the magnitude and the addition of
the mean. -/
theorem length_addC_magnitude {K : Type} [LinearOrderedField K] (sqrt : K → K)
    (re im y : List K) (mu : K) (n : Nat) (hre : n ≤ re.length) (him : n ≤ im.length)
    (hy : n ≤ y.length) :
    (ippsAddC_I mu (ippsMagnitude sqrt re im y n) n).length = y.length := by
  unfold ippsAddC_I ippsMagnitude
  simp only [Int.toNat_ofNat, List.length_append, List.length_map, List.length_take,
    List.length_drop, List.length_zipWith]
  omega

/-- The samples written by the post-processing transform of an envelope
initialised with an odd number of taps, in terms of the output `h` of the
imaginary filter. -/
theorem firEnvelope_type3_samples {K F : Type} [LinearOrderedField K]
    (parts : FIREnvelopeParts K F) (s0 s : FIREnvelopeImpl K F) (ntaps : Int)
    (hodd : ntaps % 2 = 1)
    (hinit : FIREnvelope.init parts s0 ntaps .POST_PROCESSING = (.ok (), s))
    (x y h : List K) (fi : F) (hx : 1 ≤ x.length) (hy : x.length ≤ y.length)
    (happly : parts.firApply s.mImagFIRFilter ((x.length : Int) + ntaps / 2)
      (x.map (fun v => v - x.sum / (x.length : K)) ++ List.replicate (ntaps / 2).toNat 0)
      (List.replicate (x.length + (ntaps / 2).toNat) 0) = .ok (h, fi))
    (hh : x.length + (ntaps / 2).toNat ≤ h.length) :
    ∃ y' : List K,
      FIREnvelope.transform parts s x.length (some x) (some y)
        = (.ok (), some y', { s with mMean := x.sum / (x.length : K), mImagFIRFilter := fi }) ∧
      y'.length = y.length ∧ y'.drop x.length = y.drop x.length ∧
      ∀ i (hi : i < x.length) (hg : i + (ntaps / 2).toNat < h.length),
        y'[i]? = some (x.sum / (x.length : K)
          + parts.sqrt ((x[i] - x.sum / (x.length : K)) ^ 2 + h[i + (ntaps / 2).toNat] ^ 2)) := by
  obtain ⟨h1, hI, hM, hT, hN⟩ := firEnvelope_init_ok parts s0 s ntaps _ hinit
  subst hN
  have hmean : ippsMean x (x.length : Int) = x.sum / (x.length : K) := by
    unfold ippsMean
    rw [Int.toNat_ofNat, List.take_length, Int.cast_natCast]
  have htm : Int.tmod s.mNumberOfTaps 2 = 1 := by
    rw [Int.tmod_eq_emod (by omega) (by decide)]
    exact hodd
  rw [htm] at hT
  have hT' : s.mType3 = true := by rw [hT]; rfl
  rw [← hmean] at happly
  have ht := transform_type3 parts s hI hM hT' (by omega) x y h fi hx happly
  rw [hmean] at ht
  have hre : x.length ≤ (x.map (fun v => v - x.sum / (x.length : K))
      ++ List.replicate (s.mNumberOfTaps / 2).toNat 0).length := by
    rw [List.length_append, List.length_map]
    omega
  have him : x.length ≤ (h.drop (s.mNumberOfTaps / 2).toNat).length := by
    rw [List.length_drop]
    omega
  refine ⟨_, ht, length_addC_magnitude _ _ _ _ _ _ hre him hy, ?_, ?_⟩
  · unfold ippsAddC_I ippsMagnitude
    have hz : (List.zipWith (fun a b => parts.sqrt (a * a + b * b))
        ((x.map (fun v => v - x.sum / (x.length : K))
          ++ List.replicate (s.mNumberOfTaps / 2).toNat 0).take x.length)
        ((h.drop (s.mNumberOfTaps / 2).toNat).take x.length)).length = x.length := by
      rw [List.length_zipWith, List.length_take, List.length_take]
      omega
    simp only [Int.toNat_ofNat]
    rw [List.drop_left' hz, List.take_left' hz]
    have hm : ((List.zipWith (fun a b => parts.sqrt (a * a + b * b))
        ((x.map (fun v => v - x.sum / (x.length : K))
          ++ List.replicate (s.mNumberOfTaps / 2).toNat 0).take x.length)
        ((h.drop (s.mNumberOfTaps / 2).toNat).take x.length)).map
          (fun v => v + x.sum / (x.length : K))).length = x.length := by
      rw [List.length_map, hz]
    rw [List.drop_left' hm]
  · intro i hi hg
    rw [getElem?_addC_magnitude _ _ _ _ _ _ i hi hre him]
    have e1 : (x.map (fun v => v - x.sum / (x.length : K))
        ++ List.replicate (s.mNumberOfTaps / 2).toNat 0).getD i 0 = x[i] - x.sum / (x.length : K) := by
      rw [List.getD_eq_getElem?_getD, List.getElem?_append_left (by simpa using hi),
        List.getElem?_map, List.getElem?_eq_getElem hi]
      rfl
    have e2 : (h.drop (s.mNumberOfTaps / 2).toNat).getD i 0 = h[i + (s.mNumberOfTaps / 2).toNat] := by
      rw [List.getD_eq_getElem?_getD, List.getElem?_drop, Nat.add_comm,
        List.getElem?_eq_getElem hg]
      rfl
    rw [e1, e2, add_comm, pow_two, pow_two]

/-- C23: for an `FIREnvelope` initialised in post-processing mode with an odd
number of taps `ntaps`, `g = floor(ntaps/2)`, every input `x` of length
`n >= 1` with mean `mu = (x[0] + ... + x[n-1])/n`, and `h` the output of the
imaginary filter applied to `(x[0]-mu, ..., x[n-1]-mu, 0, ..., 0)` with `g`
trailing zeros, `transform` returns normally, records `mu`, and writes
`y[i] = mu + sqrt((x[i] - mu)^2 + h[i + g]^2)` for every `i < n`, leaving the
rest of `y` as it was. -/
theorem firEnvelope_postProcessing_formula {K F : Type} [LinearOrderedField K]
    (parts : FIREnvelopeParts K F) (s0 s : FIREnvelopeImpl K F) (ntaps : Int)
    (hodd : ntaps % 2 = 1)
    (hinit : FIREnvelope.init parts s0 ntaps .POST_PROCESSING = (.ok (), s))
    (x y h : List K) (fi : F) (hx : 1 ≤ x.length) (hy : x.length ≤ y.length)
    (happly : parts.firApply s.mImagFIRFilter ((x.length : Int) + ntaps / 2)
      (x.map (fun v => v - x.sum / (x.length : K)) ++ List.replicate (ntaps / 2).toNat 0)
      (List.replicate (x.length + (ntaps / 2).toNat) 0) = .ok (h, fi))
    (hh : x.length + (ntaps / 2).toNat ≤ h.length) :
    ∃ y' : List K,
      FIREnvelope.transform parts s x.length (some x) (some y)
        = (.ok (), some y', { s with mMean := x.sum / (x.length : K), mImagFIRFilter := fi }) ∧
      y'.length = y.length ∧ y'.drop x.length = y.drop x.length ∧
      ∀ i (hi : i < x.length) (hg : i + (ntaps / 2).toNat < h.length),
        y'[i]? = some (x.sum / (x.length : K)
          + parts.sqrt ((x[i] - x.sum / (x.length : K)) ^ 2 + h[i + (ntaps / 2).toNat] ^ 2)) :=
  firEnvelope_type3_samples parts s0 s ntaps hodd hinit x y h fi hx hy happly hh

/-- Witness for C23: three taps, the input `1, 2, 3` (mean `2`), the parts of
the worked examples with the real square root. -/
theorem firEnvelope_postProcessing_formula_witness :
    ∃ y' : List ℝ,
      (FIREnvelope.transform (exampleParts Real.sqrt)
        (FIREnvelope.init (exampleParts Real.sqrt) (FIREnvelope.new (exampleParts Real.sqrt))
          3 .POST_PROCESSING).2 3 (some [1, 2, 3]) (some [0, 0, 0])).2.1 = some y' ∧
      y'.length = 3 :=
  (firEnvelope_postProcessing_formula (exampleParts Real.sqrt)
    (FIREnvelope.new (exampleParts Real.sqrt))
    (FIREnvelope.init (exampleParts Real.sqrt) (FIREnvelope.new (exampleParts Real.sqrt))
      3 .POST_PROCESSING).2 3 (by decide) rfl [1, 2, 3] [0, 0, 0]
    (firDirectForm [1 / 2, 0, -(1 / 2)]
      (([1, 2, 3] : List ℝ).map (fun v => v - ([1, 2, 3] : List ℝ).sum / (3 : Nat))
        ++ List.replicate 1 0) 4 ++ [])
    (some [1 / 2, 0, -(1 / 2)]) (by decide) (by decide) rfl (by decide)).imp
    fun _ hy => ⟨congrArg (fun r => r.2.1) hy.1, hy.2.1⟩

/-- C29: for an `FIREnvelope` initialised in post-processing mode with an odd
number of taps and every input `x` of length `n >= 1` with mean `mu`, whatever
the output `h` of the imaginary filter, every output sample satisfies
`y[i] >= mu + |x[i] - mu|`, hence `y[i] >= x[i]` and `y[i] >= mu`, for every
`i < n`; `sqrt` is the square root of the non-negative numbers. -/
theorem firEnvelope_dominates_signal {K F : Type} [LinearOrderedField K]
    (parts : FIREnvelopeParts K F) (s0 s : FIREnvelopeImpl K F) (ntaps : Int)
    (hodd : ntaps % 2 = 1)
    (hinit : FIREnvelope.init parts s0 ntaps .POST_PROCESSING = (.ok (), s))
    (hsqrt : ∀ v : K, 0 ≤ v → 0 ≤ parts.sqrt v ∧ parts.sqrt v * parts.sqrt v = v)
    (x y h : List K) (fi : F) (hx : 1 ≤ x.length) (hy : x.length ≤ y.length)
    (happly : parts.firApply s.mImagFIRFilter ((x.length : Int) + ntaps / 2)
      (x.map (fun v => v - x.sum / (x.length : K)) ++ List.replicate (ntaps / 2).toNat 0)
      (List.replicate (x.length + (ntaps / 2).toNat) 0) = .ok (h, fi))
    (hh : x.length + (ntaps / 2).toNat ≤ h.length) :
    ∃ (y' : List K) (s' : FIREnvelopeImpl K F),
      FIREnvelope.transform parts s x.length (some x) (some y) = (.ok (), some y', s') ∧
      ∀ i (hi : i < x.length), ∃ v : K, y'[i]? = some v ∧
        x.sum / (x.length : K) + |x[i] - x.sum / (x.length : K)| ≤ v ∧
        x[i] ≤ v ∧ x.sum / (x.length : K) ≤ v := by
  obtain ⟨y', ht, _, _, hs⟩ :=
    firEnvelope_type3_samples parts s0 s ntaps hodd hinit x y h fi hx hy happly hh
  refine ⟨y', _, ht, ?_⟩
  intro i hi
  have hg : i + (ntaps / 2).toNat < h.length := by omega
  refine ⟨_, hs i hi hg, ?_⟩
  generalize x.sum / (x.length : K) = mu
  generalize x[i] = xi
  generalize h[i + (ntaps / 2).toNat] = hv
  have hnn : 0 ≤ (xi - mu) ^ 2 + hv ^ 2 := by positivity
  obtain ⟨r0, rr⟩ := hsqrt _ hnn
  have habs : |xi - mu| ≤ parts.sqrt ((xi - mu) ^ 2 + hv ^ 2) := by
    by_contra hlt
    have h3 := mul_self_lt_mul_self r0 (not_le.mp hlt)
    rw [rr, abs_mul_abs_self] at h3
    have h4 : 0 ≤ hv ^ 2 := by positivity
    have h5 : (xi - mu) ^ 2 = (xi - mu) * (xi - mu) := pow_two _
    linarith
  have h1 := le_abs_self (xi - mu)
  have h2 := abs_nonneg (xi - mu)
  refine ⟨by linarith, by linarith, by linarith⟩

/-- Witness for C29: three taps, the input `1, 2, 3` (mean `2`), the parts of
the worked examples with the real square root. -/
theorem firEnvelope_dominates_signal_witness :
    ∃ y' : List ℝ,
      (FIREnvelope.transform (exampleParts Real.sqrt)
        (FIREnvelope.init (exampleParts Real.sqrt) (FIREnvelope.new (exampleParts Real.sqrt))
          3 .POST_PROCESSING).2 3 (some [1, 2, 3]) (some [0, 0, 0])).2.1 = some y' ∧
      ∀ i (hi : i < ([1, 2, 3] : List ℝ).length), ∃ v : ℝ, y'[i]? = some v ∧
        ([1, 2, 3] : List ℝ)[i] ≤ v := by
  obtain ⟨y', _, ht, hs⟩ := firEnvelope_dominates_signal (exampleParts Real.sqrt)
    (FIREnvelope.new (exampleParts Real.sqrt))
    (FIREnvelope.init (exampleParts Real.sqrt) (FIREnvelope.new (exampleParts Real.sqrt))
      3 .POST_PROCESSING).2 3 (by decide) rfl
    (fun v hv => ⟨Real.sqrt_nonneg v, Real.mul_self_sqrt hv⟩) [1, 2, 3] [0, 0, 0]
    (firDirectForm [1 / 2, 0, -(1 / 2)]
      (([1, 2, 3] : List ℝ).map (fun v => v - ([1, 2, 3] : List ℝ).sum / (3 : Nat))
        ++ List.replicate 1 0) 4 ++ [])
    (some [1 / 2, 0, -(1 / 2)]) (by decide) (by decide) rfl (by decide)
  exact ⟨y', congrArg (fun r => r.2.1) ht,
    fun i hi => (hs i hi).imp fun _ hv => ⟨hv.1, hv.2.2.1⟩⟩

end Utilities.Transforms

end RTSeis
